import Mathlib

/-!
Verification of the strategy-map diagram editor core: the scene graph
(src/src/models/Diagram.ts and the entity classes) and the interaction
controller (InteractionManager).  Coordinates are embedded as rationals;
every comparison the source makes against a real square root
(Math.sqrt) is rendered exactly through its squared form (see sqrtLeB /
sqrtGeB and the justification lemmas next to them).
-/

namespace StrategyMap

/-- 2D point, source class Point (Point.ts): fields x, y. -/
structure Pt where
  x : ℚ
  y : ℚ
deriving DecidableEq, Repr

namespace Pt

/-- Point.add. -/
def add (p q : Pt) : Pt := ⟨p.x + q.x, p.y + q.y⟩

/-- Point.subtract. -/
def subtract (p q : Pt) : Pt := ⟨p.x - q.x, p.y - q.y⟩

/-- Squared distance.  The source computes
Math.sqrt (dx*dx + dy*dy) (Point.distanceTo); every use of that value
is a comparison against a bound or an exact square, so the embedding
keeps the square and compares exactly (see sqrtLeB, sqrtGeB). -/
def dist2 (p q : Pt) : ℚ := (p.x - q.x) ^ 2 + (p.y - q.y) ^ 2

end Pt

/-- Exact rendering of the real comparison sqrt a <= b (for 0 <= a,
which holds for every squared distance). -/
def sqrtLeB (a b : ℚ) : Bool := decide (0 ≤ b ∧ a ≤ b ^ 2)

/-- Exact rendering of the real comparison sqrt a >= b (for 0 <= a). -/
def sqrtGeB (a b : ℚ) : Bool := decide (b ≤ 0 ∨ b ^ 2 ≤ a)

/-- Colors (Style.ts enum Color, 14 fixed values). -/
inductive Color
  | black | gray | red | pink | grape | violet | indigo
  | blue | cyan | teal | green | lime | yellow | orange
deriving DecidableEq, Repr

/-- Stroke widths (Style.ts enum StrokeWidth). -/
inductive StrokeWidth | thin | medium | thick | extraThick
deriving DecidableEq, Repr

/-- Fill styles (Style.ts enum FillStyle). -/
inductive FillStyle | solid | hachure | crossHatch | none
deriving DecidableEq, Repr

/-- Border styles for text labels (Style.ts enum BorderStyle). -/
inductive BorderStyle | none | solid | dashed | dotted
deriving DecidableEq, Repr

/-- Line styles for arrows (Style.ts enum LineStyle). -/
inductive LineStyle | solid | dashed | dotted
deriving DecidableEq, Repr

/-- Font families (FontFamily.ts enum FontFamily). -/
inductive FontFamily | handDrawn | normal | code
deriving DecidableEq, Repr

/-- StyleConfig (Style.ts). -/
structure StyleConfig where
  strokeColor : Color
  backgroundColor : Color
  fillStyle : FillStyle
  strokeWidth : StrokeWidth
  opacity : ℚ
deriving DecidableEq, Repr

/-- DEFAULT_STYLE (Style.ts). -/
def DEFAULT_STYLE : StyleConfig :=
  { strokeColor := .black, backgroundColor := .blue, fillStyle := .solid
    strokeWidth := .medium, opacity := 1 }

/-- Node entity (class Node).  Identity is the string assigned at
construction from the static counter; the embedding threads those
counters explicitly (see Counters). -/
structure NodeE where
  id : String
  position : Pt
  text : String
  radius : ℚ
  isSelected : Bool
  isDragging : Bool
  style : StyleConfig
  fontFamily : FontFamily
deriving DecidableEq, Repr

/-- Arrow entity (class Arrow, unnamed/part_008).  The source stores
references to the two Node objects; node ids are immutable and every
verified operation reads the endpoint through its id, so the embedding
records the referenced node ids and resolves them through the scene
node map at use time. -/
structure ArrowE where
  id : String
  fromId : String
  toId : String
  isSelected : Bool
  strokeColor : Color
  strokeWidth : StrokeWidth
  lineStyle : LineStyle
deriving DecidableEq, Repr

/-- TextLabel entity (class TextLabel, unnamed/part_006). -/
structure TextLabelE where
  id : String
  position : Pt
  text : String
  fontSize : ℚ
  isSelected : Bool
  isDragging : Bool
  width : ℚ
  height : ℚ
  color : Color
  fontFamily : FontFamily
  showBorder : Bool
  borderStyle : BorderStyle
  borderColor : Color
  borderWidth : StrokeWidth
  padding : ℚ
deriving DecidableEq, Repr

/-- Whiteboard entity (class Whiteboard, Whiteboard.ts). -/
structure WhiteboardE where
  id : String
  position : Pt
  width : ℚ
  height : ℚ
  backgroundColor : String
  selected : Bool
deriving DecidableEq, Repr

/-- Node.containsPoint: distanceTo(point) <= radius. -/
def NodeE.containsPoint (n : NodeE) (p : Pt) : Bool :=
  sqrtLeB (Pt.dist2 n.position p) n.radius

/-- Node.moveBy. -/
def NodeE.moveBy (n : NodeE) (delta : Pt) : NodeE :=
  { n with position := n.position.add delta }

/-- Node.setSelected. -/
def NodeE.setSelected (n : NodeE) (b : Bool) : NodeE := { n with isSelected := b }

/-- Node.setDragging. -/
def NodeE.setDragging (n : NodeE) (b : Bool) : NodeE := { n with isDragging := b }

/-- Node.getCenter returns a copy of the position. -/
def NodeE.getCenter (n : NodeE) : Pt := n.position

/-- Exact rational square root where one exists; 0 on inputs that are
not squares of rationals (used only inside getEdgePoint, whose real
value is irrational there; all theorems below evaluate getEdgePoint
only on inputs where the squared length is a perfect rational square,
where this function agrees with the real square root). -/
def ratSqrt (q : ℚ) : ℚ := Rat.sqrt q

/-- Node.getEdgePoint: the source computes the angle with atan2 and
walks radius along (cos, sin).  Mathematically that is
position + radius * (target - position) / length for a nonzero
direction, and position + radius * (1, 0) when target = position
(atan2 0 0 = 0 in JS, so cos = 1 and sin = 0). -/
def NodeE.getEdgePoint (n : NodeE) (target : Pt) : Pt :=
  let dx := target.x - n.position.x
  let dy := target.y - n.position.y
  if dx = 0 ∧ dy = 0 then
    ⟨n.position.x + n.radius, n.position.y⟩
  else
    let len := ratSqrt (dx ^ 2 + dy ^ 2)
    ⟨n.position.x + n.radius * (dx / len), n.position.y + n.radius * (dy / len)⟩

/-- TextLabel.containsPoint: axis-aligned box around position. -/
def TextLabelE.containsPoint (l : TextLabelE) (p : Pt) : Bool :=
  decide (p.x ≥ l.position.x - l.width / 2 ∧ p.x ≤ l.position.x + l.width / 2 ∧
    p.y ≥ l.position.y - l.height / 2 ∧ p.y ≤ l.position.y + l.height / 2)

/-- TextLabel.moveBy. -/
def TextLabelE.moveBy (l : TextLabelE) (delta : Pt) : TextLabelE :=
  { l with position := l.position.add delta }

/-- TextLabel.setSelected. -/
def TextLabelE.setSelected (l : TextLabelE) (b : Bool) : TextLabelE :=
  { l with isSelected := b }

/-- TextLabel.setDragging. -/
def TextLabelE.setDragging (l : TextLabelE) (b : Bool) : TextLabelE :=
  { l with isDragging := b }

/-- Arrow.setSelected. -/
def ArrowE.setSelected (a : ArrowE) (b : Bool) : ArrowE := { a with isSelected := b }

/-- Whiteboard.setSelected. -/
def WhiteboardE.setSelected (w : WhiteboardE) (b : Bool) : WhiteboardE :=
  { w with selected := b }

/-- Whiteboard.containsPoint: inclusive bounds check. -/
def WhiteboardE.containsPoint (w : WhiteboardE) (p : Pt) : Bool :=
  decide (p.x ≥ w.position.x ∧ p.x ≤ w.position.x + w.width ∧
    p.y ≥ w.position.y ∧ p.y ≤ w.position.y + w.height)

/-- The body of Arrow.containsPoint, as a function of the two derived
segment endpoints: clamp the projection parameter to [0,1] and test the
distance from the query point to the projected point against the
threshold (default 10).  lineLength * lineLength is exactly the squared
distance, and the comparison sqrt(...) = 0 and the final distance
comparison are rendered through their squared forms. -/
def segContains (s e p : Pt) (threshold : ℚ) : Bool :=
  let l2 := Pt.dist2 s e
  if l2 = 0 then false
  else
    let t := max 0 (min 1
      (((p.x - s.x) * (e.x - s.x) + (p.y - s.y) * (e.y - s.y)) / l2))
    let proj : Pt := ⟨s.x + t * (e.x - s.x), s.y + t * (e.y - s.y)⟩
    sqrtLeB (Pt.dist2 p proj) threshold

/-- Arrow.getStartPoint, with the referenced nodes resolved. -/
def arrowStartPoint (nf nt : NodeE) : Pt := nf.getEdgePoint nt.getCenter

/-- Arrow.getEndPoint, with the referenced nodes resolved. -/
def arrowEndPoint (nf nt : NodeE) : Pt := nt.getEdgePoint nf.getCenter

/-- Arrow.containsPoint with the default threshold 10, with the
referenced nodes resolved. -/
def arrowContainsPoint (nf nt : NodeE) (p : Pt) : Bool :=
  segContains (arrowStartPoint nf nt) (arrowEndPoint nf nt) p 10

/-- SelectionBox (unnamed/part_007): start and end points. -/
structure SelBox where
  startPoint : Pt
  endPoint : Pt
deriving DecidableEq, Repr

namespace SelBox

/-- SelectionBox constructor: endPoint starts as a clone of startPoint. -/
def new (p : Pt) : SelBox := ⟨p, p⟩

/-- SelectionBox.updateEndPoint. -/
def updateEndPoint (b : SelBox) (p : Pt) : SelBox := { b with endPoint := p }

/-- SelectionBox.getTopLeft. -/
def getTopLeft (b : SelBox) : Pt :=
  ⟨min b.startPoint.x b.endPoint.x, min b.startPoint.y b.endPoint.y⟩

/-- SelectionBox.getBottomRight. -/
def getBottomRight (b : SelBox) : Pt :=
  ⟨max b.startPoint.x b.endPoint.x, max b.startPoint.y b.endPoint.y⟩

/-- SelectionBox.getWidth. -/
def getWidth (b : SelBox) : ℚ := |b.endPoint.x - b.startPoint.x|

/-- SelectionBox.getHeight. -/
def getHeight (b : SelBox) : ℚ := |b.endPoint.y - b.startPoint.y|

/-- SelectionBox.containsPoint. -/
def containsPoint (b : SelBox) (p : Pt) : Bool :=
  let tl := b.getTopLeft
  let br := b.getBottomRight
  decide (p.x ≥ tl.x ∧ p.x ≤ br.x ∧ p.y ≥ tl.y ∧ p.y ≤ br.y)

/-- SelectionBox.intersectsRect. -/
def intersectsRect (b : SelBox) (center : Pt) (width height : ℚ) : Bool :=
  let tl := b.getTopLeft
  let br := b.getBottomRight
  !(decide (center.x + width / 2 < tl.x ∨ center.x - width / 2 > br.x ∨
    center.y + height / 2 < tl.y ∨ center.y - height / 2 > br.y))

/-- SelectionBox.intersectsCircle: distance from the circle center to
its closest point on the rectangle, compared against the radius. -/
def intersectsCircle (b : SelBox) (center : Pt) (radius : ℚ) : Bool :=
  let tl := b.getTopLeft
  let br := b.getBottomRight
  let closest : Pt := ⟨max tl.x (min center.x br.x), max tl.y (min center.y br.y)⟩
  sqrtLeB (Pt.dist2 center closest) radius

/-- SelectionBox.isSignificant with the default minSize 5. -/
def isSignificant (b : SelBox) : Bool :=
  decide (b.getWidth ≥ 5 ∨ b.getHeight ≥ 5)

end SelBox

/-- Insertion-ordered association list with the semantics of a JS Map:
set updates an existing key in place (keeping its position) and
otherwise appends; iteration follows the list order. -/
abbrev JMap (α : Type) := List (String × α)

namespace JMap

/-- JS Map.get. -/
def get? : JMap α → String → Option α
  | [], _ => none
  | kv :: m, k => if kv.1 = k then some kv.2 else get? m k

/-- JS Map.has. -/
def hasKey : JMap α → String → Bool
  | [], _ => false
  | kv :: m, k => if kv.1 = k then true else hasKey m k

/-- JS Map.set: update an existing key in place (keeping its position),
otherwise append. -/
def set : JMap α → String → α → JMap α
  | [], k, v => [(k, v)]
  | kv :: m, k, v => if kv.1 = k then (k, v) :: m else kv :: set m k v

/-- JS Map.delete. -/
def del : JMap α → String → JMap α
  | [], _ => []
  | kv :: m, k => if kv.1 = k then del m k else kv :: del m k

def values (m : JMap α) : List α := m.map (·.2)

/-- In-place update of the value at a key, modelling a JS method call
that mutates the stored object (keys and order are unchanged). -/
def update : JMap α → String → (α → α) → JMap α
  | [], _, _ => []
  | kv :: m, k, f =>
    (if kv.1 = k then (kv.1, f kv.2) else kv) :: update m k f

/-- In-place update of every value (a forEach mutating each entry). -/
def mapValues (m : JMap α) (f : α → α) : JMap α :=
  m.map (fun kv => (kv.1, f kv.2))

def keys (m : JMap α) : List String := m.map (·.1)

end JMap

/-- JS Set of strings: insertion-ordered, duplicate-free by
construction of add. -/
abbrev JSet := List String

namespace JSet

def add (s : JSet) (k : String) : JSet := if k ∈ s then s else s ++ [k]

def del (s : JSet) (k : String) : JSet := s.filter (fun x => x ≠ k)

end JSet

/-- The per-class static id counters (Node.nextId, Arrow.nextId,
TextLabel.nextId, Whiteboard.nextId).  They are process-global in the
source; the embedding threads them explicitly through every operation
that constructs an entity. -/
structure Counters where
  node : ℕ
  arrow : ℕ
  text : ℕ
  wb : ℕ
deriving DecidableEq, Repr

def nodeIdStr (n : ℕ) : String := "node-" ++ toString n
def arrowIdStr (n : ℕ) : String := "arrow-" ++ toString n
def textIdStr (n : ℕ) : String := "text-" ++ toString n
def wbIdStr (n : ℕ) : String := "whiteboard-" ++ toString n

/-- Node constructor: fresh id from the counter, defaults radius 60,
not selected, not dragging, default font; the optional partial style
defaults to DEFAULT_STYLE (callers in the verified code pass either
nothing or a complete style object). -/
def mkNode (c : ℕ) (position : Pt) (text : String) (style : Option StyleConfig) : NodeE :=
  { id := nodeIdStr c, position := position, text := text, radius := 60
    isSelected := false, isDragging := false
    style := style.getD DEFAULT_STYLE, fontFamily := .handDrawn }

/-- Node.clone: fresh id, all other fields copied. -/
def NodeE.clone (n : NodeE) (c : ℕ) : NodeE := { n with id := nodeIdStr c }

/-- Arrow constructor: fresh id; optional stroke fields default to
black / medium / solid (the enum values are all truthy in JS, so a
provided value always overrides). -/
def mkArrow (c : ℕ) (fromId toId : String) (strokeColor : Option Color)
    (strokeWidth : Option StrokeWidth) (lineStyle : Option LineStyle) : ArrowE :=
  { id := arrowIdStr c, fromId := fromId, toId := toId, isSelected := false
    strokeColor := strokeColor.getD .black
    strokeWidth := strokeWidth.getD .medium
    lineStyle := lineStyle.getD .solid }

/-- TextLabel constructor. -/
def mkTextLabel (c : ℕ) (position : Pt) (text : String) : TextLabelE :=
  { id := textIdStr c, position := position, text := text, fontSize := 16
    isSelected := false, isDragging := false, width := 100, height := 30
    color := .black, fontFamily := .handDrawn, showBorder := false
    borderStyle := .solid, borderColor := .black, borderWidth := .thin
    padding := 8 }

/-- TextLabel.clone: fresh id, all other fields copied. -/
def TextLabelE.clone (l : TextLabelE) (c : ℕ) : TextLabelE := { l with id := textIdStr c }

/-- Whiteboard constructor (defaults: background #ffffff, unselected). -/
def mkWhiteboard (c : ℕ) (position : Pt) (width height : ℚ) : WhiteboardE :=
  { id := wbIdStr c, position := position, width := width, height := height
    backgroundColor := "#ffffff", selected := false }

/-- Whiteboard.clone: fresh id, same geometry and background, not
selected. -/
def WhiteboardE.clone (w : WhiteboardE) (c : ℕ) : WhiteboardE :=
  { id := wbIdStr c, position := w.position, width := w.width, height := w.height
    backgroundColor := w.backgroundColor, selected := false }

/-- The Scene (class Diagram, Diagram.ts): four keyed, insertion-ordered
collections plus the selection id set. -/
structure Diagram where
  nodes : JMap NodeE
  arrows : JMap ArrowE
  textLabels : JMap TextLabelE
  whiteboards : JMap WhiteboardE
  selectedElementIds : JSet
deriving DecidableEq, Repr

/-- Hit-test result of Diagram.findElementAtPoint. -/
inductive ElemType | node | arrow | text
deriving DecidableEq, Repr

structure Hit where
  type : ElemType
  id : String
deriving DecidableEq, Repr

namespace Diagram

/-- Diagram constructor: one default whiteboard at (-800,-600), size
1600 x 1200. -/
def new (c : Counters) : Diagram × Counters :=
  let wb := mkWhiteboard c.wb ⟨-800, -600⟩ 1600 1200
  (⟨[], [], [], [(wb.id, wb)], []⟩, { c with wb := c.wb + 1 })

/-- Diagram.addNode. -/
def addNode (d : Diagram) (n : NodeE) : Diagram :=
  { d with nodes := d.nodes.set n.id n }

/-- Diagram.removeNode: deletes the node, every arrow whose fromNode or
toNode id is the removed id (the source collects those ids and deletes
each; the collection is a map filter), and drops the id from the
selection set. -/
def removeNode (d : Diagram) (nodeId : String) : Diagram :=
  { d with
    nodes := d.nodes.del nodeId
    arrows := d.arrows.filter (fun kv => ¬(kv.2.fromId = nodeId ∨ kv.2.toId = nodeId))
    selectedElementIds := d.selectedElementIds.del nodeId }

/-- Diagram.getNode. -/
def getNode (d : Diagram) (nodeId : String) : Option NodeE := d.nodes.get? nodeId

/-- Diagram.addArrow: a plain map insert, with no precondition check of
any kind (no endpoint-presence check and no self-loop check). -/
def addArrow (d : Diagram) (a : ArrowE) : Diagram :=
  { d with arrows := d.arrows.set a.id a }

/-- Diagram.removeArrow. -/
def removeArrow (d : Diagram) (arrowId : String) : Diagram :=
  { d with arrows := d.arrows.del arrowId
           selectedElementIds := d.selectedElementIds.del arrowId }

/-- Diagram.addTextLabel. -/
def addTextLabel (d : Diagram) (l : TextLabelE) : Diagram :=
  { d with textLabels := d.textLabels.set l.id l }

/-- Diagram.removeTextLabel. -/
def removeTextLabel (d : Diagram) (labelId : String) : Diagram :=
  { d with textLabels := d.textLabels.del labelId
           selectedElementIds := d.selectedElementIds.del labelId }

/-- Diagram.getTextLabel. -/
def getTextLabel (d : Diagram) (labelId : String) : Option TextLabelE :=
  d.textLabels.get? labelId

/-- Diagram.addWhiteboard. -/
def addWhiteboard (d : Diagram) (w : WhiteboardE) : Diagram :=
  { d with whiteboards := d.whiteboards.set w.id w }

/-- Diagram.removeWhiteboard: refuses (warning log, no state change)
when at most one whiteboard remains; otherwise deletes only the frame. -/
def removeWhiteboard (d : Diagram) (whiteboardId : String) : Diagram :=
  if d.whiteboards.length ≤ 1 then d
  else
    { d with whiteboards := d.whiteboards.del whiteboardId
             selectedElementIds := d.selectedElementIds.del whiteboardId }

/-- Diagram.clearAllWhiteboards: empties the whiteboard collection,
explicitly bypassing the last-whiteboard protection (used when loading
from storage). -/
def clearAllWhiteboards (d : Diagram) : Diagram := { d with whiteboards := [] }

/-- Diagram.getWhiteboard. -/
def getWhiteboard (d : Diagram) (whiteboardId : String) : Option WhiteboardE :=
  d.whiteboards.get? whiteboardId

/-- Diagram.getAllWhiteboards. -/
def getAllWhiteboards (d : Diagram) : List WhiteboardE := d.whiteboards.values

/-- Diagram.getElementsInWhiteboard: ids (map keys) of every node and
then every text label whose position the whiteboard contains; empty if
the whiteboard id is unknown. -/
def getElementsInWhiteboard (d : Diagram) (whiteboardId : String) : List String :=
  match d.whiteboards.get? whiteboardId with
  | none => []
  | some wb =>
    (d.nodes.filter (fun kv => wb.containsPoint kv.2.position)).map (·.1) ++
    (d.textLabels.filter (fun kv => wb.containsPoint kv.2.position)).map (·.1)

/-- Diagram.getSelectedWhiteboard: first whiteboard whose selected flag
is set. -/
def getSelectedWhiteboard (d : Diagram) : Option WhiteboardE :=
  d.whiteboards.values.find? (·.selected)

/-- The arrow clause of the scene hit-test: resolve the two referenced
nodes through the node map (the source reads them through the stored
object references; see ArrowE) and run Arrow.containsPoint. -/
def arrowHitB (d : Diagram) (a : ArrowE) (p : Pt) : Bool :=
  match d.nodes.get? a.fromId, d.nodes.get? a.toId with
  | some nf, some nt => arrowContainsPoint nf nt p
  | _, _ => false

/-- Diagram.findElementAtPoint: nodes first, then text labels, then
arrows; first match wins; none when nothing matches. -/
def findElementAtPoint (d : Diagram) (p : Pt) : Option Hit :=
  match d.nodes.values.find? (fun n => n.containsPoint p) with
  | some n => some ⟨.node, n.id⟩
  | none =>
    match d.textLabels.values.find? (fun l => l.containsPoint p) with
    | some l => some ⟨.text, l.id⟩
    | none =>
      match d.arrows.values.find? (fun a => arrowHitB d a p) with
      | some a => some ⟨.arrow, a.id⟩
      | none => none

/-- Diagram.findWhiteboardAtPoint: last-inserted containing whiteboard
(the source walks the values array backwards). -/
def findWhiteboardAtPoint (d : Diagram) (p : Pt) : Option WhiteboardE :=
  d.whiteboards.values.reverse.find? (fun wb => wb.containsPoint p)

/-- Diagram.findElementsInBox: nodes by circle intersection, text
labels by rectangle intersection, arrows when the box contains the
start, end, or midpoint of the derived segment (endpoints resolved
through the node map). -/
def findElementsInBox (d : Diagram) (box : SelBox) : List String :=
  (d.nodes.values.filter (fun n =>
    box.intersectsCircle n.position n.radius)).map (·.id) ++
  (d.textLabels.values.filter (fun l =>
    box.intersectsRect l.position l.width l.height)).map (·.id) ++
  (d.arrows.values.filter (fun a =>
    match d.nodes.get? a.fromId, d.nodes.get? a.toId with
    | some nf, some nt =>
      let sp := arrowStartPoint nf nt
      let ep := arrowEndPoint nf nt
      let mid : Pt := ⟨(sp.x + ep.x) / 2, (sp.y + ep.y) / 2⟩
      box.containsPoint sp || box.containsPoint ep || box.containsPoint mid
    | _, _ => false)).map (·.id)

/-- Shared helper of selectElements / selectElement: add one id to the
selection set and mirror the flag onto a node, arrow, or text label
with that id (selectElements does not look at whiteboards). -/
def selectOneNoWb (d : Diagram) (id : String) : Diagram :=
  { d with
    selectedElementIds := d.selectedElementIds.add id
    nodes := d.nodes.update id (·.setSelected true)
    arrows := d.arrows.update id (·.setSelected true)
    textLabels := d.textLabels.update id (·.setSelected true) }

/-- Diagram.clearSelection: reset the mirrored flag on every selected
entity (including whiteboards), then empty the selection set. -/
def clearSelection (d : Diagram) : Diagram :=
  let d2 := d.selectedElementIds.foldl (fun acc id =>
    { acc with
      nodes := acc.nodes.update id (·.setSelected false)
      arrows := acc.arrows.update id (·.setSelected false)
      textLabels := acc.textLabels.update id (·.setSelected false)
      whiteboards := acc.whiteboards.update id (·.setSelected false) }) d
  { d2 with selectedElementIds := [] }

/-- Diagram.selectElements. -/
def selectElements (d : Diagram) (elementIds : List String)
    (addToSelection : Bool) : Diagram :=
  let d0 := if addToSelection then d else d.clearSelection
  elementIds.foldl selectOneNoWb d0

/-- Diagram.selectElement: like selectOneNoWb but also mirrors onto a
whiteboard with that id. -/
def selectElement (d : Diagram) (elementId : String)
    (addToSelection : Bool) : Diagram :=
  let d0 := if addToSelection then d else d.clearSelection
  { d0 with
    selectedElementIds := d0.selectedElementIds.add elementId
    nodes := d0.nodes.update elementId (·.setSelected true)
    arrows := d0.arrows.update elementId (·.setSelected true)
    whiteboards := d0.whiteboards.update elementId (·.setSelected true)
    textLabels := d0.textLabels.update elementId (·.setSelected true) }

/-- Diagram.deselectElement. -/
def deselectElement (d : Diagram) (elementId : String) : Diagram :=
  { d with
    selectedElementIds := d.selectedElementIds.del elementId
    nodes := d.nodes.update elementId (·.setSelected false)
    arrows := d.arrows.update elementId (·.setSelected false)
    textLabels := d.textLabels.update elementId (·.setSelected false)
    whiteboards := d.whiteboards.update elementId (·.setSelected false) }

/-- Diagram.getSelectedIds. -/
def getSelectedIds (d : Diagram) : List String := d.selectedElementIds

/-- Diagram.deleteSelected: dispatch each selected id to the matching
typed remove, then clear the selection set. -/
def deleteSelected (d : Diagram) : Diagram :=
  let d2 := d.selectedElementIds.foldl (fun acc id =>
    if acc.nodes.hasKey id then acc.removeNode id
    else if acc.arrows.hasKey id then acc.removeArrow id
    else if acc.textLabels.hasKey id then acc.removeTextLabel id
    else if acc.whiteboards.hasKey id then acc.removeWhiteboard id
    else acc) d
  { d2 with selectedElementIds := [] }

/-- Diagram.selectAll: clear, then select every node, arrow, and text
label (not whiteboards). -/
def selectAll (d : Diagram) : Diagram :=
  let d0 := d.clearSelection
  let d1 := { d0 with
    nodes := d0.nodes.mapValues (·.setSelected true)
    arrows := d0.arrows.mapValues (·.setSelected true)
    textLabels := d0.textLabels.mapValues (·.setSelected true) }
  { d1 with selectedElementIds :=
      (d1.nodes.keys ++ d1.arrows.keys ++ d1.textLabels.keys).foldl JSet.add [] }

/-- Diagram.duplicateWhiteboard: clone the frame only, shift it right
by width + 50, deselect the original, select the clone. -/
def duplicateWhiteboard (d : Diagram) (c : Counters) (whiteboardId : String) :
    Diagram × Counters × Option String :=
  match d.whiteboards.get? whiteboardId with
  | none => (d, c, none)
  | some original =>
    let dup0 := original.clone c.wb
    let dup := { dup0 with
      position := ⟨original.position.x + original.width + 50, original.position.y⟩
      selected := true }
    let d1 := { d with whiteboards :=
      d.whiteboards.update whiteboardId (·.setSelected false) }
    let d2 := d1.addWhiteboard dup
    let d3 := { d2 with selectedElementIds :=
      (d2.selectedElementIds.del whiteboardId).add dup.id }
    (d3, { c with wb := c.wb + 1 }, some dup.id)

/-- Diagram.duplicateSelected, phase 1: clone every selected node with
a +20/+20 offset and a fresh id; returns the updated scene and counter,
the old-id to new-id map, and the new ids in creation order. -/
def dupNodes (d : Diagram) (cn : ℕ) (ids : List String) :
    Diagram × ℕ × List (String × String) × List String :=
  ids.foldl (fun (st : Diagram × ℕ × List (String × String) × List String) id =>
    let (acc, c, m, out) := st
    match acc.nodes.get? id with
    | none => st
    | some n =>
      let nn0 := n.clone c
      let nn := { nn0 with
        position := ⟨n.position.x + 20, n.position.y + 20⟩
        isSelected := false }
      (acc.addNode nn, c + 1, m ++ [(id, nn.id)], out ++ [nn.id]))
    (d, cn, [], [])

/-- Diagram.duplicateSelected, phase 2: clone every selected text
label. -/
def dupLabels (d : Diagram) (ct : ℕ) (ids : List String) :
    Diagram × ℕ × List String :=
  ids.foldl (fun (st : Diagram × ℕ × List String) id =>
    let (acc, c, out) := st
    match acc.textLabels.get? id with
    | none => st
    | some l =>
      let nl0 := l.clone c
      let nl := { nl0 with
        position := ⟨l.position.x + 20, l.position.y + 20⟩
        isSelected := false }
      (acc.addTextLabel nl, c + 1, out ++ [nl.id]))
    (d, ct, [])

/-- Diagram.duplicateSelected, phase 3: clone a selected arrow only
when both endpoint nodes were cloned in phase 1. -/
def dupArrows (d : Diagram) (ca : ℕ) (m : List (String × String))
    (ids : List String) : Diagram × ℕ × List String :=
  ids.foldl (fun (st : Diagram × ℕ × List String) id =>
    let (acc, c, out) := st
    match acc.arrows.get? id with
    | none => st
    | some a =>
      match (m.find? (fun kv => kv.1 = a.fromId)).map (·.2),
            (m.find? (fun kv => kv.1 = a.toId)).map (·.2) with
      | some nf, some nt =>
        let na := mkArrow c nf nt (some a.strokeColor) (some a.strokeWidth)
          (some a.lineStyle)
        (acc.addArrow na, c + 1, out ++ [na.id])
      | _, _ => st)
    (d, ca, [])

/-- Diagram.duplicateSelected: nodes, then text labels, then arrows
(each phase iterates the selection set in insertion order); finally the
old selection is cleared and the new entities are selected. -/
def duplicateSelected (d : Diagram) (c : Counters) :
    Diagram × Counters × List String :=
  let ids := d.selectedElementIds
  let (d1, cn, m, idsN) := dupNodes d c.node ids
  let (d2, ct, idsT) := dupLabels d1 c.text ids
  let (d3, ca, idsA) := dupArrows d2 c.arrow m ids
  let newIds := idsN ++ idsT ++ idsA
  let d4 := (d3.clearSelection).selectElements newIds false
  (d4, { c with node := cn, text := ct, arrow := ca }, newIds)

/-- Diagram.clear: empty everything, then a single fresh default
whiteboard. -/
def clear (d : Diagram) (c : Counters) : Diagram × Counters :=
  let wb := mkWhiteboard c.wb ⟨-800, -600⟩ 1600 1200
  ({ d with nodes := [], arrows := [], textLabels := []
            selectedElementIds := [], whiteboards := [(wb.id, wb)] },
   { c with wb := c.wb + 1 })

end Diagram

/-- Serialized node (Node.toJSON shape). -/
structure NodeJSON where
  id : String
  position : Pt
  text : String
  radius : ℚ
  style : StyleConfig
  fontFamily : FontFamily
deriving DecidableEq, Repr

/-- Serialized arrow (Arrow.toJSON shape: endpoint node ids, not the
node objects). -/
structure ArrowJSON where
  id : String
  fromNodeId : String
  toNodeId : String
  strokeColor : Color
  strokeWidth : StrokeWidth
  lineStyle : LineStyle
deriving DecidableEq, Repr

/-- Serialized text label (TextLabel.toJSON shape). -/
structure TextLabelJSON where
  id : String
  position : Pt
  text : String
  fontSize : ℚ
  width : ℚ
  height : ℚ
  color : Color
  fontFamily : FontFamily
  showBorder : Bool
  borderStyle : BorderStyle
  borderColor : Color
  borderWidth : StrokeWidth
  padding : ℚ
deriving DecidableEq, Repr

/-- Serialized whiteboard as written by Diagram.toJSON.  The source also
writes an isSelected field, but it evaluates wb.isSelected without
calling it, which is the method object, not the boolean flag; on load
the field therefore never carries selection state (the restored board
always has a false selected flag), so the embedding omits it. -/
structure WhiteboardJSON where
  id : String
  position : Pt
  width : ℚ
  height : ℚ
deriving DecidableEq, Repr

/-- Serialized scene (Diagram.toJSON shape). -/
structure DiagramJSON where
  nodes : List NodeJSON
  arrows : List ArrowJSON
  textLabels : List TextLabelJSON
  whiteboards : List WhiteboardJSON
deriving DecidableEq, Repr

/-- Node.toJSON. -/
def NodeE.toJSON (n : NodeE) : NodeJSON :=
  ⟨n.id, n.position, n.text, n.radius, n.style, n.fontFamily⟩

/-- Node.fromJSON: rebuild through the constructor (fresh flags), then
restore id, radius, and fontFamily.  The constructor consumes a counter
value even though the id is then overwritten. -/
def nodeFromJSON (j : NodeJSON) : NodeE :=
  { id := j.id, position := j.position, text := j.text, radius := j.radius
    isSelected := false, isDragging := false
    style := j.style, fontFamily := j.fontFamily }

/-- Arrow.toJSON. -/
def ArrowE.toJSON (a : ArrowE) : ArrowJSON :=
  ⟨a.id, a.fromId, a.toId, a.strokeColor, a.strokeWidth, a.lineStyle⟩

/-- TextLabel.toJSON. -/
def TextLabelE.toJSON (l : TextLabelE) : TextLabelJSON :=
  ⟨l.id, l.position, l.text, l.fontSize, l.width, l.height, l.color,
    l.fontFamily, l.showBorder, l.borderStyle, l.borderColor, l.borderWidth,
    l.padding⟩

/-- TextLabel.fromJSON. -/
def textLabelFromJSON (j : TextLabelJSON) : TextLabelE :=
  { id := j.id, position := j.position, text := j.text, fontSize := j.fontSize
    isSelected := false, isDragging := false, width := j.width
    height := j.height, color := j.color, fontFamily := j.fontFamily
    showBorder := j.showBorder, borderStyle := j.borderStyle
    borderColor := j.borderColor, borderWidth := j.borderWidth
    padding := j.padding }

namespace Diagram

/-- Diagram.toJSON. -/
def toJSON (d : Diagram) : DiagramJSON :=
  { nodes := d.nodes.values.map NodeE.toJSON
    arrows := d.arrows.values.map ArrowE.toJSON
    textLabels := d.textLabels.values.map TextLabelE.toJSON
    whiteboards := d.whiteboards.values.map (fun wb =>
      ⟨wb.id, wb.position, wb.width, wb.height⟩) }

/-- Diagram.fromJSON: a fresh Diagram (whose constructor mints and then
discards a default whiteboard), whiteboards restored from the data (or
one default if the data has none), then nodes, then arrows — an arrow
whose endpoint ids do not both resolve in the freshly restored node map
is skipped with a warning — then text labels.  Every entity
reconstruction consumes one counter value even where the id is
subsequently overwritten from the data. -/
def fromJSON (data : DiagramJSON) (c : Counters) : Diagram × Counters :=
  let cwb0 := c.wb + 1
  let (wbs, cwb) :=
    if data.whiteboards.isEmpty then
      let wb := mkWhiteboard cwb0 ⟨-800, -600⟩ 1600 1200
      ([(wb.id, wb)], cwb0 + 1)
    else
      data.whiteboards.foldl (fun (st : JMap WhiteboardE × ℕ) wd =>
        let wb : WhiteboardE :=
          { id := wd.id, position := wd.position, width := wd.width
            height := wd.height, backgroundColor := "#ffffff"
            selected := false }
        (st.1.set wb.id wb, st.2 + 1)) ([], cwb0)
  let (ns, cn) := data.nodes.foldl (fun (st : JMap NodeE × ℕ) nd =>
      let n := nodeFromJSON nd
      (st.1.set n.id n, st.2 + 1)) ([], c.node)
  let (ars, ca) := data.arrows.foldl (fun (st : JMap ArrowE × ℕ) ad =>
      if (JMap.get? ns ad.fromNodeId).isSome ∧ (JMap.get? ns ad.toNodeId).isSome
      then
        let a : ArrowE :=
          { id := ad.id, fromId := ad.fromNodeId, toId := ad.toNodeId
            isSelected := false, strokeColor := ad.strokeColor
            strokeWidth := ad.strokeWidth, lineStyle := ad.lineStyle }
        (st.1.set a.id a, st.2 + 1)
      else st) ([], c.arrow)
  let (ts, ct) := data.textLabels.foldl (fun (st : JMap TextLabelE × ℕ) td =>
      let l := textLabelFromJSON td
      (st.1.set l.id l, st.2 + 1)) ([], c.text)
  (⟨ns, ars, ts, wbs, []⟩, { node := cn, arrow := ca, text := ct, wb := cwb })

end Diagram

/-- Tools (unnamed/part_004 enum Tool). -/
inductive Tool | select | node | arrow | text | pan | laser
deriving DecidableEq, Repr

/-- Interaction modes (unnamed/part_004 enum InteractionMode). -/
inductive IMode
  | idle | dragging | creatingArrow | editingText
  | panning | boxSelecting | resizingWhiteboard | laserActive
deriving DecidableEq, Repr

/-- Resize handles (Whiteboard.ts enum ResizeHandle). -/
inductive RHandle
  | topLeft | top | topRight | right | bottomRight | bottom | bottomLeft | left
deriving DecidableEq, Repr

/-- Whiteboard.isNearPoint. -/
def isNearPoint (p1 p2 : Pt) (threshold : ℚ) : Bool :=
  decide (|p1.x - p2.x| ≤ threshold ∧ |p1.y - p2.y| ≤ threshold)

/-- Whiteboard.getResizeHandleAtPoint: corners first, then edge
midpoints, with half the handle size as hit radius. -/
def WhiteboardE.getResizeHandleAtPoint (w : WhiteboardE) (p : Pt)
    (handleSize : ℚ) : Option RHandle :=
  let x := w.position.x
  let y := w.position.y
  let hs := handleSize / 2
  if isNearPoint p ⟨x, y⟩ hs then some .topLeft
  else if isNearPoint p ⟨x + w.width, y⟩ hs then some .topRight
  else if isNearPoint p ⟨x + w.width, y + w.height⟩ hs then some .bottomRight
  else if isNearPoint p ⟨x, y + w.height⟩ hs then some .bottomLeft
  else if isNearPoint p ⟨x + w.width / 2, y⟩ hs then some .top
  else if isNearPoint p ⟨x + w.width, y + w.height / 2⟩ hs then some .right
  else if isNearPoint p ⟨x + w.width / 2, y + w.height⟩ hs then some .bottom
  else if isNearPoint p ⟨x, y + w.height / 2⟩ hs then some .left
  else none

/-- Whiteboard.resize: apply the handle-specific delta, then clamp to
the 400 x 300 minimum, shifting the anchored edge back for left/top
handles. -/
def WhiteboardE.resize (w : WhiteboardE) (h : RHandle) (delta : Pt) : WhiteboardE :=
  let w1 : WhiteboardE := match h with
    | .topLeft =>
      { w with position := ⟨w.position.x + delta.x, w.position.y + delta.y⟩
               width := w.width - delta.x, height := w.height - delta.y }
    | .top =>
      { w with position := ⟨w.position.x, w.position.y + delta.y⟩
               height := w.height - delta.y }
    | .topRight =>
      { w with position := ⟨w.position.x, w.position.y + delta.y⟩
               width := w.width + delta.x, height := w.height - delta.y }
    | .right => { w with width := w.width + delta.x }
    | .bottomRight =>
      { w with width := w.width + delta.x, height := w.height + delta.y }
    | .bottom => { w with height := w.height + delta.y }
    | .bottomLeft =>
      { w with position := ⟨w.position.x + delta.x, w.position.y⟩
               width := w.width - delta.x, height := w.height + delta.y }
    | .left =>
      { w with position := ⟨w.position.x + delta.x, w.position.y⟩
               width := w.width - delta.x }
  let w2 : WhiteboardE :=
    if w1.width < 400 then
      let adj :=
        if h = .left ∨ h = .topLeft ∨ h = .bottomLeft then
          { w1 with position := ⟨w1.position.x - (400 - w1.width), w1.position.y⟩ }
        else w1
      { adj with width := 400 }
    else w1
  if w2.height < 300 then
    let adj :=
      if h = .top ∨ h = .topLeft ∨ h = .topRight then
        { w2 with position := ⟨w2.position.x, w2.position.y - (300 - w2.height)⟩ }
      else w2
    { adj with height := 300 }
  else w2

/-- The interaction controller state (class InteractionManager,
unnamed/part_004).  The laser trail keeps only the points: its pruning
and opacity depend on wall-clock timestamps, which no claim observes.
The id counters (static fields of the entity classes) are threaded here
so the handlers can construct entities. -/
structure IM where
  diagram : Diagram
  ctr : Counters
  currentTool : Tool
  mode : IMode
  dragStartPoint : Option Pt
  draggedElementId : Option String
  arrowStartNode : Option NodeE
  mousePosition : Pt
  panOffset : Pt
  panStartOffset : Pt
  panStartScreenPoint : Option Pt
  selectionBox : Option SelBox
  resizingHandle : Option RHandle
  laserTrail : List Pt
deriving DecidableEq, Repr

namespace IM

/-- InteractionManager constructor: Select tool, Idle mode, empty
transient state. -/
def new (d : Diagram) (c : Counters) : IM :=
  { diagram := d, ctr := c, currentTool := .select, mode := .idle
    dragStartPoint := none, draggedElementId := none, arrowStartNode := none
    mousePosition := ⟨0, 0⟩, panOffset := ⟨0, 0⟩, panStartOffset := ⟨0, 0⟩
    panStartScreenPoint := none, selectionBox := none, resizingHandle := none
    laserTrail := [] }

/-- InteractionManager.setTool: clears the laser trail when leaving the
laser tool, resets the mode to Idle and drops any pending arrow
source. -/
def setTool (s : IM) (t : Tool) : IM :=
  let s1 := if s.currentTool = .laser ∧ t ≠ .laser
    then { s with laserTrail := [] } else s
  { s1 with currentTool := t, mode := .idle, arrowStartNode := none }

/-- The tool-change callback.  The host page registers the React tool
setter (Canvas.tsx wires setOnToolChange(onToolChange), and an effect
feeds the new tool back into setTool), so a controller-requested tool
change behaves as a setTool call. -/
def onToolChange (s : IM) (t : Tool) : IM := s.setTool t

/-- LaserTrail.addPoint: push, dropping the oldest point beyond the
100-point cap (timestamps are not modelled; see IM). -/
def laserAdd (tr : List Pt) (p : Pt) : List Pt :=
  let tr2 := tr ++ [p]
  if tr2.length > 100 then tr2.drop 1 else tr2

/-- InteractionManager.handleNodeCreation: new node with placeholder
text, selected exclusively, then the auto-switch to the Arrow tool
through the tool-change callback. -/
def handleNodeCreation (s : IM) (p : Pt) : IM :=
  let n := mkNode s.ctr.node p "New Node" none
  let d := (s.diagram.addNode n).selectElement n.id false
  let s1 := { s with diagram := d, ctr := { s.ctr with node := s.ctr.node + 1 } }
  s1.onToolChange .arrow

/-- InteractionManager.handleArrowCreationStart: remember the hit node
as the pending source and enter CreatingArrow. -/
def handleArrowCreationStart (s : IM) (element : Option Hit) : IM :=
  match element with
  | some el =>
    if el.type = .node then
      match s.diagram.getNode el.id with
      | some n => { s with arrowStartNode := some n, mode := .creatingArrow }
      | none => s
    else s
  | none => s

/-- InteractionManager.handleTextCreation: new label with placeholder
text, selected, then the auto-switch to the Select tool. -/
def handleTextCreation (s : IM) (p : Pt) : IM :=
  let l := mkTextLabel s.ctr.text p "Text"
  let d := (s.diagram.addTextLabel l).selectElement l.id false
  let s1 := { s with diagram := d, ctr := { s.ctr with text := s.ctr.text + 1 } }
  s1.onToolChange .select

/-- InteractionManager.handleSelectMouseDown after the resize-handle
check fell through. -/
def selectMouseDownRest (s : IM) (p : Pt) (element : Option Hit)
    (shiftKey : Bool) : IM :=
  match element with
  | some el =>
    let d1 := { s.diagram with
      whiteboards := s.diagram.whiteboards.mapValues (·.setSelected false) }
    let wasAlreadySelected := el.id ∈ d1.selectedElementIds
    let d2 :=
      if ¬shiftKey then
        if ¬wasAlreadySelected then d1.selectElement el.id false else d1
      else d1.selectElement el.id true
    if el.type = .node ∨ el.type = .text then
      let d3 := { d2 with
        nodes := d2.nodes.update el.id (·.setDragging true)
        textLabels := d2.textLabels.update el.id (·.setDragging true) }
      { s with diagram := d3, mode := .dragging, draggedElementId := some el.id }
    else { s with diagram := d2 }
  | none =>
    match s.diagram.findWhiteboardAtPoint p with
    | some cw =>
      let d1 := s.diagram.clearSelection
      let d2 := { d1 with
        whiteboards := d1.whiteboards.update cw.id (·.setSelected true) }
      let d3 := d2.selectElement cw.id false
      { s with diagram := d3, mode := .dragging, draggedElementId := some cw.id }
    | none =>
      let d1 := { s.diagram with
        whiteboards := s.diagram.whiteboards.mapValues (·.setSelected false) }
      let d2 := if ¬shiftKey then d1.clearSelection else d1
      { s with diagram := d2, selectionBox := some (SelBox.new p)
               mode := .boxSelecting }

/-- InteractionManager.handleSelectMouseDown: the selected whiteboard
resize-handle check first, then element / whiteboard / empty-space
dispatch. -/
def handleSelectMouseDown (s : IM) (p : Pt) (element : Option Hit)
    (shiftKey : Bool) : IM :=
  match s.diagram.getSelectedWhiteboard with
  | some wb =>
    match wb.getResizeHandleAtPoint p 12 with
    | some h => { s with mode := .resizingWhiteboard, resizingHandle := some h }
    | none => selectMouseDownRest s p element shiftKey
  | none => selectMouseDownRest s p element shiftKey

/-- InteractionManager.handleMouseDown. -/
def handleMouseDown (s0 : IM) (p : Pt) (shiftKey : Bool) : IM :=
  let s := { s0 with dragStartPoint := some p, mousePosition := p }
  let element := s.diagram.findElementAtPoint p
  match s.currentTool with
  | .select => handleSelectMouseDown s p element shiftKey
  | .node => handleNodeCreation s p
  | .arrow => handleArrowCreationStart s element
  | .text => handleTextCreation s p
  | .pan => { s with mode := .panning, panStartOffset := s.panOffset
                     panStartScreenPoint := none }
  | .laser => { s with mode := .laserActive, laserTrail := laserAdd [] p }

/-- InteractionManager.handleDragging: move every selected node and
text label by the frame delta; a selected whiteboard moves itself and
then every node and text label currently inside its (already moved)
bounds; finally the drag origin advances to the current point.  The
per-element move of the fold body: -/
def dragMoveOne (delta : Pt) (a : Diagram) (eid : String) : Diagram :=
  { a with nodes := a.nodes.update eid (·.moveBy delta)
           textLabels := a.textLabels.update eid (·.moveBy delta) }

/-- One selected id of the Dragging fold: move a node and/or text label
with that id; when the id is a whiteboard, also move the frame and then
every element inside its already-moved bounds. -/
def dragStep (delta : Pt) (acc : Diagram) (id : String) : Diagram :=
  let acc2 := dragMoveOne delta acc id
  match acc2.whiteboards.get? id with
  | none => acc2
  | some _ =>
    let wbMove : WhiteboardE → WhiteboardE :=
      fun wb => { wb with position := wb.position.add delta }
    let acc3 := { acc2 with whiteboards := acc2.whiteboards.update id wbMove }
    (acc3.getElementsInWhiteboard id).foldl (dragMoveOne delta) acc3

def handleDragging (s : IM) (p : Pt) : IM :=
  match s.dragStartPoint with
  | none => s
  | some origin =>
    let delta := p.subtract origin
    let d := s.diagram.selectedElementIds.foldl (dragStep delta) s.diagram
    { s with diagram := d, dragStartPoint := some p }

/-- InteractionManager.handlePanning. -/
def handlePanning (s : IM) (p : Pt) : IM :=
  match s.dragStartPoint with
  | none => s
  | some origin =>
    { s with panOffset := s.panStartOffset.add (p.subtract origin) }

/-- InteractionManager.handleBoxSelecting: advance the box end point,
then eagerly clear and re-apply the live preview selection from the
current box contents. -/
def handleBoxSelecting (s : IM) (p : Pt) : IM :=
  match s.selectionBox with
  | none => s
  | some box =>
    let box2 := box.updateEndPoint p
    let elementsInBox := s.diagram.findElementsInBox box2
    let d1 := s.diagram.clearSelection
    let d2 := if elementsInBox.length > 0
      then d1.selectElements elementsInBox false else d1
    { s with diagram := d2, selectionBox := some box2 }

/-- InteractionManager.handleResizingWhiteboard. -/
def handleResizingWhiteboard (s : IM) (p : Pt) : IM :=
  match s.dragStartPoint, s.resizingHandle with
  | some origin, some h =>
    match s.diagram.getSelectedWhiteboard with
    | none => s
    | some wb =>
      let delta := p.subtract origin
      { s with
        diagram := { s.diagram with
          whiteboards := s.diagram.whiteboards.update wb.id (·.resize h delta) }
        dragStartPoint := some p }
  | _, _ => s

/-- InteractionManager.handleMouseMove. -/
def handleMouseMove (s0 : IM) (p : Pt) : IM :=
  let s := { s0 with mousePosition := p }
  if s.mode = .laserActive then
    { s with laserTrail := laserAdd s.laserTrail p }
  else if s.dragStartPoint.isNone then s
  else
    match s.mode with
    | .dragging => handleDragging s p
    | .creatingArrow => s
    | .panning => handlePanning s p
    | .boxSelecting => handleBoxSelecting s p
    | .resizingWhiteboard => handleResizingWhiteboard s p
    | _ => s

/-- First phase of the shared handleMouseUp tail: finalize a
significant selection box and drop the box. -/
def boxFinalizePhase (s : IM) : IM :=
  if s.mode = .boxSelecting then
    match s.selectionBox with
    | some box =>
      let s' :=
        if box.isSignificant then
          { s with diagram :=
            s.diagram.selectElements (s.diagram.findElementsInBox box) false }
        else s
      { s' with selectionBox := none }
    | none => s
  else s

/-- Second phase of the shared handleMouseUp tail: settle the laser
mode, clear dragging flags, clear the resize handle and drag origin,
and settle the mode back to Idle unless editing text. -/
def mouseUpTail (s2 : IM) : IM :=
  let s3 := if s2.mode = .laserActive then { s2 with mode := .idle } else s2
  let s4 := match s3.draggedElementId with
    | some id =>
      { s3 with
        diagram := { s3.diagram with
          nodes := s3.diagram.nodes.update id (·.setDragging false)
          textLabels := s3.diagram.textLabels.update id (·.setDragging false) }
        draggedElementId := none }
    | none => s3
  let s5 := if s4.mode = .resizingWhiteboard then
      { s4 with resizingHandle := none } else s4
  let s6 := { s5 with dragStartPoint := none }
  if s6.mode ≠ .editingText then { s6 with mode := .idle } else s6

/-- The tail of InteractionManager.handleMouseUp shared by every path
except the empty-space node-creation branch (which returns early in the
source): finalize a significant selection box, settle the laser mode,
clear dragging flags, clear the resize handle and drag origin, and
settle the mode back to Idle unless editing text. -/
def mouseUpEpilogue (s : IM) : IM := mouseUpTail (boxFinalizePhase s)

/-- InteractionManager.handleMouseUp.  In CreatingArrow with a pending
source: a release on a different node creates the connecting arrow; a
release on empty space at least (source radius + 80) away creates a new
node there, selects it, creates the arrow to it, clears the pending
source and returns early (the source keeps the Arrow tool and — by the
early return — the CreatingArrow mode and drag origin); a closer
empty-space release creates nothing. -/
def handleMouseUp (s0 : IM) (p : Pt) : IM :=
  let s := { s0 with mousePosition := p }
  match s.mode, s.arrowStartNode with
  | .creatingArrow, some start =>
    match s.diagram.findElementAtPoint p with
    | some el =>
      if el.type = .node ∧ el.id ≠ start.id then
        match s.diagram.getNode el.id with
        | some endNode =>
          let a := mkArrow s.ctr.arrow start.id endNode.id none none none
          mouseUpEpilogue { s with
            diagram := s.diagram.addArrow a
            ctr := { s.ctr with arrow := s.ctr.arrow + 1 }
            arrowStartNode := none }
        | none => mouseUpEpilogue { s with arrowStartNode := none }
      else mouseUpEpilogue { s with arrowStartNode := none }
    | none =>
      if sqrtGeB (Pt.dist2 start.position p) (start.radius + 80) then
        let newNode := mkNode s.ctr.node p "New Node" none
        let d1 := (s.diagram.addNode newNode).selectElement newNode.id false
        let a := mkArrow s.ctr.arrow start.id newNode.id none none none
        { s with
          diagram := d1.addArrow a
          ctr := { s.ctr with node := s.ctr.node + 1, arrow := s.ctr.arrow + 1 }
          arrowStartNode := none }
      else mouseUpEpilogue { s with arrowStartNode := none }
  | _, _ => mouseUpEpilogue s

/-- The keys the controller keydown handler distinguishes. -/
inductive Key | delete | backspace | escape | other
deriving DecidableEq, Repr

/-- InteractionManager.handleKeyDown.  Delete/Backspace delete the
selection outside text editing.  Escape applies one level of the
cascade: cancel an in-progress CreatingArrow / EditingText /
BoxSelecting, else clear a non-empty selection, else switch a
non-Select tool to Select (through the tool-change callback). -/
def handleKeyDown (s : IM) (k : Key) : IM :=
  match k with
  | .delete | .backspace =>
    if s.mode ≠ .editingText then
      { s with diagram := s.diagram.deleteSelected } else s
  | .escape =>
    if s.mode = .creatingArrow then
      { s with arrowStartNode := none, mode := .idle }
    else if s.mode = .editingText then { s with mode := .idle }
    else if s.mode = .boxSelecting then
      { s with selectionBox := none, mode := .idle }
    else if s.diagram.getSelectedIds.length > 0 then
      { s with diagram := s.diagram.clearSelection }
    else if s.currentTool ≠ .select then s.onToolChange .select
    else s
  | .other => s

end IM

/-- n-fold application of the Escape key to a controller state. -/
def IM.escIter (s : IM) : Nat → IM
  | 0 => s
  | n + 1 => IM.escIter (IM.handleKeyDown s IM.Key.escape) n

/-- The public mutating Scene operations, as an operation algebra so
that claims about "any sequence of operations" quantify over traces. -/
inductive Op where
  | addNode (n : NodeE)
  | removeNode (id : String)
  | addArrow (a : ArrowE)
  | removeArrow (id : String)
  | addTextLabel (l : TextLabelE)
  | removeTextLabel (id : String)
  | addWhiteboard (w : WhiteboardE)
  | removeWhiteboard (id : String)
  | clearAllWhiteboards
  | selectElement (id : String) (add : Bool)
  | selectElements (ids : List String) (add : Bool)
  | deselectElement (id : String)
  | clearSelection
  | selectAll
  | deleteSelected
  | duplicateSelected
  | duplicateWhiteboard (id : String)
  | clear
deriving DecidableEq, Repr

/-- Interpret one operation on a scene plus the id counters. -/
def applyOp (op : Op) (s : Diagram × Counters) : Diagram × Counters :=
  match op with
  | .addNode n => (s.1.addNode n, s.2)
  | .removeNode id => (s.1.removeNode id, s.2)
  | .addArrow a => (s.1.addArrow a, s.2)
  | .removeArrow id => (s.1.removeArrow id, s.2)
  | .addTextLabel l => (s.1.addTextLabel l, s.2)
  | .removeTextLabel id => (s.1.removeTextLabel id, s.2)
  | .addWhiteboard w => (s.1.addWhiteboard w, s.2)
  | .removeWhiteboard id => (s.1.removeWhiteboard id, s.2)
  | .clearAllWhiteboards => (s.1.clearAllWhiteboards, s.2)
  | .selectElement id add => (s.1.selectElement id add, s.2)
  | .selectElements ids add => (s.1.selectElements ids add, s.2)
  | .deselectElement id => (s.1.deselectElement id, s.2)
  | .clearSelection => (s.1.clearSelection, s.2)
  | .selectAll => (s.1.selectAll, s.2)
  | .deleteSelected => (s.1.deleteSelected, s.2)
  | .duplicateSelected =>
    let (d, c, _) := s.1.duplicateSelected s.2
    (d, c)
  | .duplicateWhiteboard id =>
    let (d, c, _) := s.1.duplicateWhiteboard s.2 id
    (d, c)
  | .clear => s.1.clear s.2

/-- Interpret a trace of operations. -/
def applyOps (ops : List Op) (s : Diagram × Counters) : Diagram × Counters :=
  ops.foldl (fun st op => applyOp op st) s

/-- Arrow-node referential integrity: every arrow endpoint id resolves
in the node collection. -/
def integrityB (d : Diagram) : Bool :=
  d.arrows.values.all (fun a => d.nodes.hasKey a.fromId && d.nodes.hasKey a.toId)

/-- The addArrow guard: the claim holds for traces in which addArrow is
only invoked with arrows whose endpoints are present (addArrow itself
checks nothing). -/
def goodOpB (d : Diagram) (op : Op) : Bool :=
  match op with
  | .addArrow a => d.nodes.hasKey a.fromId && d.nodes.hasKey a.toId
  | _ => true

/-- Trace-wide addArrow guard, evaluated at each intermediate state. -/
def traceGuardedB : List Op → Diagram × Counters → Bool
  | [], _ => true
  | op :: ops, s => goodOpB s.1 op && traceGuardedB ops (applyOp op s)

/-- Numeric value of a decimal digit character (used only to prove that
the decimal id suffixes are injective). -/
def digitVal (c : Char) : ℕ :=
  if c = '0' then 0 else if c = '1' then 1 else if c = '2' then 2
  else if c = '3' then 3 else if c = '4' then 4 else if c = '5' then 5
  else if c = '6' then 6 else if c = '7' then 7 else if c = '8' then 8
  else if c = '9' then 9 else 10

/-- Decimal value of a digit string (see digitVal). -/
def valOfDigits (cs : List Char) : ℕ :=
  cs.foldl (fun a c => a * 10 + digitVal c) 0

/-- Point on the segment from s to e at parameter t. -/
def lerp (s e : Pt) (t : ℚ) : Pt :=
  ⟨s.x + t * (e.x - s.x), s.y + t * (e.y - s.y)⟩

/-- Reset of the transient node flags, which full-scene round-trip
serialization does not preserve (everything else is). -/
def resetNode (n : NodeE) : NodeE := { n with isSelected := false, isDragging := false }

def resetArrow (a : ArrowE) : ArrowE := { a with isSelected := false }

def resetLabel (l : TextLabelE) : TextLabelE :=
  { l with isSelected := false, isDragging := false }

/-- Scene well-formedness for serialization claims: every collection is
keyed by the entity id with duplicate-free keys (which every Scene
reachable through the public operations satisfies, since inserts key by
the entity id), and arrow endpoints resolve. -/
def wfB (d : Diagram) : Bool :=
  d.nodes.all (fun kv => kv.1 = kv.2.id) &&
  d.arrows.all (fun kv => kv.1 = kv.2.id) &&
  d.textLabels.all (fun kv => kv.1 = kv.2.id) &&
  decide (d.nodes.keys.Nodup) &&
  decide (d.arrows.keys.Nodup) &&
  decide (d.textLabels.keys.Nodup) &&
  integrityB d

/-- Counter freshness for duplicateSelected: none of the ids the run
can mint (at most one per selected id, per entity kind) collides with
an id already in the scene or with an id in the selection list.  This
holds in the source because the counters are global and monotone; it is
a genuine precondition here because deserialization can forge ids. -/
def dupFreshB (d : Diagram) (c : Counters) : Bool :=
  (List.range d.selectedElementIds.length).all (fun i =>
    !d.nodes.hasKey (nodeIdStr (c.node + i)) &&
    !d.textLabels.hasKey (textIdStr (c.text + i)) &&
    !d.arrows.hasKey (arrowIdStr (c.arrow + i)) &&
    !d.selectedElementIds.contains (nodeIdStr (c.node + i)) &&
    !d.selectedElementIds.contains (textIdStr (c.text + i)) &&
    !d.selectedElementIds.contains (arrowIdStr (c.arrow + i)))

/-- Invariant carried through the duplicateSelected phases: the scene
keeps integrity and every minted node id recorded in the old-to-new map
is present in the node collection. -/
def DupInv (st : Diagram × ℕ × List (String × String) × List String) : Prop :=
  integrityB st.1 = true ∧
    ∀ pr ∈ st.2.2.1, st.1.nodes.hasKey pr.2 = true

/-- Concrete scenes used by witnesses and counterexamples. -/
def cInit : Counters := ⟨0, 0, 0, 0⟩

def dInit : Diagram := (Diagram.new cInit).1

def cAfter : Counters := (Diagram.new cInit).2

def nA : NodeE := mkNode 0 ⟨0, 0⟩ "A" none

def nB : NodeE := mkNode 1 ⟨200, 0⟩ "B" none

def arAB : ArrowE := mkArrow 0 nA.id nB.id none none none

/-- A scene with two nodes joined by an arrow. -/
def dAB : Diagram := ((dInit.addNode nA).addNode nB).addArrow arAB

def cAB : Counters := { cAfter with node := 2, arrow := 1 }

/-- An arrow whose endpoints were never added to the scene. -/
def staleArrow : ArrowE := mkArrow 5 "node-0" "node-1" none none none

/-- A self-referential arrow (the Arrow constructor performs no check). -/
def selfLoopArrow : ArrowE := mkArrow 6 nA.id nA.id none none none

/-- Controller state over dAB with a pending arrow source at node A
(as after an arrow-tool pointer-down on A). -/
def sC8 : IM :=
  { IM.new dAB cAB with mode := IMode.creatingArrow, arrowStartNode := some nA }

/-- Controller state caught mid-drag while the Arrow tool is active
and nothing is selected: the tool-switch Escape level applies. -/
def sC5d : IM :=
  { IM.new dAB cAB with mode := IMode.dragging, currentTool := Tool.arrow }

/-- Controller state caught mid-drag with the Select tool active and
nothing selected: every Escape level falls through. -/
def sC5s : IM :=
  { IM.new dAB cAB with mode := IMode.dragging }

/-- Controller state with all three Escape-cascade levels armed: an
arrow creation in progress, node A selected, Arrow tool active. -/
def sC5 : IM :=
  { IM.new (dAB.selectElement nA.id false) cAB with
    mode := IMode.creatingArrow, currentTool := Tool.arrow,
    arrowStartNode := some nA }

/-- Controller state over a one-node scene holding the Arrow tool with
a pending arrow source at node A, as after an arrow-tool pointer-down
on A. -/
def sC6 : IM :=
  { IM.new (dInit.addNode nA) cAB with
    mode := IMode.creatingArrow, currentTool := Tool.arrow,
    arrowStartNode := some nA }

/-- A node outside the default whiteboard, for box-select gestures on
truly empty space. -/
def nC9 : NodeE := mkNode 0 ⟨1000, 0⟩ "C" none

/-- Fresh controller over a one-node scene, Select tool. -/
def sC9 : IM := IM.new (dInit.addNode nC9) { cAfter with node := 1 }

/-- The 3 px wide, 0 px tall selection box of the C9 gesture. -/
def boxC9 : SelBox := ⟨⟨1063, 0⟩, ⟨1060, 0⟩⟩

/-- Mid-gesture state: pointer-down on empty space at (1063, 0), then a
3 px move to (1060, 0) whose live box preview touches the node. -/
def mC9 : IM := IM.handleMouseMove (IM.handleMouseDown sC9 ⟨1063, 0⟩ false) ⟨1060, 0⟩

/-- The release of the C9 gesture. -/
def gC9 : IM := IM.handleMouseUp mC9 ⟨1060, 0⟩

/-- An 800 x 600 whiteboard frame at the origin. -/
def wC10 : WhiteboardE := mkWhiteboard 1 ⟨0, 0⟩ 800 600

/-- A node just inside the whiteboard frame, 1 px from its left edge. -/
def eC10 : NodeE := mkNode 0 ⟨1, 300⟩ "E" none

/-- A node far outside every whiteboard. -/
def outC10 : NodeE := mkNode 1 ⟨2000, 0⟩ "F" none

/-- The C10 scene with the whiteboard selected first, then the node
(both through the public selectElement API). -/
def dC10a : Diagram :=
  ((((dInit.addNode eC10).addNode outC10).addWhiteboard wC10).selectElement
    wC10.id false).selectElement eC10.id true

/-- The C10 scene with the node selected first, then the whiteboard. -/
def dC10b : Diagram :=
  ((((dInit.addNode eC10).addNode outC10).addWhiteboard wC10).selectElement
    eC10.id false).selectElement wC10.id true

/-- Mid-drag controller over the whiteboard-first selection. -/
def sC10a : IM :=
  { IM.new dC10a ⟨2, 0, 0, 2⟩ with
    mode := IMode.dragging, dragStartPoint := some ⟨0, 0⟩ }

/-- Mid-drag controller over the node-first selection. -/
def sC10b : IM :=
  { IM.new dC10b ⟨2, 0, 0, 2⟩ with
    mode := IMode.dragging, dragStartPoint := some ⟨0, 0⟩ }

/-- A scene holding only a stale arrow (endpoints never added). -/
def dC2 : Diagram := dInit.addArrow staleArrow

/-- The duplicateSelected phase-1 fold body, named for the
characterization lemmas (definitionally the fold body of dupNodes). -/
def dupNodeStep (st : Diagram × ℕ × List (String × String) × List String)
    (id : String) : Diagram × ℕ × List (String × String) × List String :=
  let (acc, c, m, out) := st
  match acc.nodes.get? id with
  | none => st
  | some n =>
    let nn0 := n.clone c
    let nn := { nn0 with
      position := ⟨n.position.x + 20, n.position.y + 20⟩
      isSelected := false }
    (acc.addNode nn, c + 1, m ++ [(id, nn.id)], out ++ [nn.id])

/-- The duplicateSelected phase-2 fold body. -/
def dupLabelStep (st : Diagram × ℕ × List String) (id : String) :
    Diagram × ℕ × List String :=
  let (acc, c, out) := st
  match acc.textLabels.get? id with
  | none => st
  | some l =>
    let nl0 := l.clone c
    let nl := { nl0 with
      position := ⟨l.position.x + 20, l.position.y + 20⟩
      isSelected := false }
    (acc.addTextLabel nl, c + 1, out ++ [nl.id])

/-- The duplicateSelected phase-3 fold body (m is the old-id to new-id
node map of phase 1). -/
def dupArrowStep (m : List (String × String)) (st : Diagram × ℕ × List String)
    (id : String) : Diagram × ℕ × List String :=
  let (acc, c, out) := st
  match acc.arrows.get? id with
  | none => st
  | some a =>
    match (m.find? (fun kv => kv.1 = a.fromId)).map (·.2),
          (m.find? (fun kv => kv.1 = a.toId)).map (·.2) with
    | some nf, some nt =>
      let na := mkArrow c nf nt (some a.strokeColor) (some a.strokeWidth)
        (some a.lineStyle)
      (acc.addArrow na, c + 1, out ++ [na.id])
    | _, _ => st

/-- The phase-1 clone value: fresh id, +20/+20 offset, deselected
(definitionally the nn of dupNodeStep). -/
def cloneNodeAt (n : NodeE) (nid : String) : NodeE :=
  { n with
    id := nid
    position := ⟨n.position.x + 20, n.position.y + 20⟩
    isSelected := false }

/-- The phase-2 clone value. -/
def cloneLabelAt (l : TextLabelE) (nid : String) : TextLabelE :=
  { l with
    id := nid
    position := ⟨l.position.x + 20, l.position.y + 20⟩
    isSelected := false }

/-- The phase-3 clone value: fresh id, remapped endpoints, style copied
(definitionally the na of dupArrowStep). -/
def cloneArrowAt (a : ArrowE) (nid nf nt : String) : ArrowE :=
  { id := nid
    fromId := nf
    toId := nt
    isSelected := false
    strokeColor := a.strokeColor
    strokeWidth := a.strokeWidth
    lineStyle := a.lineStyle }

/-- The two-node one-arrow scene with only node A selected (the claim
scenario for duplicate arrow filtering). -/
def dC4 : Diagram := dAB.selectElement nA.id false

/-- The last-whiteboard invariant, tracked on the key list: at least
one whiteboard, and duplicate-free keys (which every reachable Scene
has, since inserts go through the keyed set). -/
def wbInv (d : Diagram) : Prop :=
  1 ≤ d.whiteboards.keys.length ∧ d.whiteboards.keys.Nodup

/-- Faithfulness of sqrtLeB: over the reals, sqrt a <= b is equivalent
to the squared comparison used by the embedding. -/
theorem sqrtLeB_correct (a b : ℚ) (ha : 0 ≤ a) :
    sqrtLeB a b = true ↔ Real.sqrt a ≤ b := by
  simp only [sqrtLeB, decide_eq_true_eq]
  constructor
  · rintro ⟨hb, hab⟩
    have h1 : Real.sqrt a ≤ Real.sqrt (b ^ 2) := by
      apply Real.sqrt_le_sqrt
      exact_mod_cast hab
    have h2 : Real.sqrt ((b : ℝ) ^ 2) = (b : ℝ) := by
      rw [Real.sqrt_sq (by exact_mod_cast hb)]
    calc Real.sqrt a ≤ Real.sqrt (b ^ 2) := by exact_mod_cast h1
      _ = (b : ℝ) := h2
  · intro h
    have hb : (0 : ℝ) ≤ b := le_trans (Real.sqrt_nonneg _) h
    constructor
    · exact_mod_cast hb
    · have := Real.sq_sqrt (by exact_mod_cast ha : (0:ℝ) ≤ (a:ℚ))
      have h2 : (Real.sqrt a) ^ 2 ≤ (b : ℝ) ^ 2 := by
        apply pow_le_pow_left₀ (Real.sqrt_nonneg _) h
      rw [Real.sq_sqrt (by exact_mod_cast ha : (0:ℝ) ≤ ((a:ℚ):ℝ))] at h2
      exact_mod_cast h2

/-- Faithfulness of sqrtGeB. -/
theorem sqrtGeB_correct (a b : ℚ) (ha : 0 ≤ a) :
    sqrtGeB a b = true ↔ (b : ℝ) ≤ Real.sqrt a := by
  simp only [sqrtGeB, decide_eq_true_eq]
  constructor
  · rintro (hb | hab)
    · exact le_trans (by exact_mod_cast hb) (Real.sqrt_nonneg _)
    · have h1 : Real.sqrt (b ^ 2) ≤ Real.sqrt a := by
        apply Real.sqrt_le_sqrt; exact_mod_cast hab
      rcases le_or_lt (b : ℝ) 0 with h | h
      · exact le_trans h (Real.sqrt_nonneg _)
      · calc (b : ℝ) = Real.sqrt ((b : ℝ) ^ 2) := (Real.sqrt_sq h.le).symm
          _ ≤ Real.sqrt a := by exact_mod_cast h1
  · intro h
    rcases le_or_lt b 0 with hb | hb
    · exact Or.inl hb
    · right
      have h2 : (b : ℝ) ^ 2 ≤ (Real.sqrt a) ^ 2 := by
        apply pow_le_pow_left₀ (by exact_mod_cast hb.le) h
      rw [Real.sq_sqrt (by exact_mod_cast ha : (0:ℝ) ≤ ((a:ℚ):ℝ))] at h2
      exact_mod_cast h2

namespace JMap

theorem get?_cons {α : Type} (kv : String × α) (m : JMap α) (k : String) :
    get? (kv :: m) k = if kv.1 = k then some kv.2 else get? m k := rfl

theorem hasKey_cons {α : Type} (kv : String × α) (m : JMap α) (k : String) :
    hasKey (kv :: m) k = if kv.1 = k then true else hasKey m k := rfl

theorem set_cons {α : Type} (kv : String × α) (m : JMap α) (k : String) (v : α) :
    set (kv :: m) k v = if kv.1 = k then (k, v) :: m else kv :: set m k v := rfl

theorem del_cons {α : Type} (kv : String × α) (m : JMap α) (k : String) :
    del (kv :: m) k = if kv.1 = k then del m k else kv :: del m k := rfl

theorem update_cons {α : Type} (kv : String × α) (m : JMap α) (k : String)
    (f : α → α) :
    update (kv :: m) k f =
      (if kv.1 = k then (kv.1, f kv.2) else kv) :: update m k f := rfl

theorem keys_cons {α : Type} (kv : String × α) (m : JMap α) :
    keys (kv :: m) = kv.1 :: keys m := rfl

theorem values_cons {α : Type} (kv : String × α) (m : JMap α) :
    values (kv :: m) = kv.2 :: values m := rfl

theorem hasKey_eq_mem_keys {α : Type} (m : JMap α) (k : String) :
    m.hasKey k = true ↔ k ∈ m.keys := by
  induction m with
  | nil => simp [hasKey, keys]
  | cons kv m ih =>
    rw [hasKey_cons, keys_cons]
    by_cases h : kv.1 = k
    · simp [h]
    · simp only [h, if_false, ih, List.mem_cons]
      constructor
      · exact Or.inr
      · rintro (rfl | hm)
        · exact absurd rfl h
        · exact hm

theorem mem_keys_set {α : Type} (m : JMap α) (k k2 : String) (v : α) :
    k2 ∈ (m.set k v).keys ↔ (k2 ∈ m.keys ∨ k2 = k) := by
  induction m with
  | nil => simp [set, keys]
  | cons kv m ih =>
    rw [set_cons]
    by_cases h : kv.1 = k
    · rw [if_pos h, keys_cons, keys_cons]
      simp only [List.mem_cons, h]
      tauto
    · rw [if_neg h, keys_cons, keys_cons]
      simp only [List.mem_cons, ih]
      tauto

theorem hasKey_set_iff {α : Type} (m : JMap α) (k k2 : String) (v : α) :
    (m.set k v).hasKey k2 = true ↔ (m.hasKey k2 = true ∨ k2 = k) := by
  rw [hasKey_eq_mem_keys, mem_keys_set, ← hasKey_eq_mem_keys]

theorem hasKey_set_mono {α : Type} {m : JMap α} {k2 : String} (k : String) (v : α)
    (h : m.hasKey k2 = true) : (m.set k v).hasKey k2 = true :=
  (hasKey_set_iff m k k2 v).mpr (Or.inl h)

theorem mem_keys_del {α : Type} (m : JMap α) (k k2 : String) :
    k2 ∈ (m.del k).keys ↔ (k2 ∈ m.keys ∧ k2 ≠ k) := by
  induction m with
  | nil => simp [del, keys]
  | cons kv m ih =>
    rw [del_cons]
    by_cases h : kv.1 = k
    · rw [if_pos h, keys_cons]
      simp only [ih, List.mem_cons, h]
      constructor
      · rintro ⟨hm, hne⟩
        exact ⟨Or.inr hm, hne⟩
      · rintro ⟨rfl | hm, hne⟩
        · exact absurd rfl hne
        · exact ⟨hm, hne⟩
    · rw [if_neg h, keys_cons, keys_cons]
      simp only [List.mem_cons, ih]
      constructor
      · rintro (rfl | ⟨hm, hne⟩)
        · exact ⟨Or.inl rfl, fun hc => h (hc ▸ rfl)⟩
        · exact ⟨Or.inr hm, hne⟩
      · rintro ⟨rfl | hm, hne⟩
        · exact Or.inl rfl
        · exact Or.inr ⟨hm, hne⟩

theorem hasKey_del_iff {α : Type} (m : JMap α) (k k2 : String) :
    (m.del k).hasKey k2 = true ↔ (m.hasKey k2 = true ∧ k2 ≠ k) := by
  rw [hasKey_eq_mem_keys, mem_keys_del, ← hasKey_eq_mem_keys]

theorem keys_update {α : Type} (m : JMap α) (k : String) (f : α → α) :
    (m.update k f).keys = m.keys := by
  induction m with
  | nil => rfl
  | cons kv m ih =>
    rw [update_cons, keys_cons, keys_cons]
    by_cases h : kv.1 = k
    · rw [if_pos h]
      simpa [keys] using ih
    · rw [if_neg h]
      simpa [keys] using ih

theorem hasKey_update {α : Type} (m : JMap α) (k k2 : String) (f : α → α) :
    (m.update k f).hasKey k2 = m.hasKey k2 := by
  cases h : m.hasKey k2
  · cases h2 : (m.update k f).hasKey k2
    · rfl
    · rw [hasKey_eq_mem_keys, keys_update, ← hasKey_eq_mem_keys, h] at h2
      exact h2.symm
  · rw [hasKey_eq_mem_keys, keys_update, ← hasKey_eq_mem_keys, h]

theorem keys_mapValues {α : Type} (m : JMap α) (f : α → α) :
    (m.mapValues f).keys = m.keys := by
  simp [mapValues, keys, List.map_map]

theorem hasKey_mapValues {α : Type} (m : JMap α) (k : String) (f : α → α) :
    (m.mapValues f).hasKey k = m.hasKey k := by
  cases h : m.hasKey k
  · cases h2 : (m.mapValues f).hasKey k
    · rfl
    · rw [hasKey_eq_mem_keys, keys_mapValues, ← hasKey_eq_mem_keys, h] at h2
      exact h2.symm
  · rw [hasKey_eq_mem_keys, keys_mapValues, ← hasKey_eq_mem_keys, h]

theorem mem_values_set {α : Type} (m : JMap α) (k : String) (v : α) :
    ∀ a, a ∈ JMap.values (m.set k v) → a ∈ m.values ∨ a = v := by
  induction m with
  | nil =>
    intro a ha
    simp only [set, values, List.map_cons, List.map_nil, List.mem_singleton] at ha
    exact Or.inr ha
  | cons kv m ih =>
    intro a ha
    rw [set_cons] at ha
    by_cases h : kv.1 = k
    · rw [if_pos h, values_cons, List.mem_cons] at ha
      rcases ha with ha | ha
      · exact Or.inr ha
      · left
        rw [values_cons, List.mem_cons]
        exact Or.inr ha
    · rw [if_neg h, values_cons, List.mem_cons] at ha
      rcases ha with ha | ha
      · left
        rw [values_cons, List.mem_cons]
        exact Or.inl ha
      · rcases ih a ha with h2 | h2
        · left
          rw [values_cons, List.mem_cons]
          exact Or.inr h2
        · exact Or.inr h2

theorem mem_values_update {α : Type} (m : JMap α) (k : String) (f : α → α) :
    ∀ a, a ∈ JMap.values (m.update k f) →
      a ∈ m.values ∨ ∃ b, b ∈ m.values ∧ a = f b := by
  induction m with
  | nil => intro a ha; simp [update, values] at ha
  | cons kv m ih =>
    intro a ha
    rw [update_cons] at ha
    by_cases h : kv.1 = k
    · rw [if_pos h, values_cons, List.mem_cons] at ha
      rcases ha with ha | ha
      · exact Or.inr ⟨kv.2, by rw [values_cons]; exact List.mem_cons_self _ _, ha⟩
      · rcases ih a ha with h2 | ⟨b, hb, rfl⟩
        · left
          rw [values_cons, List.mem_cons]
          exact Or.inr h2
        · exact Or.inr ⟨b, by rw [values_cons, List.mem_cons]; exact Or.inr hb, rfl⟩
    · rw [if_neg h, values_cons, List.mem_cons] at ha
      rcases ha with ha | ha
      · left
        rw [values_cons, List.mem_cons]
        exact Or.inl ha
      · rcases ih a ha with h2 | ⟨b, hb, rfl⟩
        · left
          rw [values_cons, List.mem_cons]
          exact Or.inr h2
        · exact Or.inr ⟨b, by rw [values_cons, List.mem_cons]; exact Or.inr hb, rfl⟩

theorem mem_values_mapValues {α : Type} {m : JMap α} {f : α → α} {a : α}
    (h : a ∈ JMap.values (m.mapValues f)) : ∃ b, b ∈ m.values ∧ a = f b := by
  simp only [mapValues, values, List.map_map, List.mem_map] at h
  obtain ⟨kv, hkv, heq⟩ := h
  exact ⟨kv.2, by simp only [values, List.mem_map]; exact ⟨kv, hkv, rfl⟩, heq.symm⟩

theorem mem_values_del {α : Type} (m : JMap α) (k : String) :
    ∀ a, a ∈ JMap.values (m.del k) → a ∈ m.values := by
  induction m with
  | nil => intro a ha; simpa [del, values] using ha
  | cons kv m ih =>
    intro a ha
    rw [del_cons] at ha
    by_cases h : kv.1 = k
    · rw [if_pos h] at ha
      rw [values_cons, List.mem_cons]
      exact Or.inr (ih a ha)
    · rw [if_neg h, values_cons, List.mem_cons] at ha
      rw [values_cons, List.mem_cons]
      rcases ha with ha | ha
      · exact Or.inl ha
      · exact Or.inr (ih a ha)

theorem mem_values_filter_val {α : Type} (m : JMap α) (p : α → Bool) (a : α) :
    a ∈ JMap.values (m.filter (fun kv => p kv.2)) ↔ a ∈ m.values ∧ p a = true := by
  simp only [values, List.mem_map]
  constructor
  · rintro ⟨kv, hkv, rfl⟩
    rw [List.mem_filter] at hkv
    exact ⟨⟨kv, hkv.1, rfl⟩, hkv.2⟩
  · rintro ⟨⟨kv, hkv, rfl⟩, hp⟩
    exact ⟨kv, List.mem_filter.mpr ⟨hkv, hp⟩, rfl⟩

theorem length_le_set {α : Type} (m : JMap α) (k : String) (v : α) :
    m.length ≤ (m.set k v).length := by
  induction m with
  | nil => simp [set]
  | cons kv m ih =>
    rw [set_cons]
    by_cases h : kv.1 = k
    · rw [if_pos h]
      simp
    · rw [if_neg h]
      simpa using ih

theorem length_update {α : Type} (m : JMap α) (k : String) (f : α → α) :
    (m.update k f).length = m.length := by
  induction m with
  | nil => rfl
  | cons kv m ih =>
    rw [update_cons]
    simpa using ih

theorem length_mapValues {α : Type} (m : JMap α) (f : α → α) :
    (m.mapValues f).length = m.length := by
  simp [mapValues]

theorem nodup_keys_set {α : Type} (m : JMap α) (k : String) (v : α) :
    m.keys.Nodup → (m.set k v).keys.Nodup := by
  induction m with
  | nil =>
    intro h
    simp [set, keys]
  | cons kv m ih =>
    intro h
    rw [keys_cons, List.nodup_cons] at h
    rw [set_cons]
    by_cases hk : kv.1 = k
    · rw [if_pos hk, keys_cons, List.nodup_cons]
      exact ⟨hk ▸ h.1, h.2⟩
    · rw [if_neg hk, keys_cons, List.nodup_cons]
      refine ⟨fun hc => ?_, ih h.2⟩
      rcases (mem_keys_set m k kv.1 v).mp hc with h2 | h2
      · exact h.1 h2
      · exact hk h2

theorem nodup_keys_del {α : Type} (m : JMap α) (k : String) :
    m.keys.Nodup → (m.del k).keys.Nodup := by
  induction m with
  | nil => intro h; simp [del, keys]
  | cons kv m ih =>
    intro h
    rw [keys_cons, List.nodup_cons] at h
    rw [del_cons]
    by_cases hk : kv.1 = k
    · rw [if_pos hk]
      exact ih h.2
    · rw [if_neg hk, keys_cons, List.nodup_cons]
      refine ⟨fun hc => ?_, ih h.2⟩
      exact h.1 ((mem_keys_del m k kv.1).mp hc).1

theorem hasKey_false_del_id {α : Type} (m : JMap α) (k : String) :
    m.hasKey k = false → m.del k = m := by
  induction m with
  | nil => intro _; rfl
  | cons kv m ih =>
    intro h
    rw [hasKey_cons] at h
    by_cases hk : kv.1 = k
    · rw [if_pos hk] at h
      exact absurd h (by simp)
    · rw [if_neg hk] at h
      rw [del_cons, if_neg hk, ih h]

theorem length_del {α : Type} (m : JMap α) (k : String) (h : m.keys.Nodup) :
    m.length ≤ (m.del k).length + 1 := by
  induction m with
  | nil => simp [del]
  | cons kv m ih =>
    rw [keys_cons, List.nodup_cons] at h
    rw [del_cons]
    by_cases hk : kv.1 = k
    · rw [if_pos hk]
      have hnot : JMap.hasKey m k = false := by
        cases hh : JMap.hasKey m k
        · rfl
        · exact absurd (hk ▸ (hasKey_eq_mem_keys m k).mp hh) h.1
      rw [hasKey_false_del_id m k hnot]
      simp
    · rw [if_neg hk]
      have := ih h.2
      simp only [List.length_cons]
      omega

theorem get?_del_self {α : Type} (m : JMap α) (k : String) :
    (m.del k).get? k = none := by
  induction m with
  | nil => rfl
  | cons kv m ih =>
    rw [del_cons]
    by_cases hk : kv.1 = k
    · rw [if_pos hk]
      exact ih
    · rw [if_neg hk, get?_cons, if_neg hk]
      exact ih

theorem get?_del_ne {α : Type} (m : JMap α) (k k2 : String) (h : k2 ≠ k) :
    (m.del k).get? k2 = m.get? k2 := by
  induction m with
  | nil => rfl
  | cons kv m ih =>
    rw [del_cons, get?_cons]
    by_cases hk : kv.1 = k
    · have hne : ¬(kv.1 = k2) := fun hc => h ((hk ▸ hc : k = k2).symm)
      rw [if_pos hk, if_neg hne, ih]
    · rw [if_neg hk, get?_cons]
      by_cases h2 : kv.1 = k2
      · rw [if_pos h2, if_pos h2]
      · rw [if_neg h2, if_neg h2, ih]

theorem get?_update_ne {α : Type} (m : JMap α) (k k2 : String) (f : α → α)
    (h : k2 ≠ k) : (m.update k f).get? k2 = m.get? k2 := by
  induction m with
  | nil => rfl
  | cons kv m ih =>
    rw [update_cons, get?_cons, get?_cons]
    by_cases hk : kv.1 = k
    · have hne : ¬(kv.1 = k2) := fun hc => h ((hk ▸ hc : k = k2).symm)
      rw [if_pos hk]
      simp only [hne, if_false, if_neg hne, ih]
    · rw [if_neg hk]
      by_cases h2 : kv.1 = k2
      · simp [h2]
      · simp only [h2, if_false, if_neg h2, ih]

theorem get?_update_self {α : Type} (m : JMap α) (k : String) (f : α → α) :
    (m.update k f).get? k = (m.get? k).map f := by
  induction m with
  | nil => rfl
  | cons kv m ih =>
    rw [update_cons, get?_cons, get?_cons]
    by_cases hk : kv.1 = k
    · rw [if_pos hk]
      simp [hk]
    · rw [if_neg hk]
      simp only [hk, if_false, if_neg hk, ih]

theorem get?_set_self {α : Type} (m : JMap α) (k : String) (v : α) :
    (m.set k v).get? k = some v := by
  induction m with
  | nil => simp [set, get?]
  | cons kv m ih =>
    rw [set_cons]
    by_cases hk : kv.1 = k
    · rw [if_pos hk, get?_cons, if_pos rfl]
    · rw [if_neg hk, get?_cons, if_neg hk, ih]

theorem get?_set_ne {α : Type} (m : JMap α) (k k2 : String) (v : α)
    (h : k2 ≠ k) : (m.set k v).get? k2 = m.get? k2 := by
  induction m with
  | nil =>
    have : ¬(k = k2) := fun hc => h hc.symm
    simp [set, get?, this]
  | cons kv m ih =>
    rw [set_cons]
    by_cases hk : kv.1 = k
    · have hne : ¬(kv.1 = k2) := fun hc => h ((hk ▸ hc : k = k2).symm)
      rw [if_pos hk, get?_cons, get?_cons, if_neg hne, if_neg (fun hc => h hc.symm)]
    · rw [if_neg hk, get?_cons, get?_cons]
      by_cases h2 : kv.1 = k2
      · rw [if_pos h2, if_pos h2]
      · rw [if_neg h2, if_neg h2, ih]

theorem get?_eq_some_mem_values {α : Type} (m : JMap α) (k : String) (v : α) :
    m.get? k = some v → v ∈ m.values := by
  induction m with
  | nil => intro h; simp [get?] at h
  | cons kv m ih =>
    intro h
    rw [get?_cons] at h
    by_cases hk : kv.1 = k
    · rw [if_pos hk, Option.some.injEq] at h
      rw [values_cons, List.mem_cons]
      exact Or.inl h.symm
    · rw [if_neg hk] at h
      rw [values_cons, List.mem_cons]
      exact Or.inr (ih h)

theorem oneNodup_set {α : Type} (m : JMap α) (k : String) (v : α)
    (h : 1 ≤ m.keys.length ∧ m.keys.Nodup) :
    1 ≤ (m.set k v).keys.length ∧ (m.set k v).keys.Nodup := by
  constructor
  · have h1 : m.length ≤ (m.set k v).length := length_le_set m k v
    have e1 : m.keys.length = m.length := by simp [keys]
    have e2 : (m.set k v).keys.length = (m.set k v).length := by simp [keys]
    omega
  · exact nodup_keys_set m k v h.2

theorem hasKey_eq_isSome_get? {α : Type} (m : JMap α) (k : String) :
    m.hasKey k = (m.get? k).isSome := by
  induction m with
  | nil => rfl
  | cons kv m ih =>
    rw [hasKey_cons, get?_cons]
    by_cases hk : kv.1 = k
    · rw [if_pos hk, if_pos hk]
      rfl
    · rw [if_neg hk, if_neg hk, ih]

end JMap

theorem digitVal_digitChar (d : ℕ) (h : d < 10) : digitVal (Nat.digitChar d) = d := by
  interval_cases d <;> rfl

theorem toDigitsCore_append (fuel n : ℕ) (ds : List Char) :
    Nat.toDigitsCore 10 fuel n ds = Nat.toDigitsCore 10 fuel n [] ++ ds := by
  induction fuel generalizing n ds with
  | zero => simp [Nat.toDigitsCore]
  | succ f ih =>
    simp only [Nat.toDigitsCore]
    by_cases h : n / 10 = 0
    · simp [h]
    · simp only [h, if_false]
      rw [ih (n / 10) _, ih (n / 10) [Nat.digitChar (n % 10)]]
      simp

theorem foldl_digit_val (a : ℕ) (cs : List Char) :
    cs.foldl (fun a c => a * 10 + digitVal c) a =
      a * 10 ^ cs.length + valOfDigits cs := by
  induction cs generalizing a with
  | nil => simp [valOfDigits]
  | cons c cs ih =>
    simp only [List.foldl_cons, valOfDigits] at *
    rw [ih (a * 10 + digitVal c), ih (0 * 10 + digitVal c)]
    simp only [List.length_cons, pow_succ]
    ring

theorem toDigitsCore_val (fuel : ℕ) : ∀ n, n < fuel →
    valOfDigits (Nat.toDigitsCore 10 fuel n []) = n := by
  induction fuel with
  | zero => intro n h; omega
  | succ f ih =>
    intro n h
    simp only [Nat.toDigitsCore]
    by_cases h10 : n / 10 = 0
    · simp [h10, valOfDigits, digitVal_digitChar _ (Nat.mod_lt _ (by norm_num))]
      omega
    · simp only [h10, if_false]
      rw [toDigitsCore_append, valOfDigits, List.foldl_append]
      have hlt : n / 10 < f := by
        have h1 : n / 10 < n := Nat.div_lt_self (by omega) (by norm_num)
        omega
      have := ih (n / 10) hlt
      simp only [valOfDigits] at this
      rw [this]
      simp [digitVal_digitChar _ (Nat.mod_lt _ (by norm_num))]
      omega

/-- The decimal rendering of naturals is injective, hence generated
entity ids with distinct counter values are distinct strings. -/
theorem natRepr_inj : Function.Injective Nat.repr := by
  intro m n h
  have hd : Nat.toDigits 10 m = Nat.toDigits 10 n := by
    have := congrArg String.data h
    simpa [Nat.repr, Nat.toDigits, List.asString] using this
  have hm := toDigitsCore_val (m + 1) m (by omega)
  have hn := toDigitsCore_val (n + 1) n (by omega)
  simp only [Nat.toDigits] at hd
  rw [hd] at hm
  omega

theorem string_append_cancel (p a b : String) (h : p ++ a = p ++ b) : a = b := by
  have := congrArg String.data h
  simp [String.data_append] at this
  exact String.ext this

theorem nodeIdStr_inj {a b : ℕ} (h : nodeIdStr a = nodeIdStr b) : a = b :=
  natRepr_inj (string_append_cancel "node-" _ _ h)

theorem arrowIdStr_inj {a b : ℕ} (h : arrowIdStr a = arrowIdStr b) : a = b :=
  natRepr_inj (string_append_cancel "arrow-" _ _ h)

theorem textIdStr_inj {a b : ℕ} (h : textIdStr a = textIdStr b) : a = b :=
  natRepr_inj (string_append_cancel "text-" _ _ h)

theorem nodeIdStr_ne_textIdStr (a b : ℕ) : nodeIdStr a ≠ textIdStr b := by
  intro h
  have := congrArg String.data h
  simp [nodeIdStr, textIdStr, String.data_append] at this

theorem nodeIdStr_ne_arrowIdStr (a b : ℕ) : nodeIdStr a ≠ arrowIdStr b := by
  intro h
  have := congrArg String.data h
  simp [nodeIdStr, arrowIdStr, String.data_append] at this

theorem textIdStr_ne_arrowIdStr (a b : ℕ) : textIdStr a ≠ arrowIdStr b := by
  intro h
  have := congrArg String.data h
  simp [textIdStr, arrowIdStr, String.data_append] at this

namespace JSet

theorem mem_del (s : JSet) (k x : String) : x ∈ s.del k ↔ (x ∈ s ∧ x ≠ k) := by
  simp [del, List.mem_filter]

theorem mem_add (s : JSet) (k x : String) : x ∈ s.add k ↔ (x ∈ s ∨ x = k) := by
  by_cases h : k ∈ s
  · simp only [add, if_pos h, List.mem_append]
    constructor
    · exact Or.inl
    · rintro (hx | rfl)
      · exact hx
      · exact h
  · simp [add, if_neg h]

end JSet

/-- A property preserved by each fold step is preserved by the fold. -/
theorem foldl_preserves {α β : Type} {P : α → Prop} {step : α → β → α}
    (h : ∀ a b, P a → P (step a b)) :
    ∀ (l : List β) (a : α), P a → P (l.foldl step a) := by
  intro l
  induction l with
  | nil => intro a ha; exact ha
  | cons x l ih => intro a ha; exact ih _ (h a x ha)

theorem integrityB_iff (d : Diagram) :
    integrityB d = true ↔
      ∀ a ∈ JMap.values d.arrows,
        d.nodes.hasKey a.fromId = true ∧ d.nodes.hasKey a.toId = true := by
  simp [integrityB, List.all_eq_true, Bool.and_eq_true]

/-- Integrity survives any change that can only grow the node key set
and only re-wire arrow flags (never the endpoint ids). -/
theorem integrity_mono {d d' : Diagram}
    (hn : ∀ k, d.nodes.hasKey k = true → d'.nodes.hasKey k = true)
    (ha : ∀ a ∈ JMap.values d'.arrows,
      ∃ b ∈ JMap.values d.arrows, a.fromId = b.fromId ∧ a.toId = b.toId)
    (h : integrityB d = true) : integrityB d' = true := by
  rw [integrityB_iff] at h ⊢
  intro a hmem
  obtain ⟨b, hb, h1, h2⟩ := ha a hmem
  obtain ⟨hf, ht⟩ := h b hb
  exact ⟨h1 ▸ hn _ hf, h2 ▸ hn _ ht⟩

theorem integrityB_eq_of {d d' : Diagram} (h1 : d'.arrows = d.arrows)
    (h2 : d'.nodes = d.nodes) : integrityB d' = integrityB d := by
  simp [integrityB, h1, h2]

theorem integrity_addNode (d : Diagram) (n : NodeE)
    (h : integrityB d = true) : integrityB (d.addNode n) = true := by
  apply integrity_mono (d := d) _ _ h
  · intro k hk
    exact JMap.hasKey_set_mono _ _ hk
  · intro a ha
    exact ⟨a, ha, rfl, rfl⟩

theorem integrity_removeNode (d : Diagram) (id : String)
    (h : integrityB d = true) : integrityB (d.removeNode id) = true := by
  rw [integrityB_iff] at h ⊢
  intro a hmem
  rw [Diagram.removeNode] at hmem
  simp only at hmem
  obtain ⟨hold, hcond⟩ :=
    (JMap.mem_values_filter_val d.arrows
      (fun b => decide ¬(b.fromId = id ∨ b.toId = id)) a).mp hmem
  simp only [decide_eq_true_eq, not_or] at hcond
  obtain ⟨hf, ht⟩ := h a hold
  constructor
  · exact (JMap.hasKey_del_iff _ _ _).mpr ⟨hf, hcond.1⟩
  · exact (JMap.hasKey_del_iff _ _ _).mpr ⟨ht, hcond.2⟩

theorem integrity_addArrow (d : Diagram) (a : ArrowE)
    (hf : d.nodes.hasKey a.fromId = true) (ht : d.nodes.hasKey a.toId = true)
    (h : integrityB d = true) : integrityB (d.addArrow a) = true := by
  rw [integrityB_iff] at h ⊢
  intro b hmem
  rcases JMap.mem_values_set _ _ _ b hmem with hb | rfl
  · exact h b hb
  · exact ⟨hf, ht⟩

theorem integrity_removeArrow (d : Diagram) (id : String)
    (h : integrityB d = true) : integrityB (d.removeArrow id) = true := by
  rw [integrityB_iff] at h ⊢
  intro b hmem
  exact h b (JMap.mem_values_del _ _ b hmem)

/-- Flag-only updates to the four collections preserve integrity. -/
theorem integrity_selupd (d : Diagram) (id : String)
    (h : integrityB d = true) (b : Bool) :
    integrityB { d with
      selectedElementIds := d.selectedElementIds
      nodes := d.nodes.update id (·.setSelected b)
      arrows := d.arrows.update id (·.setSelected b)
      textLabels := d.textLabels.update id (·.setSelected b) } = true := by
  apply integrity_mono (d := d) _ _ h
  · intro k hk
    simpa [JMap.hasKey_update] using hk
  · intro a ha
    rcases JMap.mem_values_update _ _ _ a ha with h2 | ⟨c, hc, rfl⟩
    · exact ⟨a, h2, rfl, rfl⟩
    · exact ⟨c, hc, rfl, rfl⟩

theorem integrity_clearSelection (d : Diagram)
    (h : integrityB d = true) : integrityB d.clearSelection = true := by
  rw [Diagram.clearSelection]
  have hfold : integrityB (d.selectedElementIds.foldl (fun acc id =>
      { acc with
        nodes := acc.nodes.update id (·.setSelected false)
        arrows := acc.arrows.update id (·.setSelected false)
        textLabels := acc.textLabels.update id (·.setSelected false)
        whiteboards := acc.whiteboards.update id (·.setSelected false) }) d)
      = true := by
    refine foldl_preserves (P := fun x => integrityB x = true) ?_ _ _ h
    intro acc id hacc
    apply integrity_mono (d := acc) _ _ hacc
    · intro k hk
      simpa [JMap.hasKey_update] using hk
    · intro a ha
      rcases JMap.mem_values_update _ _ _ a ha with h2 | ⟨c, hc, rfl⟩
      · exact ⟨a, h2, rfl, rfl⟩
      · exact ⟨c, hc, rfl, rfl⟩
  exact hfold

theorem integrity_selectOneNoWb (d : Diagram) (id : String)
    (h : integrityB d = true) : integrityB (Diagram.selectOneNoWb d id) = true := by
  rw [Diagram.selectOneNoWb]
  apply integrity_mono (d := d) _ _ h
  · intro k hk
    simpa [JMap.hasKey_update] using hk
  · intro a ha
    rcases JMap.mem_values_update _ _ _ a ha with h2 | ⟨c, hc, rfl⟩
    · exact ⟨a, h2, rfl, rfl⟩
    · exact ⟨c, hc, rfl, rfl⟩

theorem integrity_selectElements (d : Diagram) (ids : List String) (add : Bool)
    (h : integrityB d = true) : integrityB (d.selectElements ids add) = true := by
  rw [Diagram.selectElements]
  apply foldl_preserves (P := fun x => integrityB x = true)
  · intro a b ha
    exact integrity_selectOneNoWb a b ha
  · by_cases hadd : add = true
    · simpa [hadd] using h
    · simp only [Bool.not_eq_true] at hadd
      simpa [hadd] using integrity_clearSelection d h

theorem integrity_selectElement (d : Diagram) (id : String) (add : Bool)
    (h : integrityB d = true) : integrityB (d.selectElement id add) = true := by
  rw [Diagram.selectElement]
  have h0 : integrityB (if add = true then d else d.clearSelection) = true := by
    by_cases hadd : add = true
    · simpa [hadd] using h
    · simp only [Bool.not_eq_true] at hadd
      simpa [hadd] using integrity_clearSelection d h
  apply integrity_mono (d := if add = true then d else d.clearSelection) _ _ h0
  · intro k hk
    simpa [JMap.hasKey_update] using hk
  · intro a ha
    rcases JMap.mem_values_update _ _ _ a ha with h2 | ⟨c, hc, rfl⟩
    · exact ⟨a, h2, rfl, rfl⟩
    · exact ⟨c, hc, rfl, rfl⟩

theorem integrity_deselectElement (d : Diagram) (id : String)
    (h : integrityB d = true) : integrityB (d.deselectElement id) = true := by
  rw [Diagram.deselectElement]
  apply integrity_mono (d := d) _ _ h
  · intro k hk
    simpa [JMap.hasKey_update] using hk
  · intro a ha
    rcases JMap.mem_values_update _ _ _ a ha with h2 | ⟨c, hc, rfl⟩
    · exact ⟨a, h2, rfl, rfl⟩
    · exact ⟨c, hc, rfl, rfl⟩

theorem integrity_selectAll (d : Diagram)
    (h : integrityB d = true) : integrityB d.selectAll = true := by
  rw [Diagram.selectAll]
  have h0 := integrity_clearSelection d h
  apply integrity_mono (d := d.clearSelection) _ _ h0
  · intro k hk
    simpa [JMap.hasKey_mapValues] using hk
  · intro a ha
    obtain ⟨c, hc, rfl⟩ := JMap.mem_values_mapValues (by simpa using ha)
    exact ⟨c, hc, rfl, rfl⟩

theorem integrity_removeTextLabel (d : Diagram) (id : String)
    (h : integrityB d = true) : integrityB (d.removeTextLabel id) = true := h

theorem integrity_removeWhiteboard (d : Diagram) (id : String)
    (h : integrityB d = true) : integrityB (d.removeWhiteboard id) = true := by
  rw [Diagram.removeWhiteboard]
  by_cases hle : d.whiteboards.length ≤ 1
  · simpa [hle] using h
  · simp only [hle, if_false]
    exact h

theorem integrity_deleteSelected (d : Diagram)
    (h : integrityB d = true) : integrityB d.deleteSelected = true := by
  rw [Diagram.deleteSelected]
  have hfold : integrityB (d.selectedElementIds.foldl (fun acc id =>
      if acc.nodes.hasKey id then acc.removeNode id
      else if acc.arrows.hasKey id then acc.removeArrow id
      else if acc.textLabels.hasKey id then acc.removeTextLabel id
      else if acc.whiteboards.hasKey id then acc.removeWhiteboard id
      else acc) d) = true := by
    refine foldl_preserves (P := fun x => integrityB x = true) ?_ _ _ h
    intro acc id hacc
    by_cases h1 : acc.nodes.hasKey id = true
    · simpa [h1] using integrity_removeNode acc id hacc
    · simp only [Bool.not_eq_true] at h1
      by_cases h2 : acc.arrows.hasKey id = true
      · simpa [h1, h2] using integrity_removeArrow acc id hacc
      · simp only [Bool.not_eq_true] at h2
        by_cases h3 : acc.textLabels.hasKey id = true
        · simpa [h1, h2, h3] using integrity_removeTextLabel acc id hacc
        · simp only [Bool.not_eq_true] at h3
          by_cases h4 : acc.whiteboards.hasKey id = true
          · simpa [h1, h2, h3, h4] using integrity_removeWhiteboard acc id hacc
          · simp only [Bool.not_eq_true] at h4
            simpa [h1, h2, h3, h4] using hacc
  exact hfold

theorem integrity_dupNodes (d : Diagram) (cn : ℕ) (ids : List String)
    (h : integrityB d = true) : DupInv (Diagram.dupNodes d cn ids) := by
  rw [Diagram.dupNodes]
  apply foldl_preserves (P := DupInv)
  · rintro ⟨acc, c, m, out⟩ id ⟨hint, hmap⟩
    dsimp only
    cases hget : acc.nodes.get? id with
    | none => exact ⟨hint, hmap⟩
    | some n =>
      constructor
      · exact integrity_addNode acc _ hint
      · intro pr hpr
        rw [List.mem_append] at hpr
        rcases hpr with hpr | hpr
        · exact JMap.hasKey_set_mono _ _ (hmap pr hpr)
        · rw [List.mem_singleton] at hpr
          subst hpr
          exact (JMap.hasKey_set_iff _ _ _ _).mpr (Or.inr rfl)
  · exact ⟨h, by intro pr hpr; simp at hpr⟩

theorem integrity_dupLabels (d : Diagram) (ct : ℕ) (ids : List String)
    (h : integrityB d = true) :
    integrityB (Diagram.dupLabels d ct ids).1 = true ∧
      (Diagram.dupLabels d ct ids).1.nodes = d.nodes := by
  rw [Diagram.dupLabels]
  refine foldl_preserves
    (P := fun (st : Diagram × ℕ × List String) =>
      integrityB st.1 = true ∧ st.1.nodes = d.nodes) ?_ ids (d, ct, []) ⟨h, rfl⟩
  rintro ⟨acc, c, out⟩ id ⟨hint, hn⟩
  dsimp only
  cases hget : acc.textLabels.get? id with
  | none => exact ⟨hint, hn⟩
  | some l =>
    exact ⟨hint, hn⟩

theorem integrity_dupArrows (d : Diagram) (ca : ℕ) (m : List (String × String))
    (ids : List String) (h : integrityB d = true)
    (hm : ∀ pr ∈ m, d.nodes.hasKey pr.2 = true) :
    integrityB (Diagram.dupArrows d ca m ids).1 = true := by
  rw [Diagram.dupArrows]
  refine (foldl_preserves
    (P := fun (st : Diagram × ℕ × List String) =>
      integrityB st.1 = true ∧
        ∀ pr ∈ m, st.1.nodes.hasKey pr.2 = true) ?_ ids (d, ca, []) ⟨h, hm⟩).1
  rintro ⟨acc, c, out⟩ id ⟨hint, hmap⟩
  dsimp only
  cases hget : acc.arrows.get? id with
  | none => exact ⟨hint, hmap⟩
  | some a =>
    dsimp only
    cases hf : Option.map (fun x => x.2)
        (List.find? (fun kv => decide (kv.1 = a.fromId)) m) with
    | none => dsimp only; exact ⟨hint, hmap⟩
    | some nf =>
      cases ht : Option.map (fun x => x.2)
          (List.find? (fun kv => decide (kv.1 = a.toId)) m) with
      | none => dsimp only; exact ⟨hint, hmap⟩
      | some nt =>
        dsimp only
        have hnf : acc.nodes.hasKey nf = true := by
          rw [Option.map_eq_some'] at hf
          obtain ⟨pr, hpr, rfl⟩ := hf
          exact hmap pr (List.mem_of_find?_eq_some hpr)
        have hnt : acc.nodes.hasKey nt = true := by
          rw [Option.map_eq_some'] at ht
          obtain ⟨pr, hpr, rfl⟩ := ht
          exact hmap pr (List.mem_of_find?_eq_some hpr)
        exact ⟨integrity_addArrow acc _ hnf hnt hint, hmap⟩

theorem integrity_duplicateSelected (d : Diagram) (c : Counters)
    (h : integrityB d = true) :
    integrityB (d.duplicateSelected c).1 = true := by
  rw [Diagram.duplicateSelected]
  have h1 := integrity_dupNodes d c.node d.selectedElementIds h
  rcases hdn : Diagram.dupNodes d c.node d.selectedElementIds with ⟨d1, cn, m, idsN⟩
  rw [hdn] at h1
  obtain ⟨h1i, h1m⟩ := h1
  dsimp only
  have h2 := integrity_dupLabels d1 c.text d.selectedElementIds h1i
  rcases hdl : Diagram.dupLabels d1 c.text d.selectedElementIds with ⟨d2, ct, idsT⟩
  rw [hdl] at h2
  obtain ⟨h2i, h2n⟩ := h2
  dsimp only
  have h2m : ∀ pr ∈ m, d2.nodes.hasKey pr.2 = true := by
    intro pr hpr
    rw [h2n]
    exact h1m pr hpr
  have h3 := integrity_dupArrows d2 c.arrow m d.selectedElementIds h2i h2m
  rcases hda : Diagram.dupArrows d2 c.arrow m d.selectedElementIds with ⟨d3, ca, idsA⟩
  rw [hda] at h3
  dsimp only
  exact integrity_selectElements _ _ _ (integrity_clearSelection d3 h3)

theorem integrity_clear (d : Diagram) (c : Counters) :
    integrityB (d.clear c).1 = true := by
  rw [Diagram.clear]
  simp [integrityB, JMap.values]

theorem integrity_duplicateWhiteboard (d : Diagram) (c : Counters) (id : String)
    (h : integrityB d = true) :
    integrityB (d.duplicateWhiteboard c id).1 = true := by
  rw [Diagram.duplicateWhiteboard]
  cases hget : d.whiteboards.get? id with
  | none => exact h
  | some w =>
    exact h

theorem integrity_applyOp (op : Op) (s : Diagram × Counters)
    (hg : goodOpB s.1 op = true) (h : integrityB s.1 = true) :
    integrityB (applyOp op s).1 = true := by
  cases op with
  | addNode n => exact integrity_addNode s.1 n h
  | removeNode id => exact integrity_removeNode s.1 id h
  | addArrow a =>
    rw [goodOpB, Bool.and_eq_true] at hg
    exact integrity_addArrow s.1 a hg.1 hg.2 h
  | removeArrow id => exact integrity_removeArrow s.1 id h
  | addTextLabel l => exact h
  | removeTextLabel id => exact integrity_removeTextLabel s.1 id h
  | addWhiteboard w => exact h
  | removeWhiteboard id => exact integrity_removeWhiteboard s.1 id h
  | clearAllWhiteboards => exact h
  | selectElement id add => exact integrity_selectElement s.1 id add h
  | selectElements ids add => exact integrity_selectElements s.1 ids add h
  | deselectElement id => exact integrity_deselectElement s.1 id h
  | clearSelection => exact integrity_clearSelection s.1 h
  | selectAll => exact integrity_selectAll s.1 h
  | deleteSelected => exact integrity_deleteSelected s.1 h
  | duplicateSelected =>
    rw [applyOp]
    rcases hds : s.1.duplicateSelected s.2 with ⟨d1, c1, ids1⟩
    have := integrity_duplicateSelected s.1 s.2 h
    rw [hds] at this
    exact this
  | duplicateWhiteboard id =>
    rw [applyOp]
    rcases hds : s.1.duplicateWhiteboard s.2 id with ⟨d1, c1, o⟩
    have := integrity_duplicateWhiteboard s.1 s.2 id h
    rw [hds] at this
    exact this
  | clear => exact integrity_clear s.1 s.2

theorem integrity_applyOps (ops : List Op) (s : Diagram × Counters)
    (hg : traceGuardedB ops s = true) (h : integrityB s.1 = true) :
    integrityB (applyOps ops s).1 = true := by
  induction ops generalizing s with
  | nil => exact h
  | cons op ops ih =>
    rw [traceGuardedB, Bool.and_eq_true] at hg
    rw [applyOps, List.foldl_cons]
    exact ih (applyOp op s) hg.2 (integrity_applyOp op s hg.1 h)

theorem wbInv_of_keys_eq {d d' : Diagram}
    (hk : d'.whiteboards.keys = d.whiteboards.keys) (h : wbInv d) : wbInv d' := by
  rw [wbInv, hk]
  exact h

theorem wbInv_clearSelection (d : Diagram) (h : wbInv d) :
    wbInv d.clearSelection := by
  rw [Diagram.clearSelection]
  have hkeys : ∀ (l : List String) (a : Diagram),
      a.whiteboards.keys = d.whiteboards.keys →
      (l.foldl (fun acc id =>
        { acc with
          nodes := acc.nodes.update id (·.setSelected false)
          arrows := acc.arrows.update id (·.setSelected false)
          textLabels := acc.textLabels.update id (·.setSelected false)
          whiteboards := acc.whiteboards.update id (·.setSelected false) }) a
        ).whiteboards.keys = d.whiteboards.keys := by
    intro l
    induction l with
    | nil => intro a ha; exact ha
    | cons x l ih =>
      intro a ha
      rw [List.foldl_cons]
      apply ih
      rw [JMap.keys_update]
      exact ha
  exact wbInv_of_keys_eq (hkeys d.selectedElementIds d rfl) h

theorem wbInv_selectElements (d : Diagram) (ids : List String) (add : Bool)
    (h : wbInv d) : wbInv (d.selectElements ids add) := by
  rw [Diagram.selectElements]
  refine foldl_preserves (P := wbInv) ?_ ids _ ?_
  · intro a b ha
    exact wbInv_of_keys_eq (d := a) rfl ha
  · by_cases hadd : add = true
    · simpa [hadd] using h
    · simp only [Bool.not_eq_true] at hadd
      simpa [hadd] using wbInv_clearSelection d h

theorem wbInv_selectElement (d : Diagram) (id : String) (add : Bool)
    (h : wbInv d) : wbInv (d.selectElement id add) := by
  rw [Diagram.selectElement]
  have h0 : wbInv (if add = true then d else d.clearSelection) := by
    by_cases hadd : add = true
    · simpa [hadd] using h
    · simp only [Bool.not_eq_true] at hadd
      simpa [hadd] using wbInv_clearSelection d h
  exact wbInv_of_keys_eq (by rw [JMap.keys_update]) h0

theorem wbInv_addWhiteboard (d : Diagram) (w : WhiteboardE) (h : wbInv d) :
    wbInv (d.addWhiteboard w) := by
  constructor
  · calc 1 ≤ d.whiteboards.keys.length := h.1
      _ = d.whiteboards.length := by simp [JMap.keys]
      _ ≤ (d.whiteboards.set w.id w).length := JMap.length_le_set _ _ _
      _ = (d.addWhiteboard w).whiteboards.keys.length := by simp [JMap.keys]; rfl
  · exact JMap.nodup_keys_set _ _ _ h.2

theorem wbInv_removeWhiteboard (d : Diagram) (id : String) (h : wbInv d) :
    wbInv (d.removeWhiteboard id) := by
  rw [Diagram.removeWhiteboard]
  by_cases hle : d.whiteboards.length ≤ 1
  · simpa [hle] using h
  · simp only [hle, if_false]
    constructor
    · have hdel := JMap.length_del d.whiteboards id h.2
      have hlen : (d.whiteboards.del id).keys.length = (d.whiteboards.del id).length := by
        simp [JMap.keys]
      rw [show (Diagram.mk d.nodes d.arrows d.textLabels (d.whiteboards.del id)
          (d.selectedElementIds.del id)).whiteboards = d.whiteboards.del id
          from rfl, hlen]
      omega
    · exact JMap.nodup_keys_del _ _ h.2

theorem wbInv_deleteSelected (d : Diagram) (h : wbInv d) :
    wbInv d.deleteSelected := by
  rw [Diagram.deleteSelected]
  have hfold : wbInv (d.selectedElementIds.foldl (fun acc id =>
      if acc.nodes.hasKey id then acc.removeNode id
      else if acc.arrows.hasKey id then acc.removeArrow id
      else if acc.textLabels.hasKey id then acc.removeTextLabel id
      else if acc.whiteboards.hasKey id then acc.removeWhiteboard id
      else acc) d) := by
    refine foldl_preserves (P := wbInv) ?_ _ _ h
    intro acc id hacc
    by_cases h1 : acc.nodes.hasKey id = true
    · simpa [h1] using wbInv_of_keys_eq (d := acc) rfl hacc
    · simp only [Bool.not_eq_true] at h1
      by_cases h2 : acc.arrows.hasKey id = true
      · simpa [h1, h2] using wbInv_of_keys_eq (d := acc) rfl hacc
      · simp only [Bool.not_eq_true] at h2
        by_cases h3 : acc.textLabels.hasKey id = true
        · simpa [h1, h2, h3] using wbInv_of_keys_eq (d := acc) rfl hacc
        · simp only [Bool.not_eq_true] at h3
          by_cases h4 : acc.whiteboards.hasKey id = true
          · simpa [h1, h2, h3, h4] using wbInv_removeWhiteboard acc id hacc
          · simp only [Bool.not_eq_true] at h4
            simpa [h1, h2, h3, h4] using hacc
  exact wbInv_of_keys_eq (d := _) rfl hfold

theorem wbInv_dupNodes (d : Diagram) (cn : ℕ) (ids : List String) :
    (Diagram.dupNodes d cn ids).1.whiteboards = d.whiteboards := by
  rw [Diagram.dupNodes]
  refine foldl_preserves
    (P := fun (st : Diagram × ℕ × List (String × String) × List String) =>
      st.1.whiteboards = d.whiteboards) ?_ ids _ rfl
  rintro ⟨acc, c, m, out⟩ id ha
  dsimp only
  cases hget : acc.nodes.get? id with
  | none => exact ha
  | some n => exact ha

theorem wbInv_dupLabels (d : Diagram) (ct : ℕ) (ids : List String) :
    (Diagram.dupLabels d ct ids).1.whiteboards = d.whiteboards := by
  rw [Diagram.dupLabels]
  refine foldl_preserves
    (P := fun (st : Diagram × ℕ × List String) =>
      st.1.whiteboards = d.whiteboards) ?_ ids _ rfl
  rintro ⟨acc, c, out⟩ id ha
  dsimp only
  cases hget : acc.textLabels.get? id with
  | none => exact ha
  | some l => exact ha

theorem wbInv_dupArrows (d : Diagram) (ca : ℕ) (m : List (String × String))
    (ids : List String) :
    (Diagram.dupArrows d ca m ids).1.whiteboards = d.whiteboards := by
  rw [Diagram.dupArrows]
  refine foldl_preserves
    (P := fun (st : Diagram × ℕ × List String) =>
      st.1.whiteboards = d.whiteboards) ?_ ids _ rfl
  rintro ⟨acc, c, out⟩ id ha
  dsimp only
  cases hget : acc.arrows.get? id with
  | none => exact ha
  | some a =>
    dsimp only
    cases hf : Option.map (fun x => x.2)
        (List.find? (fun kv => decide (kv.1 = a.fromId)) m) with
    | none => exact ha
    | some nf =>
      cases ht : Option.map (fun x => x.2)
          (List.find? (fun kv => decide (kv.1 = a.toId)) m) with
      | none => exact ha
      | some nt => exact ha

theorem wbInv_duplicateSelected (d : Diagram) (c : Counters) (h : wbInv d) :
    wbInv (d.duplicateSelected c).1 := by
  rw [Diagram.duplicateSelected]
  have h1 := wbInv_dupNodes d c.node d.selectedElementIds
  rcases hdn : Diagram.dupNodes d c.node d.selectedElementIds with ⟨d1, cn, m, idsN⟩
  rw [hdn] at h1
  dsimp only
  have h2 := wbInv_dupLabels d1 c.text d.selectedElementIds
  rcases hdl : Diagram.dupLabels d1 c.text d.selectedElementIds with ⟨d2, ct, idsT⟩
  rw [hdl] at h2
  dsimp only
  have h3 := wbInv_dupArrows d2 c.arrow m d.selectedElementIds
  rcases hda : Diagram.dupArrows d2 c.arrow m d.selectedElementIds with ⟨d3, ca, idsA⟩
  rw [hda] at h3
  dsimp only
  have hd3 : wbInv d3 := by
    apply wbInv_of_keys_eq (d := d) _ h
    rw [show d3.whiteboards = d.whiteboards from by rw [h3, h2, h1]]
  exact wbInv_selectElements _ _ _ (wbInv_clearSelection d3 hd3)

theorem wbInv_duplicateWhiteboard (d : Diagram) (c : Counters) (id : String)
    (h : wbInv d) : wbInv (d.duplicateWhiteboard c id).1 := by
  rw [Diagram.duplicateWhiteboard]
  cases hget : d.whiteboards.get? id with
  | none => exact h
  | some w =>
    dsimp only
    have hu : 1 ≤ (d.whiteboards.update id (·.setSelected false)).keys.length ∧
        (d.whiteboards.update id (·.setSelected false)).keys.Nodup := by
      rw [JMap.keys_update]
      exact h
    exact JMap.oneNodup_set _ _ _ hu

theorem wbInv_applyOp (op : Op) (s : Diagram × Counters)
    (hop : op ≠ Op.clearAllWhiteboards) (h : wbInv s.1) :
    wbInv (applyOp op s).1 := by
  cases op with
  | addNode n => exact wbInv_of_keys_eq (d := s.1) rfl h
  | removeNode id => exact wbInv_of_keys_eq (d := s.1) rfl h
  | addArrow a => exact wbInv_of_keys_eq (d := s.1) rfl h
  | removeArrow id => exact wbInv_of_keys_eq (d := s.1) rfl h
  | addTextLabel l => exact wbInv_of_keys_eq (d := s.1) rfl h
  | removeTextLabel id => exact wbInv_of_keys_eq (d := s.1) rfl h
  | addWhiteboard w => exact wbInv_addWhiteboard s.1 w h
  | removeWhiteboard id => exact wbInv_removeWhiteboard s.1 id h
  | clearAllWhiteboards => exact absurd rfl hop
  | selectElement id add => exact wbInv_selectElement s.1 id add h
  | selectElements ids add => exact wbInv_selectElements s.1 ids add h
  | deselectElement id =>
    exact wbInv_of_keys_eq
      (show (applyOp (Op.deselectElement id) s).1.whiteboards.keys =
          s.1.whiteboards.keys from JMap.keys_update _ _ _) h
  | clearSelection => exact wbInv_clearSelection s.1 h
  | selectAll =>
    exact wbInv_of_keys_eq (d := s.1.clearSelection) rfl (wbInv_clearSelection s.1 h)
  | deleteSelected => exact wbInv_deleteSelected s.1 h
  | duplicateSelected =>
    rw [applyOp]
    rcases hds : s.1.duplicateSelected s.2 with ⟨d1, c1, ids1⟩
    have := wbInv_duplicateSelected s.1 s.2 h
    rw [hds] at this
    exact this
  | duplicateWhiteboard id =>
    rw [applyOp]
    rcases hds : s.1.duplicateWhiteboard s.2 id with ⟨d1, c1, o⟩
    have := wbInv_duplicateWhiteboard s.1 s.2 id h
    rw [hds] at this
    exact this
  | clear =>
    rw [applyOp, Diagram.clear]
    constructor
    · simp [JMap.keys]
    · simp [JMap.keys]

theorem wbInv_applyOps (ops : List Op) (s : Diagram × Counters)
    (hops : ∀ op ∈ ops, op ≠ Op.clearAllWhiteboards) (h : wbInv s.1) :
    wbInv (applyOps ops s).1 := by
  induction ops generalizing s with
  | nil => exact h
  | cons op ops ih =>
    rw [applyOps, List.foldl_cons]
    exact ih (applyOp op s)
      (fun o ho => hops o (List.mem_cons_of_mem _ ho))
      (wbInv_applyOp op s (hops op (List.mem_cons_self _ _)) h)


/-- C1 as stated is false on the code: Diagram.addArrow performs no
endpoint check, so a single addArrow of an arrow whose endpoints were
never added yields a Scene with a stale arrow. -/
theorem C1_counterexample :
    integrityB (applyOps [Op.addArrow staleArrow] (dInit, cAfter)).1 = false ∧
      staleArrow ∈ JMap.values (applyOps [Op.addArrow staleArrow] (dInit, cAfter)).1.arrows := by
  constructor
  · decide
  · decide

/-- C1 amended: every Scene operation preserves arrow-node referential
integrity, provided addArrow is only invoked with arrows whose two
endpoint ids are present (addArrow itself checks nothing — see the
counterexample); and removeNode(id) deletes the node, deletes exactly
the arrows whose fromNode or toNode id equals id, drops id from the
selection set, and leaves every other node and selection entry
untouched. -/
theorem C1_integrity_and_removeNode :
    (∀ (s : Diagram × Counters) (ops : List Op),
      integrityB s.1 = true → traceGuardedB ops s = true →
      integrityB (applyOps ops s).1 = true) ∧
    (∀ (d : Diagram) (i : String),
      (d.removeNode i).nodes.get? i = none ∧
      (∀ j, j ≠ i → (d.removeNode i).nodes.get? j = d.nodes.get? j) ∧
      (∀ a, a ∈ JMap.values (d.removeNode i).arrows ↔
        (a ∈ JMap.values d.arrows ∧ a.fromId ≠ i ∧ a.toId ≠ i)) ∧
      i ∉ (d.removeNode i).selectedElementIds ∧
      (∀ j, j ≠ i →
        (j ∈ (d.removeNode i).selectedElementIds ↔ j ∈ d.selectedElementIds))) := by
  constructor
  · exact fun s ops h hg => integrity_applyOps ops s hg h
  · intro d i
    refine ⟨?_, ?_, ?_, ?_, ?_⟩
    · exact JMap.get?_del_self d.nodes i
    · exact fun j hj => JMap.get?_del_ne d.nodes i j hj
    · intro a
      rw [Diagram.removeNode]
      simp only
      rw [JMap.mem_values_filter_val d.arrows
        (fun b => decide ¬(b.fromId = i ∨ b.toId = i)) a]
      simp [not_or]
    · intro hc
      rw [Diagram.removeNode] at hc
      simp only at hc
      rw [JSet.mem_del] at hc
      exact hc.2 rfl
    · intro j hj
      rw [Diagram.removeNode]
      simp only
      rw [JSet.mem_del]
      exact ⟨fun h => h.1, fun h => ⟨h, hj⟩⟩

/-- Witness for C1: on the concrete two-node scene, selecting node A
and removing it is a guarded trace that keeps integrity, and removing
node A deletes arrow X while keeping node B. -/
theorem C1_witness :
    integrityB (applyOps [Op.selectElement nA.id false, Op.removeNode nA.id]
      (dAB, cAB)).1 = true ∧
    (dAB.removeNode nA.id).nodes.get? nB.id = dAB.nodes.get? nB.id ∧
    ¬(arAB ∈ JMap.values (dAB.removeNode nA.id).arrows) := by
  refine ⟨C1_integrity_and_removeNode.1 (dAB, cAB) _ (by decide) (by decide),
    (C1_integrity_and_removeNode.2 dAB nA.id).2.1 nB.id (by decide), ?_⟩
  intro hc
  have := ((C1_integrity_and_removeNode.2 dAB nA.id).2.2.1 arAB).mp hc
  exact absurd rfl this.2.1

/-- C3 as stated is false on the code: clearAllWhiteboards is a public
Scene operation that empties the whiteboard collection (it exists
precisely to bypass the last-whiteboard protection when loading). -/
theorem C3_counterexample :
    (applyOps [Op.clearAllWhiteboards] (dInit, cAfter)).1.getAllWhiteboards.length
      = 0 := by decide

/-- C3 amended: getAllWhiteboards().length >= 1 holds after every
sequence of Scene operations that does not include clearAllWhiteboards
(the internal loading bypass), starting from any scene with at least
one whiteboard and duplicate-free whiteboard keys; removeWhiteboard is
a warning-logging no-op when at most one whiteboard remains, and
otherwise touches only the whiteboard collection and the selection —
nodes, arrows and text labels are untouched. -/
theorem C3_last_whiteboard :
    (∀ (s : Diagram × Counters) (ops : List Op),
      wbInv s.1 → (∀ op ∈ ops, op ≠ Op.clearAllWhiteboards) →
      1 ≤ (applyOps ops s).1.getAllWhiteboards.length) ∧
    (∀ (d : Diagram) (i : String),
      (d.whiteboards.length ≤ 1 → d.removeWhiteboard i = d) ∧
      (d.removeWhiteboard i).nodes = d.nodes ∧
      (d.removeWhiteboard i).textLabels = d.textLabels ∧
      (d.removeWhiteboard i).arrows = d.arrows) := by
  constructor
  · intro s ops h hops
    have := (wbInv_applyOps ops s hops h).1
    calc 1 ≤ (applyOps ops s).1.whiteboards.keys.length := this
      _ = (applyOps ops s).1.getAllWhiteboards.length := by
          simp [JMap.keys, Diagram.getAllWhiteboards, JMap.values]
  · intro d i
    refine ⟨?_, ?_, ?_, ?_⟩
    · intro hle
      rw [Diagram.removeWhiteboard, if_pos hle]
    all_goals
      rw [Diagram.removeWhiteboard]
      by_cases hle : d.whiteboards.length ≤ 1
    · rw [if_pos hle]
    · rw [if_neg hle]
    · rw [if_pos hle]
    · rw [if_neg hle]
    · rw [if_pos hle]
    · rw [if_neg hle]

/-- Witness for C3: deleting whiteboards twice from the fresh one-board
scene keeps at least one whiteboard, and removeWhiteboard on the fresh
scene is a no-op. -/
theorem C3_witness :
    1 ≤ (applyOps [Op.removeWhiteboard "whiteboard-0",
        Op.removeWhiteboard "whiteboard-0"] (dInit, cAfter)).1.getAllWhiteboards.length ∧
    dInit.removeWhiteboard "whiteboard-0" = dInit := by
  refine ⟨C3_last_whiteboard.1 (dInit, cAfter) _ ⟨by decide, by decide⟩ ?_, ?_⟩
  · intro op hop
    simp only [List.mem_cons, List.not_mem_nil, or_false] at hop
    rcases hop with rfl | rfl <;> decide
  · exact (C3_last_whiteboard.2 dInit "whiteboard-0").1 (by decide)


theorem get?_forall {α : Type} {m : JMap α} (P : String → α → Prop)
    (hP : ∀ kv ∈ m, P kv.1 kv.2) :
    ∀ {k : String} {v : α}, m.get? k = some v → P k v := by
  induction m with
  | nil => intro k v h; simp [JMap.get?] at h
  | cons kv m ih =>
    intro k v h
    rw [JMap.get?_cons] at h
    by_cases hk : kv.1 = k
    · rw [if_pos hk, Option.some.injEq] at h
      exact hk ▸ h ▸ hP kv (List.mem_cons_self _ _)
    · rw [if_neg hk] at h
      exact ih (fun x hx => hP x (List.mem_cons_of_mem _ hx)) h

theorem arrows_sub_clearSelection (d : Diagram) :
    ∀ a ∈ JMap.values d.clearSelection.arrows,
      ∃ b ∈ JMap.values d.arrows, a.fromId = b.fromId ∧ a.toId = b.toId := by
  rw [Diagram.clearSelection]
  have hfold : ∀ a ∈ JMap.values (d.selectedElementIds.foldl (fun acc id =>
      { acc with
        nodes := acc.nodes.update id (·.setSelected false)
        arrows := acc.arrows.update id (·.setSelected false)
        textLabels := acc.textLabels.update id (·.setSelected false)
        whiteboards := acc.whiteboards.update id (·.setSelected false) }) d).arrows,
      ∃ b ∈ JMap.values d.arrows, a.fromId = b.fromId ∧ a.toId = b.toId := by
    refine foldl_preserves
      (P := fun (x : Diagram) => ∀ a ∈ JMap.values x.arrows,
        ∃ b ∈ JMap.values d.arrows, a.fromId = b.fromId ∧ a.toId = b.toId)
      ?_ _ _ (fun a ha => ⟨a, ha, rfl, rfl⟩)
    intro acc id hacc a ha
    rcases JMap.mem_values_update _ _ _ a ha with h2 | ⟨c, hc, rfl⟩
    · exact hacc a h2
    · exact hacc c hc
  exact hfold

theorem arrows_sub_selectElements (d : Diagram) (ids : List String) (add : Bool) :
    ∀ a ∈ JMap.values (d.selectElements ids add).arrows,
      ∃ b ∈ JMap.values d.arrows, a.fromId = b.fromId ∧ a.toId = b.toId := by
  rw [Diagram.selectElements]
  have h0 : ∀ a ∈ JMap.values (if add = true then d else d.clearSelection).arrows,
      ∃ b ∈ JMap.values d.arrows, a.fromId = b.fromId ∧ a.toId = b.toId := by
    by_cases hadd : add = true
    · simp only [hadd, if_true]
      exact fun a ha => ⟨a, ha, rfl, rfl⟩
    · simp only [Bool.not_eq_true] at hadd
      simp only [hadd, Bool.false_eq_true, if_false]
      exact arrows_sub_clearSelection d
  exact foldl_preserves
    (P := fun (x : Diagram) => ∀ a ∈ JMap.values x.arrows,
      ∃ b ∈ JMap.values d.arrows, a.fromId = b.fromId ∧ a.toId = b.toId)
    (fun acc id hacc a ha => by
      rw [Diagram.selectOneNoWb] at ha
      rcases JMap.mem_values_update _ _ _ a ha with h2 | ⟨c, hc, rfl⟩
      · exact hacc a h2
      · exact hacc c hc)
    ids _ h0

theorem arrows_sub_selectElement (d : Diagram) (id : String) (add : Bool) :
    ∀ a ∈ JMap.values (d.selectElement id add).arrows,
      ∃ b ∈ JMap.values d.arrows, a.fromId = b.fromId ∧ a.toId = b.toId := by
  rw [Diagram.selectElement]
  intro a ha
  have h0 : ∀ a ∈ JMap.values (if add = true then d else d.clearSelection).arrows,
      ∃ b ∈ JMap.values d.arrows, a.fromId = b.fromId ∧ a.toId = b.toId := by
    by_cases hadd : add = true
    · simp only [hadd, if_true]
      exact fun a ha => ⟨a, ha, rfl, rfl⟩
    · simp only [Bool.not_eq_true] at hadd
      simp only [hadd, Bool.false_eq_true, if_false]
      exact arrows_sub_clearSelection d
  rcases JMap.mem_values_update _ _ _ a ha with h2 | ⟨c, hc, rfl⟩
  · exact h0 a h2
  · exact h0 c hc

theorem mouseUpTail_arrows (s : IM) :
    (IM.mouseUpTail s).diagram.arrows = s.diagram.arrows := by
  rw [IM.mouseUpTail]
  by_cases h1 : s.mode = IMode.laserActive <;>
    simp only [h1, if_true, if_false, reduceIte] <;>
    cases h2 : s.draggedElementId <;>
    dsimp only <;>
    split <;>
    split <;>
    rfl

theorem arrows_sub_epilogue (s : IM) :
    ∀ a ∈ JMap.values (IM.mouseUpEpilogue s).diagram.arrows,
      ∃ b ∈ JMap.values s.diagram.arrows, a.fromId = b.fromId ∧ a.toId = b.toId := by
  rw [IM.mouseUpEpilogue, mouseUpTail_arrows, IM.boxFinalizePhase]
  by_cases h1 : s.mode = IMode.boxSelecting
  · simp only [h1, if_true, reduceIte]
    cases h2 : s.selectionBox with
    | none => exact fun a ha => ⟨a, ha, rfl, rfl⟩
    | some box =>
      dsimp only
      by_cases h3 : box.isSignificant = true
      · simp only [h3, if_true, reduceIte]
        exact arrows_sub_selectElements s.diagram _ false
      · simp only [Bool.not_eq_true] at h3
        simp only [h3, Bool.false_eq_true, if_false]
        exact fun a ha => ⟨a, ha, rfl, rfl⟩
  · simp only [h1, if_false, reduceIte]
    exact fun a ha => ⟨a, ha, rfl, rfl⟩


/-- C8 as stated is false on the code: the Scene has no self-loop
precondition check anywhere — Diagram.addArrow stores a self-referential
arrow as-is (and the Arrow constructor accepts fromNode = toNode). -/
theorem C8_counterexample :
    ((applyOps [Op.addArrow selfLoopArrow]
      (dInit.addNode nA, cAB)).1.arrows.values.any
        (fun a => a.fromId = a.toId)) = true := by decide

/-- C8 amended: the Scene itself performs no self-loop check (see the
counterexample); self-loop prevention lives in the controller: the
arrow-completion branch of handleMouseUp creates an arrow only towards
a node with a different id than the pending source (or towards the
freshly minted node), so if no arrow of the scene is a self-loop before
a pointer release, none is after — under the well-formedness facts the
running app maintains (node-map entries keyed by their node id, and the
pending source never carrying the id the node counter would mint
next). -/
theorem C8_no_self_loop_controller (s : IM) (p : Pt)
    (hkeyed : ∀ kv ∈ s.diagram.nodes, kv.1 = kv.2.id)
    (hfresh : ∀ st, s.arrowStartNode = some st → st.id ≠ nodeIdStr s.ctr.node)
    (hold : ∀ a ∈ JMap.values s.diagram.arrows, a.fromId ≠ a.toId) :
    ∀ a ∈ JMap.values (IM.handleMouseUp s p).diagram.arrows,
      a.fromId ≠ a.toId := by
  rw [IM.handleMouseUp]
  dsimp only
  have hsub : ∀ (t : IM), (∀ a ∈ JMap.values t.diagram.arrows, a.fromId ≠ a.toId) →
      ∀ a ∈ JMap.values (IM.mouseUpEpilogue t).diagram.arrows, a.fromId ≠ a.toId := by
    intro t ht a ha
    obtain ⟨b, hb, h1, h2⟩ := arrows_sub_epilogue t a ha
    rw [h1, h2]
    exact ht b hb
  cases hmode : s.mode <;> try exact hsub _ hold
  cases harr : s.arrowStartNode with
  | none => exact hsub _ hold
  | some start =>
    dsimp only
    have hstart := hfresh start harr
    cases hfind : s.diagram.findElementAtPoint p with
    | some el =>
      dsimp only
      by_cases hel : el.type = ElemType.node ∧ el.id ≠ start.id
      · rw [if_pos hel]
        cases hget : s.diagram.getNode el.id with
        | none => exact hsub _ hold
        | some endNode =>
          dsimp only
          apply hsub
          intro a ha
          rcases JMap.mem_values_set _ _ _ a ha with h2 | rfl
          · exact hold a h2
          · have hid : endNode.id = el.id :=
              (get?_forall (fun k v => k = v.id) hkeyed hget).symm
            simp only [mkArrow]
            rw [hid]
            exact fun hc => hel.2 hc.symm
      · rw [if_neg hel]
        exact hsub _ hold
    | none =>
      dsimp only
      by_cases hdist : sqrtGeB (Pt.dist2 start.position p) (start.radius + 80) = true
      · rw [if_pos hdist]
        intro a ha
        rcases JMap.mem_values_set _ _ _ a ha with h2 | rfl
        · obtain ⟨b, hb, h1, h2⟩ :=
            arrows_sub_selectElement (s.diagram.addNode
              (mkNode s.ctr.node p "New Node" none)) _ false a h2
          rw [h1, h2]
          exact hold b hb
        · simpa [mkArrow, mkNode] using fun hc => hstart hc
      · rw [if_neg hdist]
        exact hsub _ hold

/-- Witness for C8: on the concrete two-node scene with a pending arrow
source, releasing the pointer on the other node leaves the scene free
of self-loop arrows. -/
theorem C8_witness :
    (∀ kv ∈ sC8.diagram.nodes, kv.1 = kv.2.id) ∧
    (∀ a ∈ JMap.values sC8.diagram.arrows, a.fromId ≠ a.toId) ∧
    ∀ a ∈ JMap.values (IM.handleMouseUp sC8 ⟨200, 0⟩).diagram.arrows,
      a.fromId ≠ a.toId := by
  refine ⟨by decide, by decide, ?_⟩
  refine C8_no_self_loop_controller _ _ (by decide) ?_ (by decide)
  intro st hst
  have h2 : nA = st := by
    have h3 := hst
    rw [show sC8.arrowStartNode = some nA from rfl] at h3
    exact Option.some.inj h3
  subst h2
  decide


theorem setTool_fields (s : IM) (t : Tool) :
    (s.setTool t).currentTool = t ∧ (s.setTool t).mode = IMode.idle ∧
      (s.setTool t).diagram = s.diagram := by
  rw [IM.setTool]
  by_cases h : s.currentTool = Tool.laser ∧ t ≠ Tool.laser
  · simp [h]
  · simp [h]

theorem escape_cancel (s : IM)
    (h : s.mode = IMode.creatingArrow ∨ s.mode = IMode.editingText ∨
      s.mode = IMode.boxSelecting) :
    (IM.handleKeyDown s IM.Key.escape).mode = IMode.idle ∧
    (IM.handleKeyDown s IM.Key.escape).diagram = s.diagram ∧
    (IM.handleKeyDown s IM.Key.escape).currentTool = s.currentTool := by
  rcases h with h | h | h <;>
    simp [IM.handleKeyDown, h]

theorem escape_clear (s : IM) (h : s.mode = IMode.idle)
    (hsel : s.diagram.selectedElementIds ≠ []) :
    IM.handleKeyDown s IM.Key.escape = { s with diagram := s.diagram.clearSelection } := by
  have hlen : s.diagram.getSelectedIds.length > 0 := by
    rw [Diagram.getSelectedIds]
    exact List.length_pos.mpr hsel
  simp [IM.handleKeyDown, h, hlen]

theorem escape_switch (s : IM) (h : s.mode = IMode.idle)
    (hsel : s.diagram.selectedElementIds = []) (ht : s.currentTool ≠ Tool.select) :
    IM.handleKeyDown s IM.Key.escape = s.setTool Tool.select := by
  have hlen : ¬(s.diagram.getSelectedIds.length > 0) := by
    rw [Diagram.getSelectedIds, hsel]
    simp
  simp [IM.handleKeyDown, IM.onToolChange, h, hlen, ht]

theorem escape_fixed (s : IM) (h : s.mode = IMode.idle)
    (hsel : s.diagram.selectedElementIds = []) (ht : s.currentTool = Tool.select) :
    IM.handleKeyDown s IM.Key.escape = s := by
  have hlen : ¬(s.diagram.getSelectedIds.length > 0) := by
    rw [Diagram.getSelectedIds, hsel]
    simp
  simp [IM.handleKeyDown, h, hlen, ht]

theorem escape_from_idle (s : IM) (h : s.mode = IMode.idle) :
    (IM.handleKeyDown (IM.handleKeyDown s IM.Key.escape) IM.Key.escape).currentTool
        = Tool.select ∧
    (IM.handleKeyDown (IM.handleKeyDown s IM.Key.escape)
        IM.Key.escape).diagram.selectedElementIds = [] ∧
    (IM.handleKeyDown (IM.handleKeyDown s IM.Key.escape) IM.Key.escape).mode
        = IMode.idle := by
  by_cases hsel : s.diagram.selectedElementIds = []
  · by_cases ht : s.currentTool = Tool.select
    · rw [escape_fixed s h hsel ht, escape_fixed s h hsel ht]
      exact ⟨ht, hsel, h⟩
    · rw [escape_switch s h hsel ht]
      obtain ⟨f1, f2, f3⟩ := setTool_fields s Tool.select
      rw [escape_fixed _ f2 (by rw [f3]; exact hsel) f1]
      exact ⟨f1, by rw [f3]; exact hsel, f2⟩
  · rw [escape_clear s h hsel]
    have h1 : ({ s with diagram := s.diagram.clearSelection } : IM).mode
        = IMode.idle := h
    have h1sel : ({ s with diagram := s.diagram.clearSelection } :
        IM).diagram.selectedElementIds = [] := rfl
    by_cases ht : s.currentTool = Tool.select
    · rw [escape_fixed _ h1 h1sel ht]
      exact ⟨ht, h1sel, h1⟩
    · rw [escape_switch _ h1 h1sel ht]
      obtain ⟨f1, f2, f3⟩ := setTool_fields
        ({ s with diagram := s.diagram.clearSelection } : IM) Tool.select
      exact ⟨f1, by rw [f3]; exact h1sel, f2⟩

theorem escape_gesture_clear (s : IM)
    (h : s.mode = IMode.dragging ∨ s.mode = IMode.panning ∨
      s.mode = IMode.resizingWhiteboard ∨ s.mode = IMode.laserActive)
    (hsel : s.diagram.selectedElementIds ≠ []) :
    IM.handleKeyDown s IM.Key.escape =
      { s with diagram := s.diagram.clearSelection } := by
  have hlen : s.diagram.getSelectedIds.length > 0 := by
    rw [Diagram.getSelectedIds]
    exact List.length_pos.mpr hsel
  rcases h with h | h | h | h <;> simp [IM.handleKeyDown, h, hlen]

theorem escape_gesture_switch (s : IM)
    (h : s.mode = IMode.dragging ∨ s.mode = IMode.panning ∨
      s.mode = IMode.resizingWhiteboard ∨ s.mode = IMode.laserActive)
    (hsel : s.diagram.selectedElementIds = []) (ht : s.currentTool ≠ Tool.select) :
    IM.handleKeyDown s IM.Key.escape = s.setTool Tool.select := by
  have hlen : ¬(s.diagram.getSelectedIds.length > 0) := by
    rw [Diagram.getSelectedIds, hsel]
    simp
  rcases h with h | h | h | h <;>
    simp [IM.handleKeyDown, IM.onToolChange, h, hlen, ht]

theorem escape_gesture_fixed (s : IM)
    (h : s.mode = IMode.dragging ∨ s.mode = IMode.panning ∨
      s.mode = IMode.resizingWhiteboard ∨ s.mode = IMode.laserActive)
    (hsel : s.diagram.selectedElementIds = []) (ht : s.currentTool = Tool.select) :
    IM.handleKeyDown s IM.Key.escape = s := by
  have hlen : ¬(s.diagram.getSelectedIds.length > 0) := by
    rw [Diagram.getSelectedIds, hsel]
    simp
  rcases h with h | h | h | h <;> simp [IM.handleKeyDown, h, hlen, ht]

theorem escIter_succ (s : IM) (n : Nat) :
    IM.escIter s (n + 1) = IM.escIter (IM.handleKeyDown s IM.Key.escape) n := rfl

theorem escape_gesture_stuck (s : IM)
    (h : s.mode = IMode.dragging ∨ s.mode = IMode.panning ∨
      s.mode = IMode.resizingWhiteboard ∨ s.mode = IMode.laserActive)
    (ht : s.currentTool = Tool.select) :
    ∀ n, (IM.escIter s n).mode = s.mode ∧
      (IM.escIter s n).currentTool = Tool.select := by
  intro n
  induction n generalizing s with
  | zero => exact ⟨rfl, ht⟩
  | succ n ih =>
    rw [escIter_succ]
    by_cases hsel : s.diagram.selectedElementIds = []
    · rw [escape_gesture_fixed s h hsel ht]
      exact ih s h ht
    · have he := escape_gesture_clear s h hsel
      have hmode : (IM.handleKeyDown s IM.Key.escape).mode = s.mode := by
        rw [he]
      have htool : (IM.handleKeyDown s IM.Key.escape).currentTool
          = Tool.select := by
        rw [he]
        exact ht
      have htrans : (IM.handleKeyDown s IM.Key.escape).mode = IMode.dragging ∨
          (IM.handleKeyDown s IM.Key.escape).mode = IMode.panning ∨
          (IM.handleKeyDown s IM.Key.escape).mode = IMode.resizingWhiteboard ∨
          (IM.handleKeyDown s IM.Key.escape).mode = IMode.laserActive := by
        rw [hmode]
        exact h
      obtain ⟨m1, t1⟩ := ih (IM.handleKeyDown s IM.Key.escape) htrans htool
      exact ⟨m1.trans hmode, t1⟩

/-- C5 as stated is false on the code: in the Dragging mode (likewise
Panning, ResizingWhiteboard and LaserActive) with the Select tool
active and nothing selected, every Escape level falls through — the
three cancel tests fail, the selection is empty and the tool is
already Select — so Escape is the identity there and the mode never
reaches Idle; here three presses leave the state in Dragging. -/
theorem C5_counterexample :
    (IM.handleKeyDown (IM.handleKeyDown (IM.handleKeyDown
      { IM.new dAB cAB with mode := IMode.dragging } IM.Key.escape) IM.Key.escape)
        IM.Key.escape).mode ≠ IMode.idle := by decide

/-- C5 amended: from every state whose interaction mode is Idle,
CreatingArrow, EditingText, or BoxSelecting, at most 3 Escape presses
yield the Select tool, an empty selection, and the Idle mode, each
press applying exactly one cascade level: cancel an in-progress
operation, else clear a non-empty selection, else switch a non-Select
tool to Select.  In the pointer-gesture modes Dragging, Panning,
ResizingWhiteboard and LaserActive no cascade level touches the mode
directly, but the tool-switch level runs through the tool-change
callback, i.e. setTool, which resets the mode to Idle as a side
effect: with a non-Select tool at most 2 presses reach the Select
tool, an empty selection and Idle, whereas with the Select tool active
no number of presses ever changes the mode (see the counterexample). -/
theorem C5_escape_convergence (s : IM) :
    ((s.mode = IMode.idle ∨ s.mode = IMode.creatingArrow ∨
        s.mode = IMode.editingText ∨ s.mode = IMode.boxSelecting) →
      ((IM.handleKeyDown (IM.handleKeyDown (IM.handleKeyDown s IM.Key.escape)
          IM.Key.escape) IM.Key.escape).currentTool = Tool.select ∧
       (IM.handleKeyDown (IM.handleKeyDown (IM.handleKeyDown s IM.Key.escape)
          IM.Key.escape) IM.Key.escape).diagram.selectedElementIds = [] ∧
       (IM.handleKeyDown (IM.handleKeyDown (IM.handleKeyDown s IM.Key.escape)
          IM.Key.escape) IM.Key.escape).mode = IMode.idle) ∧
      (s.mode ≠ IMode.idle →
        (IM.handleKeyDown s IM.Key.escape).mode = IMode.idle ∧
        (IM.handleKeyDown s IM.Key.escape).diagram = s.diagram ∧
        (IM.handleKeyDown s IM.Key.escape).currentTool = s.currentTool)) ∧
    (s.mode = IMode.idle → s.diagram.selectedElementIds ≠ [] →
      IM.handleKeyDown s IM.Key.escape =
        { s with diagram := s.diagram.clearSelection }) ∧
    (s.mode = IMode.idle → s.diagram.selectedElementIds = [] →
      s.currentTool ≠ Tool.select →
      IM.handleKeyDown s IM.Key.escape = s.setTool Tool.select) ∧
    ((s.mode = IMode.dragging ∨ s.mode = IMode.panning ∨
        s.mode = IMode.resizingWhiteboard ∨ s.mode = IMode.laserActive) →
      s.currentTool ≠ Tool.select →
      (IM.handleKeyDown (IM.handleKeyDown s IM.Key.escape)
          IM.Key.escape).currentTool = Tool.select ∧
      (IM.handleKeyDown (IM.handleKeyDown s IM.Key.escape)
          IM.Key.escape).diagram.selectedElementIds = [] ∧
      (IM.handleKeyDown (IM.handleKeyDown s IM.Key.escape)
          IM.Key.escape).mode = IMode.idle) ∧
    ((s.mode = IMode.dragging ∨ s.mode = IMode.panning ∨
        s.mode = IMode.resizingWhiteboard ∨ s.mode = IMode.laserActive) →
      s.currentTool = Tool.select →
      ∀ n, (IM.escIter s n).mode = s.mode ∧
        (IM.escIter s n).currentTool = Tool.select) := by
  refine ⟨fun h => ⟨?_, ?_⟩, escape_clear s, escape_switch s, ?_,
    escape_gesture_stuck s⟩
  · rcases h with h | h | h | h
    · by_cases hsel : s.diagram.selectedElementIds = []
      · by_cases ht : s.currentTool = Tool.select
        · rw [escape_fixed s h hsel ht]
          exact escape_from_idle s h
        · rw [escape_switch s h hsel ht]
          obtain ⟨f1, f2, f3⟩ := setTool_fields s Tool.select
          exact escape_from_idle _ f2
      · rw [escape_clear s h hsel]
        exact escape_from_idle _ h
    all_goals
      obtain ⟨e1, e2, e3⟩ := escape_cancel s (by simp [h])
      have := escape_from_idle (IM.handleKeyDown s IM.Key.escape) e1
      exact this
  · intro hne
    exact escape_cancel s (by rcases h with h | h | h | h <;> simp [h] at hne ⊢)
  · intro h ht
    by_cases hsel : s.diagram.selectedElementIds = []
    · rw [escape_gesture_switch s h hsel ht]
      obtain ⟨f1, f2, f3⟩ := setTool_fields s Tool.select
      rw [escape_fixed _ f2 (by rw [f3]; exact hsel) f1]
      exact ⟨f1, by rw [f3]; exact hsel, f2⟩
    · rw [escape_gesture_clear s h hsel]
      have h1sel : ({ s with diagram := s.diagram.clearSelection } :
          IM).diagram.selectedElementIds = [] := rfl
      rw [escape_gesture_switch ({ s with diagram := s.diagram.clearSelection } :
        IM) h h1sel ht]
      obtain ⟨f1, f2, f3⟩ := setTool_fields
        ({ s with diagram := s.diagram.clearSelection } : IM) Tool.select
      exact ⟨f1, by rw [f3]; exact h1sel, f2⟩

/-- Witness for C5: three Escapes from a state with an arrow in
progress, a non-empty selection and the Arrow tool reach the Select
tool, empty selection, Idle mode; two Escapes from a mid-drag state
holding the Arrow tool reach the same, the tool switch resetting the
mode; three Escapes from a mid-drag state holding the Select tool
leave the mode at Dragging. -/
theorem C5_witness :
    sC5.mode = IMode.creatingArrow ∧
    ((IM.handleKeyDown (IM.handleKeyDown (IM.handleKeyDown sC5 IM.Key.escape)
        IM.Key.escape) IM.Key.escape).currentTool = Tool.select ∧
     (IM.handleKeyDown (IM.handleKeyDown (IM.handleKeyDown sC5 IM.Key.escape)
        IM.Key.escape) IM.Key.escape).diagram.selectedElementIds = [] ∧
     (IM.handleKeyDown (IM.handleKeyDown (IM.handleKeyDown sC5 IM.Key.escape)
        IM.Key.escape) IM.Key.escape).mode = IMode.idle) ∧
    ((IM.handleKeyDown (IM.handleKeyDown sC5d IM.Key.escape)
        IM.Key.escape).currentTool = Tool.select ∧
     (IM.handleKeyDown (IM.handleKeyDown sC5d IM.Key.escape)
        IM.Key.escape).diagram.selectedElementIds = [] ∧
     (IM.handleKeyDown (IM.handleKeyDown sC5d IM.Key.escape)
        IM.Key.escape).mode = IMode.idle) ∧
    (IM.escIter sC5s 3).mode = IMode.dragging :=
  ⟨by decide,
   ((C5_escape_convergence sC5).1 (Or.inr (Or.inl (by decide)))).1,
   (C5_escape_convergence sC5d).2.2.2.1 (Or.inl (by decide)) (by decide),
   (((C5_escape_convergence sC5s).2.2.2.2 (Or.inl (by decide))
      (by decide) 3).1 : (IM.escIter sC5s 3).mode = IMode.dragging)⟩

theorem foldl_preserves_mem {α β : Type} {P : α → Prop} {step : α → β → α} :
    ∀ (l : List β), (∀ a b, b ∈ l → P a → P (step a b)) →
      ∀ a, P a → P (l.foldl step a) := by
  intro l
  induction l with
  | nil => intro _ a ha; exact ha
  | cons x l ih =>
    intro h a ha
    exact ih (fun a b hb => h a b (List.mem_cons_of_mem _ hb)) _
      (h a x (List.mem_cons_self _ _) ha)

theorem values_set_fresh {α : Type} (m : JMap α) (k : String) (v : α)
    (h : m.hasKey k = false) :
    JMap.values (m.set k v) = JMap.values m ++ [v] := by
  induction m with
  | nil => rfl
  | cons kv m ih =>
    rw [JMap.hasKey_cons] at h
    by_cases hk : kv.1 = k
    · rw [if_pos hk] at h
      exact absurd h (by simp)
    · rw [if_neg hk] at h
      rw [JMap.set_cons, if_neg hk, JMap.values_cons, JMap.values_cons, ih h]
      rfl

theorem map_values_update {α β : Type} (m : JMap α) (k : String) (f : α → α)
    (g : α → β) (hg : ∀ a, g (f a) = g a) :
    (JMap.values (m.update k f)).map g = (JMap.values m).map g := by
  induction m with
  | nil => rfl
  | cons kv m ih =>
    rw [JMap.update_cons]
    by_cases hk : kv.1 = k <;>
      simp only [hk, if_true, if_false, reduceIte, JMap.values_cons,
        List.map_cons, ih] <;>
      simp [hg]

theorem clearSelection_nodes_get? (d : Diagram) (k : String)
    (h : k ∉ d.selectedElementIds) :
    d.clearSelection.nodes.get? k = d.nodes.get? k := by
  rw [Diagram.clearSelection]
  have hfold : (d.selectedElementIds.foldl (fun acc id =>
      { acc with
        nodes := acc.nodes.update id (·.setSelected false)
        arrows := acc.arrows.update id (·.setSelected false)
        textLabels := acc.textLabels.update id (·.setSelected false)
        whiteboards := acc.whiteboards.update id (·.setSelected false) }) d
      ).nodes.get? k = d.nodes.get? k := by
    refine foldl_preserves_mem (P := fun (x : Diagram) =>
      x.nodes.get? k = d.nodes.get? k) _ ?_ _ rfl
    intro acc id hid hacc
    have hne : k ≠ id := fun hc => h (hc ▸ hid)
    show (acc.nodes.update id (·.setSelected false)).get? k = _
    rw [JMap.get?_update_ne _ _ _ _ hne, hacc]
  exact hfold

theorem clearSelection_arrows_proj {β : Type} (d : Diagram) (g : ArrowE → β)
    (hg : ∀ a b, g (ArrowE.setSelected a b) = g a) :
    (JMap.values d.clearSelection.arrows).map g =
      (JMap.values d.arrows).map g := by
  rw [Diagram.clearSelection]
  have hfold : (JMap.values (d.selectedElementIds.foldl (fun acc id =>
      { acc with
        nodes := acc.nodes.update id (·.setSelected false)
        arrows := acc.arrows.update id (·.setSelected false)
        textLabels := acc.textLabels.update id (·.setSelected false)
        whiteboards := acc.whiteboards.update id (·.setSelected false) }) d
      ).arrows).map g = (JMap.values d.arrows).map g := by
    refine foldl_preserves (P := fun (x : Diagram) =>
      (JMap.values x.arrows).map g = (JMap.values d.arrows).map g) ?_ _ _ rfl
    intro acc id hacc
    show (JMap.values (acc.arrows.update id (·.setSelected false))).map g = _
    rw [map_values_update _ _ _ _ (fun a => hg a false), hacc]
  exact hfold

theorem clearSelection_selectedElementIds (d : Diagram) :
    d.clearSelection.selectedElementIds = [] := rfl

/-- In CreatingArrow with no dragged element, the shared mouse-up tail
only resets transient state: the scene and the tool are untouched. -/
theorem epilogue_creatingArrow (s : IM) (h : s.mode = IMode.creatingArrow)
    (hd : s.draggedElementId = none) :
    (IM.mouseUpEpilogue s).diagram = s.diagram ∧
    (IM.mouseUpEpilogue s).currentTool = s.currentTool ∧
    (IM.mouseUpEpilogue s).diagram.selectedElementIds =
      s.diagram.selectedElementIds := by
  rw [IM.mouseUpEpilogue, IM.boxFinalizePhase, IM.mouseUpTail]
  simp [h, hd]


theorem clearSelection_arrows_hasKey (d : Diagram) (k : String) :
    d.clearSelection.arrows.hasKey k = d.arrows.hasKey k := by
  rw [Diagram.clearSelection]
  have hfold : (d.selectedElementIds.foldl (fun acc id =>
      { acc with
        nodes := acc.nodes.update id (·.setSelected false)
        arrows := acc.arrows.update id (·.setSelected false)
        textLabels := acc.textLabels.update id (·.setSelected false)
        whiteboards := acc.whiteboards.update id (·.setSelected false) }) d
      ).arrows.hasKey k = d.arrows.hasKey k := by
    refine foldl_preserves (P := fun (x : Diagram) =>
      x.arrows.hasKey k = d.arrows.hasKey k) ?_ _ _ rfl
    intro acc id hacc
    show (acc.arrows.update id (·.setSelected false)).hasKey k = _
    rw [JMap.hasKey_update, hacc]
  exact hfold

theorem addArrow_nodes (d : Diagram) (a : ArrowE) :
    (d.addArrow a).nodes = d.nodes := rfl

theorem addArrow_arrows (d : Diagram) (a : ArrowE) :
    (d.addArrow a).arrows = d.arrows.set a.id a := rfl

theorem addArrow_sel (d : Diagram) (a : ArrowE) :
    (d.addArrow a).selectedElementIds = d.selectedElementIds := rfl

theorem addNode_arrows (d : Diagram) (n : NodeE) :
    (d.addNode n).arrows = d.arrows := rfl

theorem selectElement_false_nodes (d : Diagram) (k : String) :
    (d.selectElement k false).nodes =
      d.clearSelection.nodes.update k (·.setSelected true) := rfl

theorem selectElement_false_arrows (d : Diagram) (k : String) :
    (d.selectElement k false).arrows =
      d.clearSelection.arrows.update k (·.setSelected true) := rfl

theorem selectElement_false_sel (d : Diagram) (k : String) :
    (d.selectElement k false).selectedElementIds =
      JSet.add d.clearSelection.selectedElementIds k := rfl

/-- C6 (confirmed): pointer-up in CreatingArrow with pending source S.
Releasing on a different node E creates exactly one arrow S → E;
releasing on empty space at distance at least S.radius + 80 creates a
new selected node at the release point plus the arrow S → new node,
clears the pending source, and leaves the tool unchanged (this handler
never touches the tool, so it stays Arrow); a closer empty-space
release creates no node and no arrow.  The freshness side conditions
say the ids the counters would mint are not already taken — which the
globally monotone counters guarantee in the running app. -/
theorem C6_arrow_tool_pointer_up (s : IM) (p : Pt) (start : NodeE)
    (hm : s.mode = IMode.creatingArrow)
    (ha : s.arrowStartNode = some start)
    (hd : s.draggedElementId = none) :
    (∀ el endNode, s.diagram.findElementAtPoint p = some el →
      el.type = ElemType.node → el.id ≠ start.id →
      s.diagram.getNode el.id = some endNode →
      s.diagram.arrows.hasKey (arrowIdStr s.ctr.arrow) = false →
      JMap.values (IM.handleMouseUp s p).diagram.arrows =
        JMap.values s.diagram.arrows ++
          [mkArrow s.ctr.arrow start.id endNode.id none none none] ∧
      (IM.handleMouseUp s p).diagram.nodes = s.diagram.nodes ∧
      (IM.handleMouseUp s p).currentTool = s.currentTool) ∧
    (s.diagram.findElementAtPoint p = none →
      sqrtGeB (Pt.dist2 start.position p) (start.radius + 80) = true →
      s.diagram.arrows.hasKey (arrowIdStr s.ctr.arrow) = false →
      nodeIdStr s.ctr.node ∉ s.diagram.selectedElementIds →
      (IM.handleMouseUp s p).diagram.nodes.get? (nodeIdStr s.ctr.node) =
        some { mkNode s.ctr.node p "New Node" none with isSelected := true } ∧
      (IM.handleMouseUp s p).diagram.selectedElementIds =
        [nodeIdStr s.ctr.node] ∧
      (JMap.values (IM.handleMouseUp s p).diagram.arrows).map
          (fun a => (a.id, a.fromId, a.toId)) =
        (JMap.values s.diagram.arrows).map (fun a => (a.id, a.fromId, a.toId))
          ++ [(arrowIdStr s.ctr.arrow, start.id, nodeIdStr s.ctr.node)] ∧
      (IM.handleMouseUp s p).arrowStartNode = none ∧
      (IM.handleMouseUp s p).currentTool = s.currentTool) ∧
    (s.diagram.findElementAtPoint p = none →
      sqrtGeB (Pt.dist2 start.position p) (start.radius + 80) = false →
      (IM.handleMouseUp s p).diagram.nodes = s.diagram.nodes ∧
      (IM.handleMouseUp s p).diagram.arrows = s.diagram.arrows) := by
  rw [IM.handleMouseUp]
  dsimp only
  rw [hm, ha]
  dsimp only
  refine ⟨?_, ?_, ?_⟩
  · intro el endNode hfind htype hne hget hfresh
    rw [hfind]
    dsimp only
    rw [if_pos ⟨htype, hne⟩, hget]
    dsimp only
    have e := epilogue_creatingArrow
      ⟨s.diagram.addArrow (mkArrow s.ctr.arrow start.id endNode.id none none none),
       ⟨s.ctr.node, s.ctr.arrow + 1, s.ctr.text, s.ctr.wb⟩,
       s.currentTool, IMode.creatingArrow, s.dragStartPoint, s.draggedElementId,
       none, p, s.panOffset, s.panStartOffset, s.panStartScreenPoint,
       s.selectionBox, s.resizingHandle, s.laserTrail⟩ rfl hd
    rw [e.1, e.2.1]
    dsimp only
    refine ⟨?_, rfl, rfl⟩
    rw [addArrow_arrows]
    exact values_set_fresh _ _ _ hfresh
  · intro hfind hdist hfreshA hselfresh
    rw [hfind]
    dsimp only
    rw [if_pos hdist]
    dsimp only
    refine ⟨?_, ?_, ?_, rfl, rfl⟩
    · rw [addArrow_nodes, selectElement_false_nodes]
      rw [show (mkNode s.ctr.node p "New Node" none).id = nodeIdStr s.ctr.node
        from rfl]
      rw [JMap.get?_update_self]
      rw [clearSelection_nodes_get?
        (s.diagram.addNode (mkNode s.ctr.node p "New Node" none))
        (nodeIdStr s.ctr.node) hselfresh]
      show ((s.diagram.nodes.set (nodeIdStr s.ctr.node)
        (mkNode s.ctr.node p "New Node" none)).get?
        (nodeIdStr s.ctr.node)).map (·.setSelected true) = _
      rw [JMap.get?_set_self]
      rfl
    · rw [addArrow_sel, selectElement_false_sel,
        clearSelection_selectedElementIds]
      simp [JSet.add]
      rfl
    · rw [addArrow_arrows, selectElement_false_arrows]
      have hak : (((s.diagram.addNode (mkNode s.ctr.node p "New Node"
          none)).clearSelection.arrows.update
          (mkNode s.ctr.node p "New Node" none).id
          (·.setSelected true)).hasKey (arrowIdStr s.ctr.arrow)) = false := by
        rw [JMap.hasKey_update, clearSelection_arrows_hasKey, addNode_arrows]
        exact hfreshA
      rw [show (mkArrow s.ctr.arrow start.id
          (mkNode s.ctr.node p "New Node" none).id none none none).id =
          arrowIdStr s.ctr.arrow from rfl]
      rw [values_set_fresh _ _ _ hak, List.map_append]
      congr 1
      rw [map_values_update
        (s.diagram.addNode (mkNode s.ctr.node p "New Node" none)).clearSelection.arrows
        (mkNode s.ctr.node p "New Node" none).id
        (fun x => ArrowE.setSelected x true)
        (fun a => (a.id, a.fromId, a.toId)) (fun a => rfl)]
      rw [clearSelection_arrows_proj
        (s.diagram.addNode (mkNode s.ctr.node p "New Node" none))
        (fun a => (a.id, a.fromId, a.toId)) (fun a b => rfl)]
      rw [addNode_arrows]
  · intro hfind hdist
    rw [hfind]
    dsimp only
    rw [if_neg (by rw [hdist]; simp)]
    have e := epilogue_creatingArrow
      ⟨s.diagram, s.ctr, s.currentTool, IMode.creatingArrow, s.dragStartPoint,
       s.draggedElementId, none, p, s.panOffset, s.panStartOffset,
       s.panStartScreenPoint, s.selectionBox, s.resizingHandle, s.laserTrail⟩
      rfl hd
    rw [e.1]
    exact ⟨rfl, rfl⟩

/-- Concrete evaluation: nothing of the one-node scene is hit at
(500, 500).  (Mathlib leaves an irreducible instance in the rational
subtraction path, so plain rfl does not reduce; unfolding everything
does, and the kernel — which ignores reducibility — rechecks it.) -/
theorem sC6_find_none : sC6.diagram.findElementAtPoint ⟨500, 500⟩ = none := by
  with_unfolding_all rfl

/-- Concrete evaluation: (500, 500) is at least radius + 80 away from
node A. -/
theorem sC6_far :
    sqrtGeB (Pt.dist2 nA.position ⟨500, 500⟩) (nA.radius + 80) = true := by
  with_unfolding_all rfl

theorem C6_witness :
    (IM.handleMouseUp sC6 ⟨500, 500⟩).diagram.nodes.get? (nodeIdStr 2) =
      some { mkNode 2 ⟨500, 500⟩ "New Node" none with isSelected := true } ∧
    (IM.handleMouseUp sC6 ⟨500, 500⟩).diagram.selectedElementIds =
      [nodeIdStr 2] ∧
    (JMap.values (IM.handleMouseUp sC6 ⟨500, 500⟩).diagram.arrows).map
        (fun a => (a.id, a.fromId, a.toId)) =
      (JMap.values sC6.diagram.arrows).map (fun a => (a.id, a.fromId, a.toId))
        ++ [(arrowIdStr 1, nA.id, nodeIdStr 2)] ∧
    (IM.handleMouseUp sC6 ⟨500, 500⟩).arrowStartNode = none ∧
    (IM.handleMouseUp sC6 ⟨500, 500⟩).currentTool = Tool.arrow := by
  obtain ⟨-, h2, -⟩ := C6_arrow_tool_pointer_up sC6 ⟨500, 500⟩ nA rfl rfl rfl
  exact h2 sC6_find_none sC6_far rfl (by decide)

theorem foldl_selectOne_sel (ids : List String) (d0 : Diagram)
    (h : (d0.selectedElementIds ++ ids).Nodup) :
    (ids.foldl Diagram.selectOneNoWb d0).selectedElementIds =
      d0.selectedElementIds ++ ids := by
  induction ids generalizing d0 with
  | nil => simp
  | cons i tl ih =>
    rw [List.foldl_cons]
    have hni : i ∉ d0.selectedElementIds := by
      intro hmem
      rcases (List.nodup_append.mp h).2.2 with hdisj
      exact hdisj hmem (List.mem_cons_self i tl)
    have h1 : (Diagram.selectOneNoWb d0 i).selectedElementIds =
        d0.selectedElementIds ++ [i] := by
      show JSet.add d0.selectedElementIds i = _
      rw [JSet.add, if_neg hni]
    have h2 := ih (Diagram.selectOneNoWb d0 i) (by
      rw [h1, List.append_assoc]
      simpa using h)
    rw [h2, h1, List.append_assoc]
    rfl

theorem selectElements_sel (d : Diagram) (ids : List String)
    (h : ids.Nodup) :
    (d.selectElements ids false).selectedElementIds = ids := by
  rw [Diagram.selectElements]
  rw [if_neg (by simp)]
  have h0 := foldl_selectOne_sel ids d.clearSelection (by
    rw [clearSelection_selectedElementIds]
    simpa using h)
  rw [h0, clearSelection_selectedElementIds, List.nil_append]

/-- In BoxSelecting with a pending box and no dragged element, the
shared mouse-up tail finalizes a significant box (and only a
significant one), drops the box, and settles the mode back to Idle. -/
theorem epilogue_boxSelecting (s : IM) (box : SelBox)
    (hm : s.mode = IMode.boxSelecting)
    (hb : s.selectionBox = some box)
    (hd : s.draggedElementId = none) :
    (IM.mouseUpEpilogue s).diagram =
      (if box.isSignificant then
        s.diagram.selectElements (s.diagram.findElementsInBox box) false
       else s.diagram) ∧
    (IM.mouseUpEpilogue s).selectionBox = none ∧
    (IM.mouseUpEpilogue s).mode = IMode.idle := by
  rw [IM.mouseUpEpilogue, IM.boxFinalizePhase]
  rw [if_pos hm, hb]
  dsimp only
  by_cases hsig : box.isSignificant = true
  · rw [if_pos hsig, if_pos hsig, IM.mouseUpTail]
    simp [hm, hd]
  · rw [if_neg hsig, if_neg hsig, IM.mouseUpTail]
    simp [hm, hd]

/-- C9 (corrected): at release time the box-select branch finalizes a
significant box to exactly the elements the box intersects, and leaves
the scene untouched (no additional selection) for an insignificant
box; either way the box is dropped and the mode returns to Idle.  The
"baseline" part of the claim fails: see the counterexample — the live
preview during the move already reselected, and an insignificant
release keeps that preview selection rather than restoring the
pre-gesture baseline. -/
theorem C9_box_threshold (s : IM) (p : Pt) (box : SelBox)
    (hm : s.mode = IMode.boxSelecting)
    (hb : s.selectionBox = some box)
    (hd : s.draggedElementId = none) :
    (box.isSignificant = false →
      (IM.handleMouseUp s p).diagram = s.diagram) ∧
    (box.isSignificant = true →
      (IM.handleMouseUp s p).diagram =
        s.diagram.selectElements (s.diagram.findElementsInBox box) false) ∧
    (box.isSignificant = true → (s.diagram.findElementsInBox box).Nodup →
      (IM.handleMouseUp s p).diagram.selectedElementIds =
        s.diagram.findElementsInBox box) ∧
    (IM.handleMouseUp s p).selectionBox = none ∧
    (IM.handleMouseUp s p).mode = IMode.idle := by
  rw [IM.handleMouseUp]
  dsimp only
  rw [hm]
  dsimp only
  obtain ⟨E1, E2, E3⟩ := epilogue_boxSelecting
    ⟨s.diagram, s.ctr, s.currentTool, IMode.boxSelecting, s.dragStartPoint,
     s.draggedElementId, s.arrowStartNode, p, s.panOffset, s.panStartOffset,
     s.panStartScreenPoint, s.selectionBox, s.resizingHandle, s.laserTrail⟩
    box rfl hb hd
  refine ⟨?_, ?_, ?_, E2, E3⟩
  · intro hsig
    rw [E1, if_neg (by rw [hsig]; simp)]
  · intro hsig
    rw [E1, if_pos hsig]
  · intro hsig hnodup
    rw [E1, if_pos hsig]
    exact selectElements_sel _ _ hnodup

/-- C9 counterexample: the pre-gesture baseline selection is empty, the
pointer-down lands on empty space, the 3 px move's live box preview
already selects the touched node, the box is insignificant at release —
and the selection after the gesture is the node, not the baseline. -/
theorem C9_counterexample :
    sC9.diagram.selectedElementIds = [] ∧
    mC9.mode = IMode.boxSelecting ∧
    mC9.selectionBox = some boxC9 ∧
    boxC9.isSignificant = false ∧
    gC9.diagram.selectedElementIds = [nodeIdStr 0] := by
  refine ⟨rfl, ?_, ?_, ?_, ?_⟩ <;> with_unfolding_all rfl

/-- Concrete evaluations feeding the C9 witness (plain rfl is blocked
by an irreducible instance on the rational subtraction path; the
kernel, which ignores reducibility, rechecks these). -/
theorem mC9_mode : mC9.mode = IMode.boxSelecting := by with_unfolding_all rfl

theorem mC9_box : mC9.selectionBox = some boxC9 := by with_unfolding_all rfl

theorem mC9_drag : mC9.draggedElementId = none := by with_unfolding_all rfl

theorem boxC9_insig : boxC9.isSignificant = false := by with_unfolding_all rfl

theorem C9_witness :
    gC9.diagram = mC9.diagram ∧ gC9.selectionBox = none ∧
    gC9.mode = IMode.idle := by
  obtain ⟨h1, -, -, h4, h5⟩ :=
    C9_box_threshold mC9 ⟨1060, 0⟩ boxC9 mC9_mode mC9_box mC9_drag
  exact ⟨h1 boxC9_insig, h4, h5⟩

theorem get?_eq_some_mem_pair {α : Type} (m : JMap α) (k : String) (v : α)
    (h : m.get? k = some v) : (k, v) ∈ m := by
  induction m with
  | nil => exact absurd h (by simp [JMap.get?])
  | cons kv m ih =>
    rw [JMap.get?_cons] at h
    by_cases hk : kv.1 = k
    · rw [if_pos hk] at h
      have : kv = (k, v) := by
        cases kv
        simp only [Option.some.injEq] at h
        simp_all
      exact this ▸ List.mem_cons_self kv m
    · rw [if_neg hk] at h
      exact List.mem_cons_of_mem kv (ih h)

theorem mem_get?_of_nodup {α : Type} (m : JMap α) (k : String) (v : α)
    (hnd : m.keys.Nodup) (hmem : (k, v) ∈ m) : m.get? k = some v := by
  induction m with
  | nil => exact absurd hmem (List.not_mem_nil _)
  | cons kv m ih =>
    rw [JMap.keys_cons, List.nodup_cons] at hnd
    rcases List.mem_cons.mp hmem with heq | htl
    · subst heq
      rw [JMap.get?_cons]
      simp
    · rw [JMap.get?_cons]
      have hk : kv.1 ≠ k := by
        intro hc
        exact hnd.1 (hc ▸ (List.mem_map.mpr ⟨(k, v), htl, rfl⟩))
      rw [if_neg hk]
      exact ih hnd.2 htl

theorem mem_keys_filter_of_get? {α : Type} (m : JMap α)
    (pred : String × α → Bool) (k : String) (v : α)
    (hget : m.get? k = some v) (hp : pred (k, v) = true) :
    k ∈ (m.filter pred).map (fun kv => kv.1) := by
  exact List.mem_map.mpr
    ⟨(k, v), List.mem_filter.mpr ⟨get?_eq_some_mem_pair m k v hget, hp⟩, rfl⟩

theorem mem_keys_filter_elim {α : Type} (m : JMap α)
    (pred : String × α → Bool) (k : String)
    (h : k ∈ (m.filter pred).map (fun kv => kv.1)) :
    ∃ v, (k, v) ∈ m ∧ pred (k, v) = true := by
  rcases List.mem_map.mp h with ⟨⟨k2, v⟩, hmem, hfst⟩
  rcases List.mem_filter.mp hmem with ⟨hin, hpred⟩
  dsimp only at hfst
  subst hfst
  exact ⟨v, hin, hpred⟩

theorem not_mem_keys_filter {α : Type} (m : JMap α)
    (pred : String × α → Bool) (k : String)
    (h : m.hasKey k = false) : k ∉ (m.filter pred).map (fun kv => kv.1) := by
  intro hmem
  rcases mem_keys_filter_elim m pred k hmem with ⟨v, hin, -⟩
  have hk : k ∈ m.keys := List.mem_map.mpr ⟨(k, v), hin, rfl⟩
  rw [(JMap.hasKey_eq_mem_keys m k).mpr hk] at h
  exact absurd h (by simp)

theorem nodup_keys_filter {α : Type} (m : JMap α)
    (pred : String × α → Bool) (h : m.keys.Nodup) :
    ((m.filter pred).map (fun kv => kv.1)).Nodup := by
  have hsub : List.Sublist ((m.filter pred).map (fun kv => kv.1))
      (m.map (fun kv => kv.1)) := (List.filter_sublist m).map (fun kv => kv.1)
  exact hsub.nodup h

theorem dragMoveOne_nodes (delta : Pt) (a : Diagram) (eid : String) :
    (IM.dragMoveOne delta a eid).nodes = a.nodes.update eid (·.moveBy delta) := rfl

theorem dragMoveOne_textLabels (delta : Pt) (a : Diagram) (eid : String) :
    (IM.dragMoveOne delta a eid).textLabels =
      a.textLabels.update eid (·.moveBy delta) := rfl

theorem dragMoveOne_whiteboards (delta : Pt) (a : Diagram) (eid : String) :
    (IM.dragMoveOne delta a eid).whiteboards = a.whiteboards := rfl

theorem foldl_dragMoveOne_get?_notin (delta : Pt) (ids : List String)
    (d0 : Diagram) (k : String) (h : k ∉ ids) :
    (ids.foldl (IM.dragMoveOne delta) d0).nodes.get? k = d0.nodes.get? k := by
  induction ids generalizing d0 with
  | nil => rfl
  | cons i tl ih =>
    rw [List.foldl_cons]
    have hne : k ≠ i := fun hc => h (hc ▸ List.mem_cons_self i tl)
    rw [ih (IM.dragMoveOne delta d0 i) (fun hc => h (List.mem_cons_of_mem i hc))]
    rw [dragMoveOne_nodes, JMap.get?_update_ne _ _ _ _ hne]

theorem foldl_dragMoveOne_get?_once (delta : Pt) (l1 l2 : List String)
    (d0 : Diagram) (k : String) (h1 : k ∉ l1) (h2 : k ∉ l2) :
    (((l1 ++ k :: l2).foldl (IM.dragMoveOne delta) d0).nodes.get? k) =
      (d0.nodes.get? k).map (·.moveBy delta) := by
  rw [List.foldl_append, List.foldl_cons]
  rw [foldl_dragMoveOne_get?_notin delta l2 _ k h2]
  rw [dragMoveOne_nodes, JMap.get?_update_self]
  rw [foldl_dragMoveOne_get?_notin delta l1 _ k h1]

theorem getElementsInWhiteboard_eq (d : Diagram) (id : String)
    (w : WhiteboardE) (h : d.whiteboards.get? id = some w) :
    d.getElementsInWhiteboard id =
      (d.nodes.filter (fun kv => w.containsPoint kv.2.position)).map
        (fun kv => kv.1) ++
      (d.textLabels.filter (fun kv => w.containsPoint kv.2.position)).map
        (fun kv => kv.1) := by
  rw [Diagram.getElementsInWhiteboard, h]

theorem dragStep_not_wb (delta : Pt) (acc : Diagram) (id : String)
    (h : acc.whiteboards.get? id = none) :
    IM.dragStep delta acc id = IM.dragMoveOne delta acc id := by
  rw [IM.dragStep]
  dsimp only
  rw [show (IM.dragMoveOne delta acc id).whiteboards.get? id = none from
    (dragMoveOne_whiteboards delta acc id) ▸ h]

theorem dragStep_wb (delta : Pt) (acc : Diagram) (id : String)
    (w : WhiteboardE) (h : acc.whiteboards.get? id = some w) :
    IM.dragStep delta acc id =
      (Diagram.getElementsInWhiteboard
        { IM.dragMoveOne delta acc id with
          whiteboards := (IM.dragMoveOne delta acc id).whiteboards.update id
            (fun wb => { wb with position := wb.position.add delta }) } id).foldl
        (IM.dragMoveOne delta)
        { IM.dragMoveOne delta acc id with
          whiteboards := (IM.dragMoveOne delta acc id).whiteboards.update id
            (fun wb => { wb with position := wb.position.add delta }) } := by
  rw [IM.dragStep]
  dsimp only
  rw [show (IM.dragMoveOne delta acc id).whiteboards.get? id = some w from
    (dragMoveOne_whiteboards delta acc id) ▸ h]

theorem drag_inner_fold (delta : Pt) (D3 : Diagram) (wId eId : String)
    (me : NodeE) (w2 : WhiteboardE)
    (hwb3 : D3.whiteboards.get? wId = some w2)
    (hn3 : D3.nodes.get? eId = some me)
    (hkeys3 : D3.nodes.keys.Nodup)
    (hel3 : D3.textLabels.hasKey eId = false)
    (hin3 : w2.containsPoint me.position = true) :
    ((D3.getElementsInWhiteboard wId).foldl
      (IM.dragMoveOne delta) D3).nodes.get? eId = some (me.moveBy delta) := by
  rw [getElementsInWhiteboard_eq D3 wId w2 hwb3]
  have hmemE : eId ∈ (D3.nodes.filter
      (fun kv => w2.containsPoint kv.2.position)).map (fun kv => kv.1) :=
    mem_keys_filter_of_get? _ _ _ _ hn3 hin3
  have hndN := nodup_keys_filter D3.nodes
    (fun kv => w2.containsPoint kv.2.position) hkeys3
  rcases List.append_of_mem hmemE with ⟨a, b, hab⟩
  have hnotA : eId ∉ a := by
    rw [hab] at hndN
    intro hc
    exact (List.nodup_append.mp hndN).2.2 hc (List.mem_cons_self eId b)
  have hnotB : eId ∉ b := by
    rw [hab] at hndN
    exact (List.nodup_cons.mp (List.nodup_append.mp hndN).2.1).1
  have hnotL : eId ∉ (D3.textLabels.filter
      (fun kv => w2.containsPoint kv.2.position)).map (fun kv => kv.1) :=
    not_mem_keys_filter _ _ _ hel3
  rw [hab, List.append_assoc, List.cons_append]
  rw [foldl_dragMoveOne_get?_once delta a _ D3 eId hnotA (by
    intro hc
    rcases List.mem_append.mp hc with h | h
    exacts [hnotB h, hnotL h])]
  rw [hn3]
  rfl

theorem drag_inner_fold_out (delta : Pt) (D3 : Diagram) (wId id : String)
    (n : NodeE) (w2 : WhiteboardE)
    (hwb3 : D3.whiteboards.get? wId = some w2)
    (hn3 : D3.nodes.get? id = some n)
    (hkeys3 : D3.nodes.keys.Nodup)
    (hl3 : D3.textLabels.hasKey id = false)
    (hout : w2.containsPoint n.position = false) :
    ((D3.getElementsInWhiteboard wId).foldl
      (IM.dragMoveOne delta) D3).nodes.get? id = some n := by
  rw [getElementsInWhiteboard_eq D3 wId w2 hwb3]
  have hnid : id ∉ (D3.nodes.filter
      (fun kv => w2.containsPoint kv.2.position)).map (fun kv => kv.1) := by
    intro hc
    rcases mem_keys_filter_elim _ _ _ hc with ⟨v, hvmem, hvpred⟩
    have hv := mem_get?_of_nodup _ _ _ hkeys3 hvmem
    rw [hn3] at hv
    have hveq : n = v := by injection hv
    rw [← hveq] at hvpred
    dsimp only at hvpred
    rw [hout] at hvpred
    exact absurd hvpred (by simp)
  have hnidL : id ∉ (D3.textLabels.filter
      (fun kv => w2.containsPoint kv.2.position)).map (fun kv => kv.1) :=
    not_mem_keys_filter _ _ _ hl3
  rw [foldl_dragMoveOne_get?_notin delta _ D3 id (by
    intro hc
    rcases List.mem_append.mp hc with h | h
    exacts [hnid h, hnidL h])]
  exact hn3

/-- C10 (corrected): the double drag delta exists, but it depends on the
selection iteration order and on the element still lying inside the
whiteboard bounds after they have moved.  With the selection [E, W]
(the node selected before the whiteboard), a single Dragging move of
delta first moves E by delta, then moves W and — because the already
moved E position is inside the already moved W bounds — moves E again:
2·delta in total.  A node not in the selection and outside the moved
bounds does not move.  (With the selection [W, E] and E near the
boundary the same gesture moves E only once: see the counterexample.) -/
theorem C10_whiteboard_drag (s : IM) (p origin delta : Pt)
    (eId wId : String) (e : NodeE) (w : WhiteboardE)
    (hds : s.dragStartPoint = some origin)
    (hdelta : delta = p.subtract origin)
    (hsel : s.diagram.selectedElementIds = [eId, wId])
    (hne : eId ≠ wId)
    (hen : s.diagram.nodes.get? eId = some e)
    (hew : s.diagram.whiteboards.get? eId = none)
    (hel : s.diagram.textLabels.hasKey eId = false)
    (hwb : s.diagram.whiteboards.get? wId = some w)
    (hkeys : s.diagram.nodes.keys.Nodup)
    (hin : WhiteboardE.containsPoint
      { w with position := w.position.add delta }
      (NodeE.moveBy e delta).position = true) :
    (IM.handleDragging s p).diagram.nodes.get? eId =
      some ((e.moveBy delta).moveBy delta) ∧
    (∀ id n, id ≠ eId → id ≠ wId →
      s.diagram.nodes.get? id = some n →
      s.diagram.textLabels.hasKey id = false →
      WhiteboardE.containsPoint
        { w with position := w.position.add delta } n.position = false →
      (IM.handleDragging s p).diagram.nodes.get? id = some n) := by
  subst hdelta
  rw [IM.handleDragging]
  dsimp only
  rw [hds]
  dsimp only
  rw [hsel, List.foldl_cons, List.foldl_cons, List.foldl_nil]
  rw [dragStep_not_wb _ _ _ hew]
  rw [dragStep_wb _ _ _ w (by rw [dragMoveOne_whiteboards]; exact hwb)]
  constructor
  · refine drag_inner_fold _ _ wId eId (NodeE.moveBy e (p.subtract origin))
      { w with position := w.position.add (p.subtract origin) } ?_ ?_ ?_ ?_ hin
    · dsimp only
      rw [JMap.get?_update_self, dragMoveOne_whiteboards,
        dragMoveOne_whiteboards, hwb]
      rfl
    · dsimp only
      rw [dragMoveOne_nodes, dragMoveOne_nodes]
      rw [JMap.get?_update_ne _ _ _ _ hne, JMap.get?_update_self, hen]
      rfl
    · dsimp only
      rw [dragMoveOne_nodes, dragMoveOne_nodes,
        JMap.keys_update, JMap.keys_update]
      exact hkeys
    · dsimp only
      rw [dragMoveOne_textLabels, dragMoveOne_textLabels,
        JMap.hasKey_update, JMap.hasKey_update]
      exact hel
  · intro id n hne1 hne2 hgn hgl hgout
    refine drag_inner_fold_out _ _ wId id n
      { w with position := w.position.add (p.subtract origin) } ?_ ?_ ?_ ?_ hgout
    · dsimp only
      rw [JMap.get?_update_self, dragMoveOne_whiteboards,
        dragMoveOne_whiteboards, hwb]
      rfl
    · dsimp only
      rw [dragMoveOne_nodes, dragMoveOne_nodes]
      rw [JMap.get?_update_ne _ _ _ _ hne2, JMap.get?_update_ne _ _ _ _ hne1]
      exact hgn
    · dsimp only
      rw [dragMoveOne_nodes, dragMoveOne_nodes,
        JMap.keys_update, JMap.keys_update]
      exact hkeys
    · dsimp only
      rw [dragMoveOne_textLabels, dragMoveOne_textLabels,
        JMap.hasKey_update, JMap.hasKey_update]
      exact hgl

/-- C10 counterexample: with the whiteboard selected before the node
(selection [W, E]) the same gesture moves the boundary node only once.
W moves first, E's not-yet-moved position falls outside the already
moved bounds, so E is not moved as whiteboard content and ends at
1 x delta = (6, 300), not the claimed 2 x delta = (11, 300). -/
theorem C10_counterexample :
    dC10a.selectedElementIds = [wC10.id, eC10.id] ∧
    wC10.containsPoint eC10.position = true ∧
    ((IM.handleDragging sC10a ⟨5, 0⟩).diagram.nodes.get? eC10.id).map
      (fun n => n.position) = some ⟨6, 300⟩ ∧
    (⟨6, 300⟩ : Pt) ≠ ⟨11, 300⟩ := by
  refine ⟨?_, ?_, ?_, ?_⟩
  · with_unfolding_all rfl
  · with_unfolding_all rfl
  · with_unfolding_all rfl
  · with_unfolding_all decide

/-- Concrete evaluations feeding the C10 witness. -/
theorem C10w_delta : (⟨5, 0⟩ : Pt) = Pt.subtract ⟨5, 0⟩ ⟨0, 0⟩ := by
  with_unfolding_all rfl

theorem C10w_in :
    WhiteboardE.containsPoint
      { wC10.setSelected true with
        position := (wC10.setSelected true).position.add ⟨5, 0⟩ }
      (NodeE.moveBy (eC10.setSelected true) ⟨5, 0⟩).position = true := by
  with_unfolding_all rfl

theorem C10w_out :
    WhiteboardE.containsPoint
      { wC10.setSelected true with
        position := (wC10.setSelected true).position.add ⟨5, 0⟩ }
      outC10.position = false := by
  with_unfolding_all rfl

theorem C10_witness :
    (IM.handleDragging sC10b ⟨5, 0⟩).diagram.nodes.get? eC10.id =
      some (((eC10.setSelected true).moveBy ⟨5, 0⟩).moveBy ⟨5, 0⟩) ∧
    (IM.handleDragging sC10b ⟨5, 0⟩).diagram.nodes.get? outC10.id =
      some outC10 := by
  obtain ⟨h1, h2⟩ := C10_whiteboard_drag sC10b ⟨5, 0⟩ ⟨0, 0⟩ ⟨5, 0⟩
    eC10.id wC10.id (eC10.setSelected true) (wC10.setSelected true)
    rfl C10w_delta rfl (by decide) rfl rfl rfl rfl (by decide) C10w_in
  exact ⟨h1, h2 outC10.id outC10 (by decide) (by decide) rfl rfl C10w_out⟩

theorem keys_append {α : Type} (a b : JMap α) :
    JMap.keys (a ++ b) = JMap.keys a ++ JMap.keys b := List.map_append _ a b

theorem set_append_fresh {α : Type} (m : JMap α) (k : String) (v : α)
    (h : m.hasKey k = false) : m.set k v = m ++ [(k, v)] := by
  induction m with
  | nil => rfl
  | cons kv m ih =>
    rw [JMap.hasKey_cons] at h
    by_cases hk : kv.1 = k
    · rw [if_pos hk] at h
      exact absurd h (by simp)
    · rw [if_neg hk] at h
      rw [JMap.set_cons, if_neg hk, ih h]
      rfl

theorem fold_set_reinsert_aux {α : Type} (g : α → α) (key : α → String)
    (m : JMap α) (acc0 : JMap α)
    (h : ∀ kv ∈ m, key (g kv.2) = kv.1)
    (hnd : (JMap.keys acc0 ++ JMap.keys m).Nodup) :
    (JMap.values m).foldl (fun acc v => JMap.set acc (key (g v)) (g v)) acc0 =
      acc0 ++ JMap.mapValues m g := by
  induction m generalizing acc0 with
  | nil => simp [JMap.values, JMap.mapValues]
  | cons kv m ih =>
    rw [JMap.values_cons, List.foldl_cons]
    have hk : key (g kv.2) = kv.1 := h kv (List.mem_cons_self kv m)
    have hfresh : JMap.hasKey acc0 kv.1 = false := by
      rw [JMap.keys_cons] at hnd
      cases hc : JMap.hasKey acc0 kv.1
      · rfl
      · exfalso
        have hmem : kv.1 ∈ JMap.keys acc0 := (JMap.hasKey_eq_mem_keys _ _).mp hc
        exact (List.nodup_append.mp hnd).2.2 hmem (List.mem_cons_self kv.1 _)
    have hstep : JMap.set acc0 (key (g kv.2)) (g kv.2) = acc0 ++ [(kv.1, g kv.2)] := by
      rw [hk]
      exact set_append_fresh acc0 kv.1 (g kv.2) hfresh
    rw [hstep]
    have hnd2 : (JMap.keys (acc0 ++ [(kv.1, g kv.2)]) ++ JMap.keys m).Nodup := by
      rw [keys_append]
      show ((JMap.keys acc0 ++ [kv.1]) ++ JMap.keys m).Nodup
      rw [List.append_assoc, List.cons_append, List.nil_append]
      rw [JMap.keys_cons] at hnd
      exact hnd
    rw [ih (acc0 ++ [(kv.1, g kv.2)])
      (fun x hx => h x (List.mem_cons_of_mem kv hx)) hnd2]
    rw [List.append_assoc]
    rfl

theorem fold_set_reinsert {α : Type} (g : α → α) (key : α → String)
    (m : JMap α)
    (h : ∀ kv ∈ m, key (g kv.2) = kv.1) (hnd : (JMap.keys m).Nodup) :
    (JMap.values m).foldl (fun acc v => JMap.set acc (key (g v)) (g v))
      ([] : JMap α) = JMap.mapValues m g := by
  have := fold_set_reinsert_aux g key m [] h (by simpa using hnd)
  simpa using this

theorem fold_set_pair_fst {γ δ : Type} (key : γ → String) (val : γ → δ)
    (data : List γ) (m0 : JMap δ) (c0 : ℕ) :
    (data.foldl (fun (st : JMap δ × ℕ) x =>
        (JMap.set st.1 (key x) (val x), st.2 + 1)) (m0, c0)).1 =
      data.foldl (fun acc x => JMap.set acc (key x) (val x)) m0 := by
  induction data generalizing m0 c0 with
  | nil => rfl
  | cons x tl ih => exact ih (JMap.set m0 (key x) (val x)) (c0 + 1)

theorem foldl_arrow_cond_all (ns : JMap NodeE) (data : List ArrowJSON)
    (st0 : JMap ArrowE × ℕ)
    (h : ∀ ad ∈ data, (JMap.get? ns ad.fromNodeId).isSome = true ∧
      (JMap.get? ns ad.toNodeId).isSome = true) :
    data.foldl (fun (st : JMap ArrowE × ℕ) ad =>
      if (JMap.get? ns ad.fromNodeId).isSome ∧ (JMap.get? ns ad.toNodeId).isSome
      then (JMap.set st.1 (⟨ad.id, ad.fromNodeId, ad.toNodeId, false,
              ad.strokeColor, ad.strokeWidth, ad.lineStyle⟩ : ArrowE).id
            ⟨ad.id, ad.fromNodeId, ad.toNodeId, false, ad.strokeColor,
              ad.strokeWidth, ad.lineStyle⟩, st.2 + 1)
      else st) st0 =
    data.foldl (fun (st : JMap ArrowE × ℕ) ad =>
      (JMap.set st.1 (⟨ad.id, ad.fromNodeId, ad.toNodeId, false, ad.strokeColor,
          ad.strokeWidth, ad.lineStyle⟩ : ArrowE).id
        ⟨ad.id, ad.fromNodeId, ad.toNodeId, false, ad.strokeColor,
          ad.strokeWidth, ad.lineStyle⟩, st.2 + 1)) st0 := by
  induction data generalizing st0 with
  | nil => rfl
  | cons ad tl ih =>
    rw [List.foldl_cons, List.foldl_cons,
      if_pos ⟨(h ad (List.mem_cons_self _ _)).1, (h ad (List.mem_cons_self _ _)).2⟩]
    exact ih _ (fun x hx => h x (List.mem_cons_of_mem _ hx))

/-- C2 (corrected): under scene well-formedness — collections keyed by
entity id with duplicate-free keys, and arrow endpoints resolving —
the full round trip fromJSON(toJSON(S)) reproduces the node, arrow and
text-label collections exactly, same keys in the same order and every
field byte-for-byte, except that the transient isSelected/isDragging
flags are reset (the claim lists ids, positions and styles, all of
which are preserved).  Without endpoint integrity the claim fails:
fromJSON silently skips an arrow whose endpoints do not resolve (see
the counterexample). -/
theorem C2_round_trip (d : Diagram) (c : Counters) (hwf : wfB d = true) :
    (Diagram.fromJSON (Diagram.toJSON d) c).1.nodes =
      JMap.mapValues d.nodes resetNode ∧
    (Diagram.fromJSON (Diagram.toJSON d) c).1.arrows =
      JMap.mapValues d.arrows resetArrow ∧
    (Diagram.fromJSON (Diagram.toJSON d) c).1.textLabels =
      JMap.mapValues d.textLabels resetLabel := by
  have hparts := hwf
  rw [wfB] at hparts
  simp only [Bool.and_eq_true, List.all_eq_true, decide_eq_true_eq] at hparts
  obtain ⟨⟨⟨⟨⟨⟨hwn, hwa⟩, hwl⟩, hndn⟩, hnda⟩, hndl⟩, hint⟩ := hparts
  have hN : (Diagram.fromJSON (Diagram.toJSON d) c).1.nodes =
      JMap.mapValues d.nodes resetNode := by
    calc (Diagram.fromJSON (Diagram.toJSON d) c).1.nodes
        = (Diagram.toJSON d).nodes.foldl
            (fun acc nd => JMap.set acc (nodeFromJSON nd).id (nodeFromJSON nd))
            [] :=
          fold_set_pair_fst (fun nd => (nodeFromJSON nd).id) nodeFromJSON
            (Diagram.toJSON d).nodes [] c.node
      _ = (JMap.values d.nodes).foldl (fun acc v =>
            JMap.set acc (nodeFromJSON (NodeE.toJSON v)).id
              (nodeFromJSON (NodeE.toJSON v))) [] :=
          List.foldl_map NodeE.toJSON _ (JMap.values d.nodes) []
      _ = JMap.mapValues d.nodes (fun v => nodeFromJSON (NodeE.toJSON v)) :=
          fold_set_reinsert (fun v => nodeFromJSON (NodeE.toJSON v))
            (fun n => n.id) d.nodes (fun kv hkv => (hwn kv hkv).symm) hndn
      _ = JMap.mapValues d.nodes resetNode :=
          List.map_congr_left (fun kv _ => rfl)
  have hL : (Diagram.fromJSON (Diagram.toJSON d) c).1.textLabels =
      JMap.mapValues d.textLabels resetLabel := by
    calc (Diagram.fromJSON (Diagram.toJSON d) c).1.textLabels
        = (Diagram.toJSON d).textLabels.foldl
            (fun acc td => JMap.set acc (textLabelFromJSON td).id
              (textLabelFromJSON td)) [] :=
          fold_set_pair_fst (fun td => (textLabelFromJSON td).id)
            textLabelFromJSON (Diagram.toJSON d).textLabels [] c.text
      _ = (JMap.values d.textLabels).foldl (fun acc v =>
            JMap.set acc (textLabelFromJSON (TextLabelE.toJSON v)).id
              (textLabelFromJSON (TextLabelE.toJSON v))) [] :=
          List.foldl_map TextLabelE.toJSON _ (JMap.values d.textLabels) []
      _ = JMap.mapValues d.textLabels
            (fun v => textLabelFromJSON (TextLabelE.toJSON v)) :=
          fold_set_reinsert (fun v => textLabelFromJSON (TextLabelE.toJSON v))
            (fun l => l.id) d.textLabels (fun kv hkv => (hwl kv hkv).symm) hndl
      _ = JMap.mapValues d.textLabels resetLabel :=
          List.map_congr_left (fun kv _ => rfl)
  have hA : (Diagram.fromJSON (Diagram.toJSON d) c).1.arrows =
      JMap.mapValues d.arrows resetArrow := by
    have hcond : ∀ ad ∈ (Diagram.toJSON d).arrows,
        (JMap.get? (Diagram.fromJSON (Diagram.toJSON d) c).1.nodes
          ad.fromNodeId).isSome = true ∧
        (JMap.get? (Diagram.fromJSON (Diagram.toJSON d) c).1.nodes
          ad.toNodeId).isSome = true := by
      intro ad had
      have had2 : ad ∈ (JMap.values d.arrows).map ArrowE.toJSON := had
      rcases List.mem_map.mp had2 with ⟨a, ha, rfl⟩
      have hi := (integrityB_iff d).mp hint a ha
      constructor
      · rw [hN, ← JMap.hasKey_eq_isSome_get?, JMap.hasKey_mapValues]
        exact hi.1
      · rw [hN, ← JMap.hasKey_eq_isSome_get?, JMap.hasKey_mapValues]
        exact hi.2
    calc (Diagram.fromJSON (Diagram.toJSON d) c).1.arrows
        = ((Diagram.toJSON d).arrows.foldl (fun (st : JMap ArrowE × ℕ) ad =>
            (JMap.set st.1 (⟨ad.id, ad.fromNodeId, ad.toNodeId, false, ad.strokeColor,
                ad.strokeWidth, ad.lineStyle⟩ : ArrowE).id
              ⟨ad.id, ad.fromNodeId, ad.toNodeId, false, ad.strokeColor,
                ad.strokeWidth, ad.lineStyle⟩, st.2 + 1)) ([], c.arrow)).1 :=
          congrArg Prod.fst
            (foldl_arrow_cond_all (Diagram.fromJSON (Diagram.toJSON d) c).1.nodes
              (Diagram.toJSON d).arrows ([], c.arrow) hcond)
      _ = (Diagram.toJSON d).arrows.foldl (fun acc ad =>
            JMap.set acc (⟨ad.id, ad.fromNodeId, ad.toNodeId, false, ad.strokeColor,
                ad.strokeWidth, ad.lineStyle⟩ : ArrowE).id
              ⟨ad.id, ad.fromNodeId, ad.toNodeId, false, ad.strokeColor,
                ad.strokeWidth, ad.lineStyle⟩) [] :=
          fold_set_pair_fst (fun ad => (⟨ad.id, ad.fromNodeId, ad.toNodeId, false, ad.strokeColor,
                ad.strokeWidth, ad.lineStyle⟩ : ArrowE).id)
            (fun ad => (⟨ad.id, ad.fromNodeId, ad.toNodeId, false, ad.strokeColor,
                ad.strokeWidth, ad.lineStyle⟩ : ArrowE)) (Diagram.toJSON d).arrows [] c.arrow
      _ = (JMap.values d.arrows).foldl (fun acc a =>
            JMap.set acc (resetArrow a).id (resetArrow a)) [] :=
          List.foldl_map ArrowE.toJSON _ (JMap.values d.arrows) []
      _ = JMap.mapValues d.arrows (fun a => resetArrow a) :=
          fold_set_reinsert (fun a => resetArrow a) (fun x => x.id) d.arrows
            (fun kv hkv => (hwa kv hkv).symm) hnda
      _ = JMap.mapValues d.arrows resetArrow :=
          List.map_congr_left (fun kv _ => rfl)
  exact ⟨hN, hA, hL⟩

/-- C2 counterexample: a reachable scene holding a stale arrow (its
endpoints never added) loses that arrow in the round trip — fromJSON
skips arrows whose endpoints do not resolve. -/
theorem C2_counterexample :
    (JMap.values dC2.arrows).map (fun a => a.id) = [arrowIdStr 5] ∧
    (Diagram.fromJSON (Diagram.toJSON dC2) cAfter).1.arrows = [] :=
  ⟨rfl, rfl⟩

theorem C2_witness :
    wfB dAB = true ∧
    ((Diagram.fromJSON (Diagram.toJSON dAB) cAB).1.nodes =
        JMap.mapValues dAB.nodes resetNode ∧
      (Diagram.fromJSON (Diagram.toJSON dAB) cAB).1.arrows =
        JMap.mapValues dAB.arrows resetArrow ∧
      (Diagram.fromJSON (Diagram.toJSON dAB) cAB).1.textLabels =
        JMap.mapValues dAB.textLabels resetLabel) :=
  ⟨rfl, C2_round_trip dAB cAB rfl⟩

theorem dupNodes_eq_fold (d : Diagram) (cn : ℕ) (ids : List String) :
    Diagram.dupNodes d cn ids = ids.foldl dupNodeStep (d, cn, [], []) := rfl

theorem dupLabels_eq_fold (d : Diagram) (ct : ℕ) (ids : List String) :
    Diagram.dupLabels d ct ids = ids.foldl dupLabelStep (d, ct, []) := rfl

theorem dupArrows_eq_fold (d : Diagram) (ca : ℕ) (m : List (String × String))
    (ids : List String) :
    Diagram.dupArrows d ca m ids = ids.foldl (dupArrowStep m) (d, ca, []) := rfl

theorem get?_append {α : Type} (a b : JMap α) (k : String) :
    JMap.get? (a ++ b) k =
      match JMap.get? a k with
      | some v => some v
      | none => JMap.get? b k := by
  induction a with
  | nil => rfl
  | cons kv a ih =>
    show JMap.get? (kv :: (a ++ b)) k = _
    rw [JMap.get?_cons, JMap.get?_cons]
    by_cases hk : kv.1 = k
    · rw [if_pos hk, if_pos hk]
    · rw [if_neg hk, if_neg hk, ih]

theorem hasKey_append {α : Type} (a b : JMap α) (k : String) :
    JMap.hasKey (a ++ b) k = (JMap.hasKey a k || JMap.hasKey b k) := by
  induction a with
  | nil => rfl
  | cons kv a ih =>
    show JMap.hasKey (kv :: (a ++ b)) k = _
    rw [JMap.hasKey_cons, JMap.hasKey_cons]
    by_cases hk : kv.1 = k
    · rw [if_pos hk, if_pos hk]
      rfl
    · rw [if_neg hk, if_neg hk, ih]

theorem get?_append_left {α : Type} (a b : JMap α) (k : String) (v : α)
    (h : JMap.get? a k = some v) : JMap.get? (a ++ b) k = some v := by
  rw [get?_append, h]

theorem get?_append_right {α : Type} (a b : JMap α) (k : String)
    (h : JMap.hasKey a k = false) : JMap.get? (a ++ b) k = JMap.get? b k := by
  rw [get?_append]
  rw [JMap.hasKey_eq_isSome_get?] at h
  cases hg : JMap.get? a k
  · rfl
  · rw [hg] at h
    exact absurd h (by simp)

theorem dupNodes_fold_char : ∀ (ids : List String) (acc : Diagram) (c0 : ℕ)
    (m0 : List (String × String)) (out0 : List String),
    (∀ j, c0 ≤ j → j < c0 + ids.length →
      JMap.hasKey acc.nodes (nodeIdStr j) = false ∧ nodeIdStr j ∉ ids) →
    ∃ extra : JMap NodeE, ∃ extraM : List (String × String),
      ids.foldl dupNodeStep (acc, c0, m0, out0) =
        (⟨acc.nodes ++ extra, acc.arrows, acc.textLabels, acc.whiteboards,
          acc.selectedElementIds⟩, c0 + extra.length, m0 ++ extraM,
          out0 ++ (List.range' c0 extra.length).map nodeIdStr) ∧
      JMap.keys extra = (List.range' c0 extra.length).map nodeIdStr ∧
      extraM.map (fun pr => pr.2) = (List.range' c0 extra.length).map nodeIdStr ∧
      (∀ pr ∈ extraM, pr.1 ∈ ids ∧ ∃ n, JMap.get? acc.nodes pr.1 = some n ∧
        JMap.get? extra pr.2 = some (cloneNodeAt n pr.2)) ∧
      (∀ id ∈ ids, ∀ n, JMap.get? acc.nodes id = some n →
        ∃ nid, (id, nid) ∈ extraM) ∧
      extra.length ≤ ids.length := by
  intro ids
  induction ids with
  | nil =>
    intro acc c0 m0 out0 _
    refine ⟨[], [], ?_, rfl, rfl, by simp, by simp, by simp⟩
    simp
  | cons id tl ih =>
    intro acc c0 m0 out0 HF
    rw [List.foldl_cons]
    cases hget : JMap.get? acc.nodes id with
    | none =>
      have hstep : dupNodeStep (acc, c0, m0, out0) id = (acc, c0, m0, out0) := by
        rw [dupNodeStep]
        dsimp only
        rw [hget]
      rw [hstep]
      obtain ⟨extra, extraM, h1, h2, h3, h4, h5, h6⟩ := ih acc c0 m0 out0
        (fun j hj1 hj2 =>
          ⟨(HF j hj1 (by simp only [List.length_cons]; omega)).1,
           fun hmem => (HF j hj1 (by simp only [List.length_cons]; omega)).2
             (List.mem_cons_of_mem _ hmem)⟩)
      refine ⟨extra, extraM, h1, h2, h3, ?_, ?_,
        by simp only [List.length_cons]; omega⟩
      · intro pr hpr
        obtain ⟨hin, hex⟩ := h4 pr hpr
        exact ⟨List.mem_cons_of_mem _ hin, hex⟩
      · intro id2 hid2 n hn
        rcases List.mem_cons.mp hid2 with rfl | hid2
        · rw [hget] at hn
          cases hn
        · exact h5 id2 hid2 n hn
    | some n =>
      have hstep : dupNodeStep (acc, c0, m0, out0) id =
          (acc.addNode (cloneNodeAt n (nodeIdStr c0)),
           c0 + 1, m0 ++ [(id, nodeIdStr c0)], out0 ++ [nodeIdStr c0]) := by
        rw [dupNodeStep]
        dsimp only
        rw [hget]
        rfl
      rw [hstep]
      have hfr0 := HF c0 (le_refl c0) (by simp only [List.length_cons]; omega)
      have happend : (acc.addNode (cloneNodeAt n (nodeIdStr c0))).nodes =
          acc.nodes ++ [(nodeIdStr c0, cloneNodeAt n (nodeIdStr c0))] := by
        show JMap.set acc.nodes (cloneNodeAt n (nodeIdStr c0)).id _ = _
        exact set_append_fresh acc.nodes (nodeIdStr c0) _ hfr0.1
      obtain ⟨extra, extraM, h1, h2, h3, h4, h5, h6⟩ := ih
        (acc.addNode (cloneNodeAt n (nodeIdStr c0)))
        (c0 + 1) (m0 ++ [(id, nodeIdStr c0)]) (out0 ++ [nodeIdStr c0])
        (by
          intro j hj1 hj2
          have hf := HF j (by omega) (by simp only [List.length_cons]; omega)
          constructor
          · rw [happend, hasKey_append, hf.1]
            have hne : JMap.hasKey
                [(nodeIdStr c0, cloneNodeAt n (nodeIdStr c0))]
                (nodeIdStr j) = false := by
              rw [JMap.hasKey_cons,
                if_neg (fun hc => by have := nodeIdStr_inj hc; omega)]
              rfl
            rw [hne]
            rfl
          · exact fun hmem => hf.2 (List.mem_cons_of_mem _ hmem))
      refine ⟨(nodeIdStr c0, cloneNodeAt n (nodeIdStr c0)) :: extra,
        (id, nodeIdStr c0) :: extraM, ?_, ?_, ?_, ?_, ?_,
        by simp only [List.length_cons]; omega⟩
      · rw [h1]
        have e1 : (acc.addNode (cloneNodeAt n (nodeIdStr c0))).nodes ++ extra =
            acc.nodes ++
              ((nodeIdStr c0, cloneNodeAt n (nodeIdStr c0)) :: extra) := by
          rw [happend, List.append_assoc]
          rfl
        refine Prod.ext ?_ (Prod.ext ?_ (Prod.ext ?_ ?_))
        · show (⟨_, _, _, _, _⟩ : Diagram) = ⟨_, _, _, _, _⟩
          rw [e1]
          rfl
        · show (c0 + 1) + extra.length =
            c0 + ((nodeIdStr c0, cloneNodeAt n (nodeIdStr c0)) :: extra).length
          simp only [List.length_cons]
          omega
        · show (m0 ++ [(id, nodeIdStr c0)]) ++ extraM = _
          rw [List.append_assoc]
          rfl
        · show (out0 ++ [nodeIdStr c0]) ++
              (List.range' (c0 + 1) extra.length).map nodeIdStr = _
          rw [List.append_assoc]
          rfl
      · rw [JMap.keys_cons, h2]
        rfl
      · rw [List.map_cons, h3]
        rfl
      · intro pr hpr
        rcases List.mem_cons.mp hpr with rfl | hpr
        · refine ⟨List.mem_cons_self _ _, n, hget, ?_⟩
          rw [JMap.get?_cons, if_pos rfl]
        · obtain ⟨hin, n2, hgn2, hge2⟩ := h4 pr hpr
          have hne1 : pr.1 ≠ nodeIdStr c0 := by
            intro hc
            exact hfr0.2 (hc ▸ List.mem_cons_of_mem id hin)
          have hgacc : JMap.get? acc.nodes pr.1 = some n2 := by
            rw [happend, get?_append] at hgn2
            revert hgn2
            cases hg : JMap.get? acc.nodes pr.1 <;> intro hgn2
            · dsimp only at hgn2
              rw [JMap.get?_cons, if_neg (fun hc => hne1 hc.symm)] at hgn2
              exact absurd hgn2 (by simp [JMap.get?])
            · dsimp only at hgn2
              exact hgn2
          have hne2 : nodeIdStr c0 ≠ pr.2 := by
            intro hc
            have hmem2 : pr.2 ∈ extraM.map (fun pr => pr.2) :=
              List.mem_map.mpr ⟨pr, hpr, rfl⟩
            rw [h3] at hmem2
            rcases List.mem_map.mp hmem2 with ⟨j, hj, hjeq⟩
            rcases List.mem_range'_1.mp hj with ⟨hj1, -⟩
            have := nodeIdStr_inj (hc.trans hjeq.symm)
            omega
          refine ⟨List.mem_cons_of_mem _ hin, n2, hgacc, ?_⟩
          rw [JMap.get?_cons, if_neg hne2]
          exact hge2
      · intro id2 hid2 n2 hn2
        rcases List.mem_cons.mp hid2 with rfl | hid2
        · exact ⟨nodeIdStr c0, List.mem_cons_self _ _⟩
        · have hne : id2 ≠ nodeIdStr c0 :=
            fun hc => hfr0.2 (hc ▸ List.mem_cons_of_mem id hid2)
          have hgacc2 : JMap.get?
              (acc.addNode (cloneNodeAt n (nodeIdStr c0))).nodes id2 =
              some n2 := by
            rw [happend, get?_append, hn2]
          obtain ⟨nid, hnid⟩ := h5 id2 hid2 n2 hgacc2
          exact ⟨nid, List.mem_cons_of_mem _ hnid⟩

theorem dupLabels_fold_char : ∀ (ids : List String) (acc : Diagram) (c0 : ℕ)
    (out0 : List String),
    (∀ j, c0 ≤ j → j < c0 + ids.length →
      JMap.hasKey acc.textLabels (textIdStr j) = false ∧ textIdStr j ∉ ids) →
    ∃ extra : JMap TextLabelE,
      ids.foldl dupLabelStep (acc, c0, out0) =
        (⟨acc.nodes, acc.arrows, acc.textLabels ++ extra, acc.whiteboards,
          acc.selectedElementIds⟩, c0 + extra.length,
          out0 ++ (List.range' c0 extra.length).map textIdStr) ∧
      JMap.keys extra = (List.range' c0 extra.length).map textIdStr ∧
      (∀ id ∈ ids, ∀ l, JMap.get? acc.textLabels id = some l →
        ∃ nid, nid ∈ JMap.keys extra ∧
          JMap.get? extra nid = some (cloneLabelAt l nid)) ∧
      extra.length ≤ ids.length := by
  intro ids
  induction ids with
  | nil =>
    intro acc c0 out0 _
    refine ⟨[], ?_, rfl, by simp, by simp⟩
    simp
  | cons id tl ih =>
    intro acc c0 out0 HF
    rw [List.foldl_cons]
    cases hget : JMap.get? acc.textLabels id with
    | none =>
      have hstep : dupLabelStep (acc, c0, out0) id = (acc, c0, out0) := by
        rw [dupLabelStep]
        dsimp only
        rw [hget]
      rw [hstep]
      obtain ⟨extra, h1, h2, h3, h4⟩ := ih acc c0 out0
        (fun j hj1 hj2 =>
          ⟨(HF j hj1 (by simp only [List.length_cons]; omega)).1,
           fun hmem => (HF j hj1 (by simp only [List.length_cons]; omega)).2
             (List.mem_cons_of_mem _ hmem)⟩)
      refine ⟨extra, h1, h2, ?_, by simp only [List.length_cons]; omega⟩
      intro id2 hid2 l hl
      rcases List.mem_cons.mp hid2 with rfl | hid2
      · rw [hget] at hl
        cases hl
      · exact h3 id2 hid2 l hl
    | some l =>
      have hstep : dupLabelStep (acc, c0, out0) id =
          (acc.addTextLabel (cloneLabelAt l (textIdStr c0)),
           c0 + 1, out0 ++ [textIdStr c0]) := by
        rw [dupLabelStep]
        dsimp only
        rw [hget]
        rfl
      rw [hstep]
      have hfr0 := HF c0 (le_refl c0) (by simp only [List.length_cons]; omega)
      have happend :
          (acc.addTextLabel (cloneLabelAt l (textIdStr c0))).textLabels =
          acc.textLabels ++ [(textIdStr c0, cloneLabelAt l (textIdStr c0))] := by
        show JMap.set acc.textLabels (cloneLabelAt l (textIdStr c0)).id _ = _
        exact set_append_fresh acc.textLabels (textIdStr c0) _ hfr0.1
      obtain ⟨extra, h1, h2, h3, h4⟩ := ih
        (acc.addTextLabel (cloneLabelAt l (textIdStr c0)))
        (c0 + 1) (out0 ++ [textIdStr c0])
        (by
          intro j hj1 hj2
          have hf := HF j (by omega) (by simp only [List.length_cons]; omega)
          constructor
          · rw [happend, hasKey_append, hf.1]
            have hne : JMap.hasKey
                [(textIdStr c0, cloneLabelAt l (textIdStr c0))]
                (textIdStr j) = false := by
              rw [JMap.hasKey_cons,
                if_neg (fun hc => by have := textIdStr_inj hc; omega)]
              rfl
            rw [hne]
            rfl
          · exact fun hmem => hf.2 (List.mem_cons_of_mem _ hmem))
      refine ⟨(textIdStr c0, cloneLabelAt l (textIdStr c0)) :: extra,
        ?_, ?_, ?_, by simp only [List.length_cons]; omega⟩
      · rw [h1]
        have e1 : (acc.addTextLabel (cloneLabelAt l (textIdStr c0))).textLabels
              ++ extra =
            acc.textLabels ++
              ((textIdStr c0, cloneLabelAt l (textIdStr c0)) :: extra) := by
          rw [happend, List.append_assoc]
          rfl
        refine Prod.ext ?_ (Prod.ext ?_ ?_)
        · show (⟨_, _, _, _, _⟩ : Diagram) = ⟨_, _, _, _, _⟩
          rw [e1]
          rfl
        · show (c0 + 1) + extra.length =
            c0 + ((textIdStr c0, cloneLabelAt l (textIdStr c0)) :: extra).length
          simp only [List.length_cons]
          omega
        · show (out0 ++ [textIdStr c0]) ++
              (List.range' (c0 + 1) extra.length).map textIdStr = _
          rw [List.append_assoc]
          rfl
      · rw [JMap.keys_cons, h2]
        rfl
      · intro id2 hid2 l2 hl2
        rcases List.mem_cons.mp hid2 with rfl | hid2
        · rw [hget] at hl2
          cases hl2
          refine ⟨textIdStr c0, List.mem_cons_self _ _, ?_⟩
          rw [JMap.get?_cons, if_pos rfl]
        · have hne : id2 ≠ textIdStr c0 :=
            fun hc => hfr0.2 (hc ▸ List.mem_cons_of_mem id hid2)
          have hl2acc : JMap.get?
              (acc.addTextLabel (cloneLabelAt l (textIdStr c0))).textLabels
              id2 = some l2 := by
            rw [happend, get?_append, hl2]
          obtain ⟨nid, hnidmem, hnidget⟩ := h3 id2 hid2 l2 hl2acc
          have hnidform : nid ∈ (List.range' (c0+1) extra.length).map textIdStr :=
            h2 ▸ hnidmem
          have hne2 : textIdStr c0 ≠ nid := by
            intro hc
            rcases List.mem_map.mp hnidform with ⟨j, hj, hjeq⟩
            rcases List.mem_range'_1.mp hj with ⟨hj1, -⟩
            have := textIdStr_inj (hc.trans hjeq.symm)
            omega
          refine ⟨nid, ?_, ?_⟩
          · rw [JMap.keys_cons]
            exact List.mem_cons_of_mem _ hnidmem
          · rw [JMap.get?_cons, if_neg hne2]
            exact hnidget

theorem dupArrows_fold_char : ∀ (ids : List String)
    (m : List (String × String)) (acc : Diagram) (c0 : ℕ) (out0 : List String),
    (∀ j, c0 ≤ j → j < c0 + ids.length →
      JMap.hasKey acc.arrows (arrowIdStr j) = false ∧ arrowIdStr j ∉ ids) →
    ∃ extra : JMap ArrowE,
      ids.foldl (dupArrowStep m) (acc, c0, out0) =
        (⟨acc.nodes, acc.arrows ++ extra, acc.textLabels, acc.whiteboards,
          acc.selectedElementIds⟩, c0 + extra.length,
          out0 ++ (List.range' c0 extra.length).map arrowIdStr) ∧
      JMap.keys extra = (List.range' c0 extra.length).map arrowIdStr ∧
      (∀ id ∈ ids, ∀ a, JMap.get? acc.arrows id = some a → ∀ nf nt,
        Option.map (fun x => x.2)
          (List.find? (fun kv => decide (kv.1 = a.fromId)) m) = some nf →
        Option.map (fun x => x.2)
          (List.find? (fun kv => decide (kv.1 = a.toId)) m) = some nt →
        ∃ nid, nid ∈ JMap.keys extra ∧
          JMap.get? extra nid = some (cloneArrowAt a nid nf nt)) ∧
      ((∀ id ∈ ids, ∀ a, JMap.get? acc.arrows id = some a →
        Option.map (fun x => x.2)
          (List.find? (fun kv => decide (kv.1 = a.fromId)) m) = none ∨
        Option.map (fun x => x.2)
          (List.find? (fun kv => decide (kv.1 = a.toId)) m) = none) →
        extra = []) ∧
      extra.length ≤ ids.length := by
  intro ids
  induction ids with
  | nil =>
    intro m acc c0 out0 _
    refine ⟨[], ?_, rfl, by simp, fun _ => rfl, by simp⟩
    simp
  | cons id tl ih =>
    intro m acc c0 out0 HF
    rw [List.foldl_cons]
    cases hget : JMap.get? acc.arrows id with
    | none =>
      have hstep : dupArrowStep m (acc, c0, out0) id = (acc, c0, out0) := by
        rw [dupArrowStep]
        dsimp only
        rw [hget]
      rw [hstep]
      obtain ⟨extra, h1, h2, h3, h4, h5⟩ := ih m acc c0 out0
        (fun j hj1 hj2 =>
          ⟨(HF j hj1 (by simp only [List.length_cons]; omega)).1,
           fun hmem => (HF j hj1 (by simp only [List.length_cons]; omega)).2
             (List.mem_cons_of_mem _ hmem)⟩)
      refine ⟨extra, h1, h2, ?_, ?_, by simp only [List.length_cons]; omega⟩
      · intro id2 hid2 a ha nf nt hnf hnt
        rcases List.mem_cons.mp hid2 with rfl | hid2
        · rw [hget] at ha
          cases ha
        · exact h3 id2 hid2 a ha nf nt hnf hnt
      · intro hneg
        exact h4 (fun id2 hid2 a ha =>
          hneg id2 (List.mem_cons_of_mem _ hid2) a ha)
    | some a =>
      cases hf : Option.map (fun x => x.2)
          (List.find? (fun kv => decide (kv.1 = a.fromId)) m) with
      | none =>
        have hstep : dupArrowStep m (acc, c0, out0) id = (acc, c0, out0) := by
          rw [dupArrowStep]
          dsimp only
          rw [hget]
          dsimp only
          rw [hf]
        rw [hstep]
        obtain ⟨extra, h1, h2, h3, h4, h5⟩ := ih m acc c0 out0
          (fun j hj1 hj2 =>
            ⟨(HF j hj1 (by simp only [List.length_cons]; omega)).1,
             fun hmem => (HF j hj1 (by simp only [List.length_cons]; omega)).2
               (List.mem_cons_of_mem _ hmem)⟩)
        refine ⟨extra, h1, h2, ?_, ?_, by simp only [List.length_cons]; omega⟩
        · intro id2 hid2 a2 ha2 nf nt hnf hnt
          rcases List.mem_cons.mp hid2 with rfl | hid2
          · rw [hget] at ha2
            cases ha2
            rw [hf] at hnf
            cases hnf
          · exact h3 id2 hid2 a2 ha2 nf nt hnf hnt
        · intro hneg
          exact h4 (fun id2 hid2 a2 ha2 =>
            hneg id2 (List.mem_cons_of_mem _ hid2) a2 ha2)
      | some nf0 =>
        cases ht : Option.map (fun x => x.2)
            (List.find? (fun kv => decide (kv.1 = a.toId)) m) with
        | none =>
          have hstep : dupArrowStep m (acc, c0, out0) id = (acc, c0, out0) := by
            rw [dupArrowStep]
            dsimp only
            rw [hget]
            dsimp only
            rw [hf, ht]
          rw [hstep]
          obtain ⟨extra, h1, h2, h3, h4, h5⟩ := ih m acc c0 out0
            (fun j hj1 hj2 =>
              ⟨(HF j hj1 (by simp only [List.length_cons]; omega)).1,
               fun hmem => (HF j hj1 (by simp only [List.length_cons]; omega)).2
                 (List.mem_cons_of_mem _ hmem)⟩)
          refine ⟨extra, h1, h2, ?_, ?_, by simp only [List.length_cons]; omega⟩
          · intro id2 hid2 a2 ha2 nf nt hnf hnt
            rcases List.mem_cons.mp hid2 with rfl | hid2
            · rw [hget] at ha2
              cases ha2
              rw [ht] at hnt
              cases hnt
            · exact h3 id2 hid2 a2 ha2 nf nt hnf hnt
          · intro hneg
            exact h4 (fun id2 hid2 a2 ha2 =>
              hneg id2 (List.mem_cons_of_mem _ hid2) a2 ha2)
        | some nt0 =>
          have hstep : dupArrowStep m (acc, c0, out0) id =
              (acc.addArrow (cloneArrowAt a (arrowIdStr c0) nf0 nt0),
               c0 + 1, out0 ++ [arrowIdStr c0]) := by
            rw [dupArrowStep]
            dsimp only
            rw [hget]
            dsimp only
            rw [hf, ht]
            rfl
          rw [hstep]
          have hfr0 := HF c0 (le_refl c0)
            (by simp only [List.length_cons]; omega)
          have happend :
              (acc.addArrow (cloneArrowAt a (arrowIdStr c0) nf0 nt0)).arrows =
              acc.arrows ++
                [(arrowIdStr c0, cloneArrowAt a (arrowIdStr c0) nf0 nt0)] := by
            show JMap.set acc.arrows
              (cloneArrowAt a (arrowIdStr c0) nf0 nt0).id _ = _
            exact set_append_fresh acc.arrows (arrowIdStr c0) _ hfr0.1
          obtain ⟨extra, h1, h2, h3, h4, h5⟩ := ih m
            (acc.addArrow (cloneArrowAt a (arrowIdStr c0) nf0 nt0))
            (c0 + 1) (out0 ++ [arrowIdStr c0])
            (by
              intro j hj1 hj2
              have hff := HF j (by omega)
                (by simp only [List.length_cons]; omega)
              constructor
              · rw [happend, hasKey_append, hff.1]
                have hne : JMap.hasKey
                    [(arrowIdStr c0, cloneArrowAt a (arrowIdStr c0) nf0 nt0)]
                    (arrowIdStr j) = false := by
                  rw [JMap.hasKey_cons,
                    if_neg (fun hc => by have := arrowIdStr_inj hc; omega)]
                  rfl
                rw [hne]
                rfl
              · exact fun hmem => hff.2 (List.mem_cons_of_mem _ hmem))
          refine ⟨(arrowIdStr c0, cloneArrowAt a (arrowIdStr c0) nf0 nt0)
              :: extra, ?_, ?_, ?_, ?_,
            by simp only [List.length_cons]; omega⟩
          · rw [h1]
            have e1 : (acc.addArrow
                  (cloneArrowAt a (arrowIdStr c0) nf0 nt0)).arrows ++ extra =
                acc.arrows ++
                  ((arrowIdStr c0, cloneArrowAt a (arrowIdStr c0) nf0 nt0)
                    :: extra) := by
              rw [happend, List.append_assoc]
              rfl
            refine Prod.ext ?_ (Prod.ext ?_ ?_)
            · show (⟨_, _, _, _, _⟩ : Diagram) = ⟨_, _, _, _, _⟩
              rw [e1]
              rfl
            · show (c0 + 1) + extra.length = c0 +
                ((arrowIdStr c0, cloneArrowAt a (arrowIdStr c0) nf0 nt0)
                  :: extra).length
              simp only [List.length_cons]
              omega
            · show (out0 ++ [arrowIdStr c0]) ++
                  (List.range' (c0 + 1) extra.length).map arrowIdStr = _
              rw [List.append_assoc]
              rfl
          · rw [JMap.keys_cons, h2]
            rfl
          · intro id2 hid2 a2 ha2 nf nt hnf hnt
            rcases List.mem_cons.mp hid2 with rfl | hid2
            · rw [hget] at ha2
              cases ha2
              rw [hf] at hnf
              cases hnf
              rw [ht] at hnt
              cases hnt
              refine ⟨arrowIdStr c0, List.mem_cons_self _ _, ?_⟩
              rw [JMap.get?_cons, if_pos rfl]
            · have hga2 : JMap.get?
                  (acc.addArrow
                    (cloneArrowAt a (arrowIdStr c0) nf0 nt0)).arrows id2 =
                  some a2 := by
                rw [happend, get?_append, ha2]
              obtain ⟨nid, hnidmem, hnidget⟩ :=
                h3 id2 hid2 a2 hga2 nf nt hnf hnt
              have hnidform : nid ∈
                  (List.range' (c0+1) extra.length).map arrowIdStr :=
                h2 ▸ hnidmem
              have hne2 : arrowIdStr c0 ≠ nid := by
                intro hc
                rcases List.mem_map.mp hnidform with ⟨j, hj, hjeq⟩
                rcases List.mem_range'_1.mp hj with ⟨hj1, -⟩
                have := arrowIdStr_inj (hc.trans hjeq.symm)
                omega
              refine ⟨nid, ?_, ?_⟩
              · rw [JMap.keys_cons]
                exact List.mem_cons_of_mem _ hnidmem
              · rw [JMap.get?_cons, if_neg hne2]
                exact hnidget
          · intro hneg
            exfalso
            rcases hneg id (List.mem_cons_self _ _) a hget with hc | hc
            · rw [hf] at hc
              cases hc
            · rw [ht] at hc
              cases hc

theorem clearSelection_textLabels_get? (d : Diagram) (k : String)
    (h : k ∉ d.selectedElementIds) :
    d.clearSelection.textLabels.get? k = d.textLabels.get? k := by
  rw [Diagram.clearSelection]
  have hfold : (d.selectedElementIds.foldl (fun acc id =>
      { acc with
        nodes := acc.nodes.update id (·.setSelected false)
        arrows := acc.arrows.update id (·.setSelected false)
        textLabels := acc.textLabels.update id (·.setSelected false)
        whiteboards := acc.whiteboards.update id (·.setSelected false) }) d
      ).textLabels.get? k = d.textLabels.get? k := by
    refine foldl_preserves_mem (P := fun (x : Diagram) =>
      x.textLabels.get? k = d.textLabels.get? k) _ ?_ _ rfl
    intro acc id hid hacc
    have hne : k ≠ id := fun hc => h (hc ▸ hid)
    show (acc.textLabels.update id (·.setSelected false)).get? k = _
    rw [JMap.get?_update_ne _ _ _ _ hne, hacc]
  exact hfold

theorem clearSelection_arrows_get? (d : Diagram) (k : String)
    (h : k ∉ d.selectedElementIds) :
    d.clearSelection.arrows.get? k = d.arrows.get? k := by
  rw [Diagram.clearSelection]
  have hfold : (d.selectedElementIds.foldl (fun acc id =>
      { acc with
        nodes := acc.nodes.update id (·.setSelected false)
        arrows := acc.arrows.update id (·.setSelected false)
        textLabels := acc.textLabels.update id (·.setSelected false)
        whiteboards := acc.whiteboards.update id (·.setSelected false) }) d
      ).arrows.get? k = d.arrows.get? k := by
    refine foldl_preserves_mem (P := fun (x : Diagram) =>
      x.arrows.get? k = d.arrows.get? k) _ ?_ _ rfl
    intro acc id hid hacc
    have hne : k ≠ id := fun hc => h (hc ▸ hid)
    show (acc.arrows.update id (·.setSelected false)).get? k = _
    rw [JMap.get?_update_ne _ _ _ _ hne, hacc]
  exact hfold

theorem clearSelection_nodes_keys (d : Diagram) :
    JMap.keys d.clearSelection.nodes = JMap.keys d.nodes := by
  rw [Diagram.clearSelection]
  have hfold : JMap.keys ((d.selectedElementIds.foldl (fun acc id =>
      { acc with
        nodes := acc.nodes.update id (·.setSelected false)
        arrows := acc.arrows.update id (·.setSelected false)
        textLabels := acc.textLabels.update id (·.setSelected false)
        whiteboards := acc.whiteboards.update id (·.setSelected false) }) d
      ).nodes) = JMap.keys d.nodes := by
    refine foldl_preserves (P := fun (x : Diagram) =>
      JMap.keys x.nodes = JMap.keys d.nodes) ?_ _ _ rfl
    intro acc id hacc
    show JMap.keys (acc.nodes.update id (·.setSelected false)) = _
    rw [JMap.keys_update, hacc]
  exact hfold

theorem clearSelection_arrows_keys (d : Diagram) :
    JMap.keys d.clearSelection.arrows = JMap.keys d.arrows := by
  rw [Diagram.clearSelection]
  have hfold : JMap.keys ((d.selectedElementIds.foldl (fun acc id =>
      { acc with
        nodes := acc.nodes.update id (·.setSelected false)
        arrows := acc.arrows.update id (·.setSelected false)
        textLabels := acc.textLabels.update id (·.setSelected false)
        whiteboards := acc.whiteboards.update id (·.setSelected false) }) d
      ).arrows) = JMap.keys d.arrows := by
    refine foldl_preserves (P := fun (x : Diagram) =>
      JMap.keys x.arrows = JMap.keys d.arrows) ?_ _ _ rfl
    intro acc id hacc
    show JMap.keys (acc.arrows.update id (·.setSelected false)) = _
    rw [JMap.keys_update, hacc]
  exact hfold

theorem foldl_selectOne_nodes_notin (l : List String) (d0 : Diagram)
    (k : String) (h : k ∉ l) :
    (l.foldl Diagram.selectOneNoWb d0).nodes.get? k = d0.nodes.get? k := by
  induction l generalizing d0 with
  | nil => rfl
  | cons i tl ih =>
    rw [List.foldl_cons]
    have hne : k ≠ i := fun hc => h (hc ▸ List.mem_cons_self i tl)
    rw [ih _ (fun hc => h (List.mem_cons_of_mem i hc))]
    show (d0.nodes.update i (·.setSelected true)).get? k = _
    rw [JMap.get?_update_ne _ _ _ _ hne]

theorem foldl_selectOne_nodes_mem (l : List String) (d0 : Diagram)
    (k : String) (h : k ∈ l) :
    (l.foldl Diagram.selectOneNoWb d0).nodes.get? k =
      (d0.nodes.get? k).map (·.setSelected true) := by
  induction l generalizing d0 with
  | nil => exact absurd h (List.not_mem_nil k)
  | cons i tl ih =>
    rw [List.foldl_cons]
    by_cases htl : k ∈ tl
    · rw [ih _ htl]
      show ((d0.nodes.update i (·.setSelected true)).get? k).map _ = _
      by_cases hik : k = i
      · subst hik
        rw [JMap.get?_update_self]
        cases d0.nodes.get? k <;> rfl
      · rw [JMap.get?_update_ne _ _ _ _ hik]
    · have hk : k = i := by
        rcases List.mem_cons.mp h with h1 | h1
        · exact h1
        · exact absurd h1 htl
      subst hk
      rw [foldl_selectOne_nodes_notin tl _ k htl]
      show (d0.nodes.update k (·.setSelected true)).get? k = _
      rw [JMap.get?_update_self]

theorem foldl_selectOne_labels_notin (l : List String) (d0 : Diagram)
    (k : String) (h : k ∉ l) :
    (l.foldl Diagram.selectOneNoWb d0).textLabels.get? k =
      d0.textLabels.get? k := by
  induction l generalizing d0 with
  | nil => rfl
  | cons i tl ih =>
    rw [List.foldl_cons]
    have hne : k ≠ i := fun hc => h (hc ▸ List.mem_cons_self i tl)
    rw [ih _ (fun hc => h (List.mem_cons_of_mem i hc))]
    show (d0.textLabels.update i (·.setSelected true)).get? k = _
    rw [JMap.get?_update_ne _ _ _ _ hne]

theorem foldl_selectOne_labels_mem (l : List String) (d0 : Diagram)
    (k : String) (h : k ∈ l) :
    (l.foldl Diagram.selectOneNoWb d0).textLabels.get? k =
      (d0.textLabels.get? k).map (·.setSelected true) := by
  induction l generalizing d0 with
  | nil => exact absurd h (List.not_mem_nil k)
  | cons i tl ih =>
    rw [List.foldl_cons]
    by_cases htl : k ∈ tl
    · rw [ih _ htl]
      show ((d0.textLabels.update i (·.setSelected true)).get? k).map _ = _
      by_cases hik : k = i
      · subst hik
        rw [JMap.get?_update_self]
        cases d0.textLabels.get? k <;> rfl
      · rw [JMap.get?_update_ne _ _ _ _ hik]
    · have hk : k = i := by
        rcases List.mem_cons.mp h with h1 | h1
        · exact h1
        · exact absurd h1 htl
      subst hk
      rw [foldl_selectOne_labels_notin tl _ k htl]
      show (d0.textLabels.update k (·.setSelected true)).get? k = _
      rw [JMap.get?_update_self]

theorem foldl_selectOne_arrows_notin (l : List String) (d0 : Diagram)
    (k : String) (h : k ∉ l) :
    (l.foldl Diagram.selectOneNoWb d0).arrows.get? k = d0.arrows.get? k := by
  induction l generalizing d0 with
  | nil => rfl
  | cons i tl ih =>
    rw [List.foldl_cons]
    have hne : k ≠ i := fun hc => h (hc ▸ List.mem_cons_self i tl)
    rw [ih _ (fun hc => h (List.mem_cons_of_mem i hc))]
    show (d0.arrows.update i (·.setSelected true)).get? k = _
    rw [JMap.get?_update_ne _ _ _ _ hne]

theorem foldl_selectOne_arrows_mem (l : List String) (d0 : Diagram)
    (k : String) (h : k ∈ l) :
    (l.foldl Diagram.selectOneNoWb d0).arrows.get? k =
      (d0.arrows.get? k).map (·.setSelected true) := by
  induction l generalizing d0 with
  | nil => exact absurd h (List.not_mem_nil k)
  | cons i tl ih =>
    rw [List.foldl_cons]
    by_cases htl : k ∈ tl
    · rw [ih _ htl]
      show ((d0.arrows.update i (·.setSelected true)).get? k).map _ = _
      by_cases hik : k = i
      · subst hik
        rw [JMap.get?_update_self]
        cases d0.arrows.get? k <;> rfl
      · rw [JMap.get?_update_ne _ _ _ _ hik]
    · have hk : k = i := by
        rcases List.mem_cons.mp h with h1 | h1
        · exact h1
        · exact absurd h1 htl
      subst hk
      rw [foldl_selectOne_arrows_notin tl _ k htl]
      show (d0.arrows.update k (·.setSelected true)).get? k = _
      rw [JMap.get?_update_self]

theorem foldl_selectOne_nodes_keys (l : List String) (d0 : Diagram) :
    JMap.keys (l.foldl Diagram.selectOneNoWb d0).nodes =
      JMap.keys d0.nodes := by
  induction l generalizing d0 with
  | nil => rfl
  | cons i tl ih =>
    rw [List.foldl_cons, ih]
    show JMap.keys (d0.nodes.update i (·.setSelected true)) = _
    rw [JMap.keys_update]

theorem foldl_selectOne_arrows_keys (l : List String) (d0 : Diagram) :
    JMap.keys (l.foldl Diagram.selectOneNoWb d0).arrows =
      JMap.keys d0.arrows := by
  induction l generalizing d0 with
  | nil => rfl
  | cons i tl ih =>
    rw [List.foldl_cons, ih]
    show JMap.keys (d0.arrows.update i (·.setSelected true)) = _
    rw [JMap.keys_update]

/-- C4 (confirmed): under counter freshness (which the global monotone
counters guarantee in the running app), duplicateSelected selects
exactly the freshly minted entities (the old selection is gone), clones
every selected node and text label with a +20/+20 offset, a fresh id
and everything else copied, clones a selected arrow onto the fresh
endpoint clones whenever both endpoint nodes were also selected, and
mints no arrow at all when no selected arrow has both endpoints
selected — in particular, with only node A of an arrow A→B selected,
the result gains the clone A' and no arrow. -/
theorem C4_duplicateSelected (d : Diagram) (c : Counters)
    (hfresh : dupFreshB d c = true) :
    ((d.duplicateSelected c).1.selectedElementIds =
      (d.duplicateSelected c).2.2) ∧
    (∀ x ∈ (d.duplicateSelected c).2.2, x ∉ d.selectedElementIds) ∧
    (∀ id n, id ∈ d.selectedElementIds → d.nodes.get? id = some n →
      ∃ nid, nid ∈ (d.duplicateSelected c).2.2 ∧
        JMap.hasKey d.nodes nid = false ∧
        (d.duplicateSelected c).1.nodes.get? nid =
          some ((cloneNodeAt n nid).setSelected true)) ∧
    (∀ id l, id ∈ d.selectedElementIds → d.textLabels.get? id = some l →
      ∃ nid, nid ∈ (d.duplicateSelected c).2.2 ∧
        JMap.hasKey d.textLabels nid = false ∧
        (d.duplicateSelected c).1.textLabels.get? nid =
          some ((cloneLabelAt l nid).setSelected true)) ∧
    (∀ id a, id ∈ d.selectedElementIds → d.arrows.get? id = some a →
      a.fromId ∈ d.selectedElementIds → JMap.hasKey d.nodes a.fromId = true →
      a.toId ∈ d.selectedElementIds → JMap.hasKey d.nodes a.toId = true →
      ∃ nid nf nt, nid ∈ (d.duplicateSelected c).2.2 ∧
        JMap.hasKey d.arrows nid = false ∧
        (d.duplicateSelected c).1.arrows.get? nid =
          some ((cloneArrowAt a nid nf nt).setSelected true) ∧
        JMap.hasKey (d.duplicateSelected c).1.nodes nf = true ∧
        JMap.hasKey (d.duplicateSelected c).1.nodes nt = true) ∧
    ((∀ id a, id ∈ d.selectedElementIds → d.arrows.get? id = some a →
        ¬(a.fromId ∈ d.selectedElementIds ∧
          JMap.hasKey d.nodes a.fromId = true ∧
          a.toId ∈ d.selectedElementIds ∧
          JMap.hasKey d.nodes a.toId = true)) →
      JMap.keys (d.duplicateSelected c).1.arrows = JMap.keys d.arrows) := by
  have hfr : ∀ i, i < d.selectedElementIds.length →
      JMap.hasKey d.nodes (nodeIdStr (c.node + i)) = false ∧
      JMap.hasKey d.textLabels (textIdStr (c.text + i)) = false ∧
      JMap.hasKey d.arrows (arrowIdStr (c.arrow + i)) = false ∧
      nodeIdStr (c.node + i) ∉ d.selectedElementIds ∧
      textIdStr (c.text + i) ∉ d.selectedElementIds ∧
      arrowIdStr (c.arrow + i) ∉ d.selectedElementIds := by
    intro i hi
    rw [dupFreshB, List.all_eq_true] at hfresh
    have hh := hfresh i (List.mem_range.mpr hi)
    simp only [Bool.and_eq_true, Bool.not_eq_true'] at hh
    obtain ⟨⟨⟨⟨⟨h1, h2⟩, h3⟩, h4⟩, h5⟩, h6⟩ := hh
    refine ⟨h1, h2, h3, ?_, ?_, ?_⟩
    · intro hmem
      simp [hmem] at h4
    · intro hmem
      simp [hmem] at h5
    · intro hmem
      simp [hmem] at h6
  have HFn : ∀ j, c.node ≤ j → j < c.node + d.selectedElementIds.length →
      JMap.hasKey d.nodes (nodeIdStr j) = false ∧
      nodeIdStr j ∉ d.selectedElementIds := by
    intro j hj1 hj2
    have hi := hfr (j - c.node) (by omega)
    have he : c.node + (j - c.node) = j := by omega
    rw [he] at hi
    exact ⟨hi.1, hi.2.2.2.1⟩
  obtain ⟨exN, exM, hN1, hN2, hN3, hN4, hN5, hN6⟩ :=
    dupNodes_fold_char d.selectedElementIds d c.node [] [] HFn
  have hDN : Diagram.dupNodes d c.node d.selectedElementIds =
      (⟨d.nodes ++ exN, d.arrows, d.textLabels, d.whiteboards,
        d.selectedElementIds⟩, c.node + exN.length, [] ++ exM,
        [] ++ (List.range' c.node exN.length).map nodeIdStr) :=
    (dupNodes_eq_fold d c.node d.selectedElementIds).trans hN1
  have HFt : ∀ j, c.text ≤ j → j < c.text + d.selectedElementIds.length →
      JMap.hasKey (⟨d.nodes ++ exN, d.arrows, d.textLabels, d.whiteboards,
        d.selectedElementIds⟩ : Diagram).textLabels (textIdStr j) = false ∧
      textIdStr j ∉ d.selectedElementIds := by
    intro j hj1 hj2
    have hi := hfr (j - c.text) (by omega)
    have he : c.text + (j - c.text) = j := by omega
    rw [he] at hi
    exact ⟨hi.2.1, hi.2.2.2.2.1⟩
  obtain ⟨exT, hT1, hT2, hT3, hT4⟩ :=
    dupLabels_fold_char d.selectedElementIds
      ⟨d.nodes ++ exN, d.arrows, d.textLabels, d.whiteboards,
        d.selectedElementIds⟩ c.text [] HFt
  have hDL : Diagram.dupLabels
      (⟨d.nodes ++ exN, d.arrows, d.textLabels, d.whiteboards,
        d.selectedElementIds⟩ : Diagram) c.text d.selectedElementIds =
      (⟨d.nodes ++ exN, d.arrows, d.textLabels ++ exT, d.whiteboards,
        d.selectedElementIds⟩, c.text + exT.length,
        [] ++ (List.range' c.text exT.length).map textIdStr) :=
    (dupLabels_eq_fold _ c.text d.selectedElementIds).trans hT1
  have HFa : ∀ j, c.arrow ≤ j → j < c.arrow + d.selectedElementIds.length →
      JMap.hasKey (⟨d.nodes ++ exN, d.arrows, d.textLabels ++ exT,
        d.whiteboards, d.selectedElementIds⟩ : Diagram).arrows
        (arrowIdStr j) = false ∧
      arrowIdStr j ∉ d.selectedElementIds := by
    intro j hj1 hj2
    have hi := hfr (j - c.arrow) (by omega)
    have he : c.arrow + (j - c.arrow) = j := by omega
    rw [he] at hi
    exact ⟨hi.2.2.1, hi.2.2.2.2.2⟩
  obtain ⟨exA, hA1, hA2, hA3, hA4, hA5⟩ :=
    dupArrows_fold_char d.selectedElementIds exM
      ⟨d.nodes ++ exN, d.arrows, d.textLabels ++ exT, d.whiteboards,
        d.selectedElementIds⟩ c.arrow [] HFa
  have hDA : Diagram.dupArrows
      (⟨d.nodes ++ exN, d.arrows, d.textLabels ++ exT, d.whiteboards,
        d.selectedElementIds⟩ : Diagram) c.arrow exM d.selectedElementIds =
      (⟨d.nodes ++ exN, d.arrows ++ exA, d.textLabels ++ exT, d.whiteboards,
        d.selectedElementIds⟩, c.arrow + exA.length,
        [] ++ (List.range' c.arrow exA.length).map arrowIdStr) :=
    (dupArrows_eq_fold _ c.arrow exM d.selectedElementIds).trans hA1
  have hdup : d.duplicateSelected c =
      (Diagram.selectElements
        (Diagram.clearSelection
          ⟨d.nodes ++ exN, d.arrows ++ exA, d.textLabels ++ exT,
            d.whiteboards, d.selectedElementIds⟩)
        (((List.range' c.node exN.length).map nodeIdStr ++
          (List.range' c.text exT.length).map textIdStr) ++
          (List.range' c.arrow exA.length).map arrowIdStr) false,
       ⟨c.node + exN.length, c.arrow + exA.length, c.text + exT.length,
         c.wb⟩,
       ((List.range' c.node exN.length).map nodeIdStr ++
        (List.range' c.text exT.length).map textIdStr) ++
        (List.range' c.arrow exA.length).map arrowIdStr) := by
    rw [Diagram.duplicateSelected]
    rw [hDN]
    dsimp only [List.nil_append]
    rw [hDL]
    dsimp only [List.nil_append]
    rw [hDA]
    dsimp only [List.nil_append]
  have hinjN : Function.Injective nodeIdStr := fun a b h => nodeIdStr_inj h
  have hinjT : Function.Injective textIdStr := fun a b h => textIdStr_inj h
  have hinjA : Function.Injective arrowIdStr := fun a b h => arrowIdStr_inj h
  have hndN : ((List.range' c.node exN.length).map nodeIdStr).Nodup :=
    (List.nodup_range' _ _).map hinjN
  have hndT : ((List.range' c.text exT.length).map textIdStr).Nodup :=
    (List.nodup_range' _ _).map hinjT
  have hndA : ((List.range' c.arrow exA.length).map arrowIdStr).Nodup :=
    (List.nodup_range' _ _).map hinjA
  have hnodupNew : (((List.range' c.node exN.length).map nodeIdStr ++
      (List.range' c.text exT.length).map textIdStr) ++
      (List.range' c.arrow exA.length).map arrowIdStr).Nodup := by
    rw [List.nodup_append]
    refine ⟨?_, hndA, ?_⟩
    · rw [List.nodup_append]
      refine ⟨hndN, hndT, ?_⟩
      intro x hxN hxT
      rcases List.mem_map.mp hxN with ⟨j1, -, rfl⟩
      rcases List.mem_map.mp hxT with ⟨j2, -, hx2⟩
      exact nodeIdStr_ne_textIdStr j1 j2 hx2.symm
    · intro x hxNT hxA
      rcases List.mem_map.mp hxA with ⟨j3, -, hx3⟩
      rcases List.mem_append.mp hxNT with hxN | hxT
      · rcases List.mem_map.mp hxN with ⟨j1, -, rfl⟩
        exact nodeIdStr_ne_arrowIdStr j1 j3 hx3.symm
      · rcases List.mem_map.mp hxT with ⟨j2, -, rfl⟩
        exact textIdStr_ne_arrowIdStr j2 j3 hx3.symm
  have hmemNotSel : ∀ x ∈ (((List.range' c.node exN.length).map nodeIdStr ++
      (List.range' c.text exT.length).map textIdStr) ++
      (List.range' c.arrow exA.length).map arrowIdStr),
      x ∉ d.selectedElementIds := by
    intro x hx
    rcases List.mem_append.mp hx with hx1 | hx1
    · rcases List.mem_append.mp hx1 with hx2 | hx2
      · rcases List.mem_map.mp hx2 with ⟨j, hj, rfl⟩
        obtain ⟨hj1, hj2⟩ := List.mem_range'_1.mp hj
        have hi := hfr (j - c.node) (by omega)
        have he : c.node + (j - c.node) = j := by omega
        rw [he] at hi
        exact hi.2.2.2.1
      · rcases List.mem_map.mp hx2 with ⟨j, hj, rfl⟩
        obtain ⟨hj1, hj2⟩ := List.mem_range'_1.mp hj
        have hi := hfr (j - c.text) (by omega)
        have he : c.text + (j - c.text) = j := by omega
        rw [he] at hi
        exact hi.2.2.2.2.1
    · rcases List.mem_map.mp hx1 with ⟨j, hj, rfl⟩
      obtain ⟨hj1, hj2⟩ := List.mem_range'_1.mp hj
      have hi := hfr (j - c.arrow) (by omega)
      have he : c.arrow + (j - c.arrow) = j := by omega
      rw [he] at hi
      exact hi.2.2.2.2.2
  rw [hdup]
  dsimp only
  refine ⟨?_, hmemNotSel, ?_, ?_, ?_, ?_⟩
  · exact selectElements_sel _ _ hnodupNew
  · intro id n hid hn
    obtain ⟨nid, hmm⟩ := hN5 id hid n hn
    obtain ⟨-, n', hgn', hgx⟩ := hN4 (id, nid) hmm
    rw [hn] at hgn'
    have hnn : n' = n := (Option.some.inj hgn').symm
    subst hnn
    have hnidN : nid ∈ (List.range' c.node exN.length).map nodeIdStr :=
      hN3 ▸ (List.mem_map.mpr ⟨(id, nid), hmm, rfl⟩)
    have hmemNew : nid ∈ (((List.range' c.node exN.length).map nodeIdStr ++
        (List.range' c.text exT.length).map textIdStr) ++
        (List.range' c.arrow exA.length).map arrowIdStr) :=
      List.mem_append.mpr (Or.inl (List.mem_append.mpr (Or.inl hnidN)))
    rcases List.mem_map.mp hnidN with ⟨j, hj, rfl⟩
    obtain ⟨hj1, hj2⟩ := List.mem_range'_1.mp hj
    have hi := hfr (j - c.node) (by omega)
    have he : c.node + (j - c.node) = j := by omega
    rw [he] at hi
    refine ⟨nodeIdStr j, hmemNew, hi.1, ?_⟩
    rw [Diagram.selectElements]
    rw [if_neg Bool.false_ne_true]
    rw [foldl_selectOne_nodes_mem _ _ _ hmemNew]
    rw [clearSelection_nodes_get?
      (Diagram.clearSelection ⟨d.nodes ++ exN, d.arrows ++ exA, d.textLabels ++ exT, d.whiteboards,
        d.selectedElementIds⟩) (nodeIdStr j) (by
        rw [clearSelection_selectedElementIds]
        exact List.not_mem_nil _)]
    rw [clearSelection_nodes_get?
      ⟨d.nodes ++ exN, d.arrows ++ exA, d.textLabels ++ exT, d.whiteboards,
        d.selectedElementIds⟩ (nodeIdStr j) hi.2.2.2.1]
    show ((JMap.get? (d.nodes ++ exN) (nodeIdStr j)).map _) = _
    rw [get?_append_right _ _ _ hi.1, hgx]
    rfl
  · intro id l hid hl
    obtain ⟨nid, hmemK, hgx⟩ := hT3 id hid l hl
    have hnidT : nid ∈ (List.range' c.text exT.length).map textIdStr :=
      hT2 ▸ hmemK
    have hmemNew : nid ∈ (((List.range' c.node exN.length).map nodeIdStr ++
        (List.range' c.text exT.length).map textIdStr) ++
        (List.range' c.arrow exA.length).map arrowIdStr) :=
      List.mem_append.mpr (Or.inl (List.mem_append.mpr (Or.inr hnidT)))
    rcases List.mem_map.mp hnidT with ⟨j, hj, rfl⟩
    obtain ⟨hj1, hj2⟩ := List.mem_range'_1.mp hj
    have hi := hfr (j - c.text) (by omega)
    have he : c.text + (j - c.text) = j := by omega
    rw [he] at hi
    refine ⟨textIdStr j, hmemNew, hi.2.1, ?_⟩
    rw [Diagram.selectElements]
    rw [if_neg Bool.false_ne_true]
    rw [foldl_selectOne_labels_mem _ _ _ hmemNew]
    rw [clearSelection_textLabels_get?
      (Diagram.clearSelection ⟨d.nodes ++ exN, d.arrows ++ exA, d.textLabels ++ exT, d.whiteboards,
        d.selectedElementIds⟩) (textIdStr j) (by
        rw [clearSelection_selectedElementIds]
        exact List.not_mem_nil _)]
    rw [clearSelection_textLabels_get?
      ⟨d.nodes ++ exN, d.arrows ++ exA, d.textLabels ++ exT, d.whiteboards,
        d.selectedElementIds⟩ (textIdStr j) hi.2.2.2.2.1]
    show ((JMap.get? (d.textLabels ++ exT) (textIdStr j)).map _) = _
    rw [get?_append_right _ _ _ hi.2.1, hgx]
    rfl
  · intro id a hid ha hfsel hfnode htsel htnode
    have hfn : ∃ nfv, JMap.get? d.nodes a.fromId = some nfv := by
      rw [JMap.hasKey_eq_isSome_get?] at hfnode
      cases hg : JMap.get? d.nodes a.fromId
      · rw [hg] at hfnode
        cases hfnode
      · exact ⟨_, rfl⟩
    obtain ⟨nfv, hgf⟩ := hfn
    obtain ⟨nf0, hmf⟩ := hN5 a.fromId hfsel nfv hgf
    have htn : ∃ ntv, JMap.get? d.nodes a.toId = some ntv := by
      rw [JMap.hasKey_eq_isSome_get?] at htnode
      cases hg : JMap.get? d.nodes a.toId
      · rw [hg] at htnode
        cases htnode
      · exact ⟨_, rfl⟩
    obtain ⟨ntv, hgt⟩ := htn
    obtain ⟨nt0, hmt⟩ := hN5 a.toId htsel ntv hgt
    have hfsome : (List.find? (fun kv => decide (kv.1 = a.fromId)) exM).isSome
        = true := by
      rw [List.find?_isSome]
      exact ⟨(a.fromId, nf0), hmf, by simp⟩
    have htsome : (List.find? (fun kv => decide (kv.1 = a.toId)) exM).isSome
        = true := by
      rw [List.find?_isSome]
      exact ⟨(a.toId, nt0), hmt, by simp⟩
    obtain ⟨kvf, hkvf⟩ := Option.isSome_iff_exists.mp hfsome
    obtain ⟨kvt, hkvt⟩ := Option.isSome_iff_exists.mp htsome
    have hkvf1 : kvf.1 = a.fromId := by
      have := List.find?_some hkvf
      simpa using this
    have hkvt1 : kvt.1 = a.toId := by
      have := List.find?_some hkvt
      simpa using this
    obtain ⟨nid, hnidmem, hnidget⟩ := hA3 id hid a ha kvf.2 kvt.2
      (by rw [hkvf]; rfl) (by rw [hkvt]; rfl)
    have hnidA : nid ∈ (List.range' c.arrow exA.length).map arrowIdStr :=
      hA2 ▸ hnidmem
    have hmemNew : nid ∈ (((List.range' c.node exN.length).map nodeIdStr ++
        (List.range' c.text exT.length).map textIdStr) ++
        (List.range' c.arrow exA.length).map arrowIdStr) :=
      List.mem_append.mpr (Or.inr hnidA)
    rcases List.mem_map.mp hnidA with ⟨j, hj, rfl⟩
    obtain ⟨hj1, hj2⟩ := List.mem_range'_1.mp hj
    have hi := hfr (j - c.arrow) (by omega)
    have he : c.arrow + (j - c.arrow) = j := by omega
    rw [he] at hi
    have hkeysFinal : ∀ k, k ∈ JMap.keys exN →
        JMap.hasKey (Diagram.selectElements
          (Diagram.clearSelection
            ⟨d.nodes ++ exN, d.arrows ++ exA, d.textLabels ++ exT,
              d.whiteboards, d.selectedElementIds⟩)
          (((List.range' c.node exN.length).map nodeIdStr ++
            (List.range' c.text exT.length).map textIdStr) ++
            (List.range' c.arrow exA.length).map arrowIdStr) false).nodes k
          = true := by
      intro k hk
      rw [JMap.hasKey_eq_mem_keys]
      rw [Diagram.selectElements]
      rw [if_neg Bool.false_ne_true]
      rw [foldl_selectOne_nodes_keys]
      rw [clearSelection_nodes_keys, clearSelection_nodes_keys]
      show k ∈ JMap.keys (d.nodes ++ exN)
      rw [keys_append]
      exact List.mem_append.mpr (Or.inr hk)
    have hkf : kvf.2 ∈ JMap.keys exN := by
      obtain ⟨-, nv, -, hgv⟩ := hN4 kvf (List.mem_of_find?_eq_some hkvf)
      have := get?_eq_some_mem_pair _ _ _ hgv
      exact List.mem_map.mpr ⟨_, this, rfl⟩
    have hkt : kvt.2 ∈ JMap.keys exN := by
      obtain ⟨-, nv, -, hgv⟩ := hN4 kvt (List.mem_of_find?_eq_some hkvt)
      have := get?_eq_some_mem_pair _ _ _ hgv
      exact List.mem_map.mpr ⟨_, this, rfl⟩
    refine ⟨arrowIdStr j, kvf.2, kvt.2, hmemNew, hi.2.2.1, ?_,
      hkeysFinal _ hkf, hkeysFinal _ hkt⟩
    rw [Diagram.selectElements]
    rw [if_neg Bool.false_ne_true]
    rw [foldl_selectOne_arrows_mem _ _ _ hmemNew]
    rw [clearSelection_arrows_get?
      (Diagram.clearSelection ⟨d.nodes ++ exN, d.arrows ++ exA, d.textLabels ++ exT, d.whiteboards,
        d.selectedElementIds⟩) (arrowIdStr j) (by
        rw [clearSelection_selectedElementIds]
        exact List.not_mem_nil _)]
    rw [clearSelection_arrows_get?
      ⟨d.nodes ++ exN, d.arrows ++ exA, d.textLabels ++ exT, d.whiteboards,
        d.selectedElementIds⟩ (arrowIdStr j) hi.2.2.2.2.2]
    show ((JMap.get? (d.arrows ++ exA) (arrowIdStr j)).map _) = _
    rw [get?_append_right _ _ _ hi.2.2.1, hnidget]
    rfl
  · intro hno
    have hA0 : exA = [] := by
      apply hA4
      intro id hid a ha
      cases hf : List.find? (fun kv => decide (kv.1 = a.fromId)) exM with
      | none => exact Or.inl rfl
      | some kvf =>
        cases ht2 : List.find? (fun kv => decide (kv.1 = a.toId)) exM with
        | none => exact Or.inr rfl
        | some kvt =>
          exfalso
          have hkvf1 : kvf.1 = a.fromId := by
            have := List.find?_some hf
            simpa using this
          have hkvt1 : kvt.1 = a.toId := by
            have := List.find?_some ht2
            simpa using this
          obtain ⟨hselF, nv1, hgv1, -⟩ :=
            hN4 kvf (List.mem_of_find?_eq_some hf)
          obtain ⟨hselT, nv2, hgv2, -⟩ :=
            hN4 kvt (List.mem_of_find?_eq_some ht2)
          refine hno id a hid ha ⟨hkvf1 ▸ hselF, ?_, hkvt1 ▸ hselT, ?_⟩
          · rw [JMap.hasKey_eq_isSome_get?, ← hkvf1, hgv1]
            rfl
          · rw [JMap.hasKey_eq_isSome_get?, ← hkvt1, hgv2]
            rfl
    rw [hA0]
    rw [Diagram.selectElements]
    rw [if_neg Bool.false_ne_true]
    rw [foldl_selectOne_arrows_keys]
    rw [clearSelection_arrows_keys, clearSelection_arrows_keys]
    show JMap.keys (d.arrows ++ []) = _
    simp

theorem C4_witness :
    dupFreshB dC4 cAB = true ∧
    ((dC4.duplicateSelected cAB).1.selectedElementIds =
      (dC4.duplicateSelected cAB).2.2) ∧
    (∃ nid, nid ∈ (dC4.duplicateSelected cAB).2.2 ∧
      JMap.hasKey dC4.nodes nid = false ∧
      (dC4.duplicateSelected cAB).1.nodes.get? nid =
        some ((cloneNodeAt (nA.setSelected true) nid).setSelected true)) ∧
    JMap.keys (dC4.duplicateSelected cAB).1.arrows =
      JMap.keys dC4.arrows := by
  obtain ⟨h1, h2, h3, h4, h5, h6⟩ := C4_duplicateSelected dC4 cAB rfl
  refine ⟨rfl, h1, ?_, ?_⟩
  · exact h3 nA.id (nA.setSelected true) (by decide) rfl
  · apply h6
    intro id a hid ha
    have hideq : id = nA.id := by
      have : id ∈ [nA.id] := hid
      simpa using this
    subst hideq
    rw [show JMap.get? dC4.arrows nA.id = none from rfl] at ha
    cases ha

theorem dist2_nonneg (p q : Pt) : 0 ≤ Pt.dist2 p q := by
  rw [Pt.dist2]
  positivity

theorem f_expand (s e p : Pt) (t : ℚ) :
    Pt.dist2 p (lerp s e t) =
      Pt.dist2 s e * t ^ 2 -
        2 * ((p.x - s.x) * (e.x - s.x) + (p.y - s.y) * (e.y - s.y)) * t +
        Pt.dist2 p s := by
  simp only [Pt.dist2, lerp]
  ring

theorem clamp_min (D N : ℚ) (hD : 0 < D) (t : ℚ) (h0 : 0 ≤ t) (h1 : t ≤ 1) :
    D * (max 0 (min 1 (N / D))) ^ 2 - 2 * N * (max 0 (min 1 (N / D))) ≤
      D * t ^ 2 - 2 * N * t := by
  have hN : N = (N / D) * D := by
    field_simp
  set t0 := N / D with ht0
  rcases le_or_lt t0 0 with hc | hc
  · have hu : max 0 (min 1 t0) = 0 := by
      rw [min_eq_right (hc.trans zero_le_one), max_eq_left hc]
    rw [hu]
    nlinarith [mul_nonneg h0 (neg_nonneg.mpr hc), sq_nonneg t]
  · rcases le_or_lt t0 1 with hc1 | hc1
    · have hu : max 0 (min 1 t0) = t0 := by
        rw [min_eq_right hc1, max_eq_right hc.le]
      rw [hu]
      nlinarith [sq_nonneg (t - t0)]
    · have hu : max 0 (min 1 t0) = 1 := by
        rw [min_eq_left hc1.le, max_eq_right zero_le_one]
      rw [hu]
      nlinarith [mul_nonneg (mul_nonneg hD.le (sub_nonneg.mpr h1))
        (show (0:ℚ) ≤ 2 * t0 - 1 - t by nlinarith)]

/-- The clamped-projection test of Arrow.containsPoint is exactly
"some point of the closed segment is within the threshold" (stated with
the squared distance; by sqrtLeB_correct this is the real-distance
comparison for a nonnegative threshold). -/
theorem segContains_iff (s e p : Pt) (thr : ℚ) :
    segContains s e p thr = true ↔
      (Pt.dist2 s e ≠ 0 ∧ 0 ≤ thr ∧
        ∃ t, 0 ≤ t ∧ t ≤ 1 ∧ Pt.dist2 p (lerp s e t) ≤ thr ^ 2) := by
  rw [segContains]
  dsimp only
  by_cases hl : Pt.dist2 s e = 0
  · rw [if_pos hl]
    simp [hl]
  · rw [if_neg hl]
    rw [sqrtLeB]
    simp only [decide_eq_true_eq]
    have hD : 0 < Pt.dist2 s e := lt_of_le_of_ne (dist2_nonneg s e) (Ne.symm hl)
    constructor
    · rintro ⟨hthr, hle⟩
      refine ⟨hl, hthr,
        max 0 (min 1 (((p.x - s.x) * (e.x - s.x) +
          (p.y - s.y) * (e.y - s.y)) / Pt.dist2 s e)),
        le_max_left _ _, ?_, ?_⟩
      · exact max_le zero_le_one (min_le_left _ _)
      · exact hle
    · rintro ⟨-, hthr, t, h0, h1, hle⟩
      refine ⟨hthr, ?_⟩
      have hmin := clamp_min (Pt.dist2 s e)
        ((p.x - s.x) * (e.x - s.x) + (p.y - s.y) * (e.y - s.y)) hD t h0 h1
      have hfu := f_expand s e p
        (max 0 (min 1 (((p.x - s.x) * (e.x - s.x) +
          (p.y - s.y) * (e.y - s.y)) / Pt.dist2 s e)))
      have hft := f_expand s e p t
      show Pt.dist2 p (lerp s e _) ≤ thr ^ 2
      rw [hfu]
      rw [hft] at hle
      linarith

/-- C7 (confirmed): the hit-test contract of findElementAtPoint.  It
returns none — and never fails — exactly when no node contains the
point, no label contains it, and no arrow passes the segment test
(stale arrows fail the test instead of failing the lookup); when some
node contains the point the result is that kind of hit: a node id of a
containing node, never the text label or arrow behind it; the arrow
segment test is exactly "some point of the derived closed segment is
within the threshold" in squared form; and the degenerate segment whose
endpoints coincide never matches.  At most one hit is returned by
construction (an Option). -/
theorem C7_hit_test (d : Diagram) (p : Pt) :
    (d.findElementAtPoint p = none ↔
      (∀ n ∈ JMap.values d.nodes, n.containsPoint p = false) ∧
      (∀ l ∈ JMap.values d.textLabels, l.containsPoint p = false) ∧
      (∀ a ∈ JMap.values d.arrows, Diagram.arrowHitB d a p = false)) ∧
    (∀ n ∈ JMap.values d.nodes, n.containsPoint p = true →
      ∃ n2, n2 ∈ JMap.values d.nodes ∧ n2.containsPoint p = true ∧
        d.findElementAtPoint p = some ⟨ElemType.node, n2.id⟩) ∧
    (∀ s e q thr, segContains s e q thr = true ↔
      (Pt.dist2 s e ≠ 0 ∧ 0 ≤ thr ∧
        ∃ t, 0 ≤ t ∧ t ≤ 1 ∧ Pt.dist2 q (lerp s e t) ≤ thr ^ 2)) ∧
    (∀ s q thr, segContains s s q thr = false) := by
  refine ⟨?_, ?_, fun s e q thr => segContains_iff s e q thr, ?_⟩
  · rw [Diagram.findElementAtPoint]
    cases hn : (JMap.values d.nodes).find? (fun n => n.containsPoint p) with
    | some n =>
      simp only []
      constructor
      · intro hc
        cases hc
      · rintro ⟨h1, -, -⟩
        have := List.find?_some hn
        rw [h1 n (List.mem_of_find?_eq_some hn)] at this
        cases this
    | none =>
      cases hlb : (JMap.values d.textLabels).find?
          (fun l => l.containsPoint p) with
      | some l =>
        simp only []
        constructor
        · intro hc
          cases hc
        · rintro ⟨-, h2, -⟩
          have := List.find?_some hlb
          rw [h2 l (List.mem_of_find?_eq_some hlb)] at this
          cases this
      | none =>
        cases ha : (JMap.values d.arrows).find? (fun a => Diagram.arrowHitB d a p) with
        | some a =>
          simp only []
          constructor
          · intro hc
            cases hc
          · rintro ⟨-, -, h3⟩
            have := List.find?_some ha
            rw [h3 a (List.mem_of_find?_eq_some ha)] at this
            cases this
        | none =>
          simp only []
          refine ⟨fun _ => ⟨?_, ?_, ?_⟩, fun _ => trivial⟩
          · intro n hn2
            have := List.find?_eq_none.mp hn n hn2
            simpa using this
          · intro l hl2
            have := List.find?_eq_none.mp hlb l hl2
            simpa using this
          · intro a ha2
            have := List.find?_eq_none.mp ha a ha2
            simpa using this
  · intro n hnmem hncont
    have hsome : ((JMap.values d.nodes).find?
        (fun n => n.containsPoint p)).isSome = true := by
      rw [List.find?_isSome]
      exact ⟨n, hnmem, by simp [hncont]⟩
    obtain ⟨n2, hn2⟩ := Option.isSome_iff_exists.mp hsome
    refine ⟨n2, List.mem_of_find?_eq_some hn2, by simpa using List.find?_some hn2, ?_⟩
    rw [Diagram.findElementAtPoint, hn2]
  · intro s q thr
    rw [segContains]
    dsimp only
    rw [if_pos ?_]
    show Pt.dist2 s s = 0
    simp [Pt.dist2]

theorem nA_contains_origin : nA.containsPoint ⟨0, 0⟩ = true := by
  with_unfolding_all rfl

theorem C7_witness :
    (dInit.addNode nA).findElementAtPoint ⟨0, 0⟩ =
      some ⟨ElemType.node, nA.id⟩ ∧
    segContains ⟨0, 0⟩ ⟨0, 0⟩ ⟨5, 5⟩ 10 = false ∧
    segContains ⟨0, 0⟩ ⟨100, 0⟩ ⟨50, 5⟩ 10 = true := by
  obtain ⟨h1, h2, h3, h4⟩ := C7_hit_test (dInit.addNode nA) ⟨0, 0⟩
  refine ⟨?_, h4 ⟨0, 0⟩ ⟨5, 5⟩ 10, ?_⟩
  · obtain ⟨n2, hmem, hcont, hres⟩ := h2 nA
      (show nA ∈ [nA] from List.mem_singleton.mpr rfl) nA_contains_origin
    have hn2 : n2 = nA := by
      have hm : n2 ∈ [nA] := hmem
      simpa using hm
    rw [hn2] at hres
    exact hres
  · refine (h3 ⟨0, 0⟩ ⟨100, 0⟩ ⟨50, 5⟩ 10).mpr
      ⟨?_, by norm_num, 1/2, by norm_num, by norm_num, ?_⟩
    · norm_num [Pt.dist2]
    · norm_num [Pt.dist2, lerp]

end StrategyMap
